import Mathlib

/-!
# Nat-Marks: scoring and aggregation engine

A shallow embedding of the logic inside the React views of the swim-time
tracker (`AddTimeForm.jsx`, `Dashboard.jsx`, ...).

Modelling conventions

* Form fields are JavaScript strings (`e.target.value`); `distance`, `style`
  and `poolSize` come from `<select>` elements over the constant arrays
  `DISTANCES`, `STYLES`, `POOL_SIZES`, so they are enumerations.
* A JavaScript number that is the result of `parseInt` is an `Option Int`,
  `none` standing for `NaN`: the integer the digits denote. It is the Number
  the engine holds as long as its magnitude is at most `2 ^ 53`, where
  binary64 is exact on integers; statements about such numbers carry that
  bound.
* A JavaScript number holding a time in seconds is a rational. Every finite
  double is a rational and comparisons of doubles are exact, so stored values
  and `<` are represented faithfully; the sum in `totalSecondsOf` is the exact
  value, before IEEE-754 rounding.
* The standardized points are computed as the engine does: `toDouble` is
  binary64 rounding, applied to the literals of `BASE_TIMES` and after the
  division and the multiplication; `Math.pow`, which ECMAScript leaves
  implementation-approximated, is a parameter `mathPow`.
* An object used as a map is the list of its own properties in insertion
  order (`getProp`, `setProp`); `Object.values` lists array-index keys first.
  Keys built from the enumerations never meet an inherited property; the
  free-text competition names can, and `statsStep` accounts for it.
* `Array.prototype.sort` is the stable sort (`arraySort`).
* The time value of `new Date(string)` is a parameter `dateValue`, `none`
  for an Invalid Date: ECMAScript fixes it on ISO strings only.
-/

namespace NatMarks

/-! ## `parseInt` -/

/-- ECMAScript `WhiteSpace` and `LineTerminator` code points, which
`parseInt` skips at the start of its argument. -/
def isWhiteSpace (c : Char) : Bool :=
  decide (c.toNat ∈ [0x09, 0x0A, 0x0B, 0x0C, 0x0D, 0x20, 0xA0, 0x1680, 0x2028, 0x2029,
    0x202F, 0x205F, 0x3000, 0xFEFF])
  || decide (0x2000 ≤ c.toNat ∧ c.toNat ≤ 0x200A)

/-- Value of a character as a digit: `0-9`, then `a-z` / `A-Z` for 10..35. -/
def digitValue (c : Char) : Option Nat :=
  if 48 ≤ c.toNat ∧ c.toNat ≤ 57 then some (c.toNat - 48)
  else if 97 ≤ c.toNat ∧ c.toNat ≤ 122 then some (c.toNat - 97 + 10)
  else if 65 ≤ c.toNat ∧ c.toNat ≤ 90 then some (c.toNat - 65 + 10)
  else none

/-- Value of a character as a digit of the given radix, if it is one. -/
def radixDigit (radix : Nat) (c : Char) : Option Nat :=
  match digitValue c with
  | some d => if d < radix then some d else none
  | none => none

/-- Value of the longest prefix made of digits of the radix; the accumulator
is `none` until a digit has been read, so an empty prefix gives `none`. -/
def parseDigits (radix : Nat) : Option Nat → List Char → Option Nat
  | acc, [] => acc
  | acc, c :: cs =>
    match radixDigit radix c with
    | some d => parseDigits radix (some (acc.getD 0 * radix + d)) cs
    | none => acc

/-- Sign and remainder of a trimmed `parseInt` argument. -/
def splitSign : List Char → Bool × List Char
  | '-' :: r => (true, r)
  | '+' :: r => (false, r)
  | t => (false, t)

/-- Magnitude read by `parseInt` without a radix argument: hexadecimal
after a `0x` / `0X` prefix, decimal otherwise. -/
def parseMagnitude : List Char → Option Nat
  | '0' :: 'x' :: r => parseDigits 16 none r
  | '0' :: 'X' :: r => parseDigits 16 none r
  | u => parseDigits 10 none u

/-- JavaScript `parseInt(s)` with no radix: skip leading white space, read
an optional sign, then digits; `none` is `NaN`. The result is the integer the
digits denote (`mathInt` in ECMAScript); the Number returned is that integer
when its magnitude is at most `2 ^ 53`, and the nearest binary64 value
beyond. -/
def parseInt (s : String) : Option Int :=
  let su := splitSign (s.data.dropWhile isWhiteSpace)
  (parseMagnitude su.2).map (fun m => if su.1 then -(m : Int) else (m : Int))

/-! ## `AddTimeForm.jsx`: scoring -/

/-- Function `calculatePoints`: `Math.max(0, 21 - parseInt(place || 21))`. The
argument is the form's `placement` string; the empty string is falsy, and
`parseInt(21)` reads the string `"21"`. -/
def calculatePoints (place : String) : Option Int :=
  (parseInt (if place = "" then "21" else place)).map (fun n => max 0 (21 - n))

/-- Entries of `DISTANCES`. -/
inductive Distance
  | m50 | m100 | m200 | m400 | m500 | m800 | m1500 | km1 | km1_5 | km2 | km3 | km5
  deriving DecidableEq, Repr

/-- Entries of `STYLES`. -/
inductive Style
  | Freestyle | Breaststroke | Butterfly | Backstroke | Medley
  deriving DecidableEq, Repr

/-- Entries of `POOL_SIZES`. -/
inductive PoolSize
  | m25 | m50 | OpenWater
  deriving DecidableEq, Repr

/-- The string of a `DISTANCES` entry. -/
def Distance.label : Distance → String
  | .m50 => "50m" | .m100 => "100m" | .m200 => "200m" | .m400 => "400m"
  | .m500 => "500m" | .m800 => "800m" | .m1500 => "1500m" | .km1 => "1km"
  | .km1_5 => "1.5km" | .km2 => "2km" | .km3 => "3km" | .km5 => "5km"

/-- The string of a `STYLES` entry. -/
def Style.label : Style → String
  | .Freestyle => "Freestyle" | .Breaststroke => "Breaststroke"
  | .Butterfly => "Butterfly" | .Backstroke => "Backstroke" | .Medley => "Medley"

/-- The string of a `POOL_SIZES` entry. -/
def PoolSize.label : PoolSize → String
  | .m25 => "25m" | .m50 => "50m" | .OpenWater => "Open Water"

/-- The array `DISTANCES`, in source order. -/
def DISTANCES : List Distance :=
  [.m50, .m100, .m200, .m400, .m500, .m800, .m1500, .km1, .km1_5, .km2, .km3, .km5]

/-- The array `STYLES`, in source order. -/
def STYLES : List Style :=
  [.Freestyle, .Breaststroke, .Butterfly, .Backstroke, .Medley]

/-- The array `POOL_SIZES`, in source order. -/
def POOL_SIZES : List PoolSize := [.m25, .m50, .OpenWater]

/-! ## Binary64 numbers -/

/-- Rounding of a rational to the nearest integer, a tie going to the even
neighbour. -/
def roundHalfEven (q : ℚ) : ℤ :=
  if q - ⌊q⌋ < 1 / 2 then ⌊q⌋
  else if 1 / 2 < q - ⌊q⌋ then ⌊q⌋ + 1
  else if ⌊q⌋ % 2 = 0 then ⌊q⌋ else ⌊q⌋ + 1

/-- The spacing of the binary64 values around a positive rational: 53
significant bits, the exponent no lower than -1022 (the subnormal range). -/
def ulp (x : ℚ) : ℚ := 2 ^ (max (Int.log 2 x) (-1022) - 52)

/-- The binary64 value nearest to a non-negative rational, ties to even. -/
def roundPositive (x : ℚ) : ℚ := roundHalfEven (x / ulp x) * ulp x

/-- The Number value of a real number: the nearest binary64 value, ties to
even (IEEE 754 round-to-nearest), which is the result of a numeric literal
and of `/` and `*` on the exact quotient and product. Magnitudes from
`2 ^ 1024` on, which round to an infinity, are not represented. -/
def toDouble (x : ℚ) : ℚ :=
  if x < 0 then -roundPositive (-x) else roundPositive x

/-- The table `BASE_TIMES`: reference times in seconds, keyed by style then
distance; each decimal literal denotes its binary64 value. -/
def BASE_TIMES : List (String × List (String × ℚ)) :=
  [("Freestyle",
      [("50m", toDouble 20.91), ("100m", toDouble 46.80), ("200m", toDouble 102.00),
       ("400m", toDouble 220.07), ("800m", toDouble 452.12), ("1500m", toDouble 871.02)]),
   ("Backstroke",
      [("50m", toDouble 23.55), ("100m", toDouble 51.60), ("200m", toDouble 111.92)]),
   ("Breaststroke",
      [("50m", toDouble 25.95), ("100m", toDouble 56.88), ("200m", toDouble 125.48)]),
   ("Butterfly",
      [("50m", toDouble 22.27), ("100m", toDouble 49.45), ("200m", toDouble 110.34)]),
   ("Medley", [("200m", toDouble 114.00), ("400m", toDouble 242.50)])]

/-- The lookup `BASE_TIMES[style]?.[distance]`; `none` is `undefined`. -/
def baseTimeOf (style : Style) (distance : Distance) : Option ℚ :=
  (BASE_TIMES.lookup style.label).bind (fun row => row.lookup distance.label)

/-- Function `calculateFinaPoints`: 0 for open water, for a falsy base time
(`undefined` or 0) and for `totalSeconds <= 0`; otherwise
`Math.floor(1000 * Math.pow(baseTime / totalSeconds, 3))`, the quotient and
the product rounded to binary64 and `Math.pow` being the engine's function
`mathPow`. -/
def calculateFinaPoints (mathPow : ℚ → ℚ → ℚ) (totalSeconds : ℚ) (distance : Distance)
    (style : Style) (poolSize : PoolSize) : ℤ :=
  if poolSize.label = "Open Water" then 0
  else
    match baseTimeOf style distance with
    | none => 0
    | some baseTime =>
      if baseTime = 0 ∨ totalSeconds ≤ 0 then 0
      else ⌊toDouble (1000 * mathPow (toDouble (baseTime / totalSeconds)) 3)⌋

/-! ## `AddTimeForm.jsx`: submitting a result -/

/-- The `formData` state of the form. The text and number inputs hold
strings; the three `<select>`s range over the constant arrays. -/
structure FormData where
  swimmerId : String
  distance : Distance
  style : Style
  poolSize : PoolSize
  minutes : String
  seconds : String
  milliseconds : String
  placement : String
  date : String
  competition : String
  competitionLocation : String
  deriving DecidableEq, Repr

/-- A stored time record. `id` is assigned by the store (absent on the object
built by the form); `poolSize`, `points` and `finaPoints` may be absent on
legacy records; `placement` and `points` are `none` when absent or `NaN`. -/
structure TimeRecord where
  id : Option String
  swimmerId : String
  distance : Distance
  style : Style
  poolSize : Option PoolSize
  time : String
  totalSeconds : ℚ
  placement : Option Int
  points : Option Int
  finaPoints : Option Int
  date : String
  competition : String
  competitionLocation : String
  deriving DecidableEq, Repr

/-- The method `String.prototype.padStart(targetLength, fill)` for a one-character fill. -/
def padStart (s : String) (targetLength : Nat) (fill : Char) : String :=
  String.mk (List.replicate (targetLength - s.length) fill) ++ s

/-- The template literal of `handleSubmit` that builds the display string.
The three numbers are integers; the decimal digits of `minutes` are what
Number-to-string conversion yields for an integer of magnitude at most
`2 ^ 53` (beyond, the engine holds a rounded value and from `10 ^ 21` on
prints an exponent). -/
def timeString (minutes seconds milliseconds : Int) : String :=
  (if minutes > 0 then toString minutes ++ ":" else "")
    ++ padStart (toString seconds) 2 '0' ++ "." ++ padStart (toString milliseconds) 2 '0'

/-- The expression `minutes * 60 + seconds + milliseconds / 100`. -/
def totalSecondsOf (minutes seconds milliseconds : Int) : ℚ :=
  (minutes : ℚ) * 60 + (seconds : ℚ) + (milliseconds : ℚ) / 100

/-- Function `handleSubmit`: the validation toasts are the error values (their
titles), an accepted submission yields the object passed to `onAddTime`;
`mathPow` is the engine's `Math.pow`, used by `calculateFinaPoints`. -/
def handleSubmit (mathPow : ℚ → ℚ → ℚ) (formData : FormData) : Except String TimeRecord :=
  if formData.swimmerId = "" then .error "Swimmer Required"
  else if formData.seconds = "" ∨ formData.competition = "" then
    .error "Missing information"
  else
    let minutes := (parseInt formData.minutes).getD 0
    let seconds := (parseInt formData.seconds).getD 0
    let milliseconds := (parseInt formData.milliseconds).getD 0
    if seconds < 0 ∨ seconds ≥ 60 ∨ milliseconds < 0 ∨ milliseconds ≥ 100 then
      .error "Invalid time"
    else
      let totalSeconds := totalSecondsOf minutes seconds milliseconds
      .ok
        { id := none
          swimmerId := formData.swimmerId
          distance := formData.distance
          style := formData.style
          poolSize := some formData.poolSize
          time := timeString minutes seconds milliseconds
          totalSeconds := totalSeconds
          placement := parseInt formData.placement
          points := calculatePoints formData.placement
          finaPoints := some (calculateFinaPoints mathPow totalSeconds formData.distance
            formData.style formData.poolSize)
          date := formData.date
          competition := formData.competition
          competitionLocation := formData.competitionLocation }

/-- A decimal digit character, `0` to `9`. -/
def isDecimalDigit (c : Char) : Prop := 48 ≤ c.toNat ∧ c.toNat ≤ 57

/-- The 17 (style, distance) pairs the specification lists as having a
base time. -/
def specBasePairs : List (Style × Distance) :=
  [(.Freestyle, .m50), (.Freestyle, .m100), (.Freestyle, .m200), (.Freestyle, .m400),
   (.Freestyle, .m800), (.Freestyle, .m1500),
   (.Backstroke, .m50), (.Backstroke, .m100), (.Backstroke, .m200),
   (.Breaststroke, .m50), (.Breaststroke, .m100), (.Breaststroke, .m200),
   (.Butterfly, .m50), (.Butterfly, .m100), (.Butterfly, .m200),
   (.Medley, .m200), (.Medley, .m400)]

/-! ## JavaScript objects used as maps -/

/-- Read `obj[key]` for an object given by its own properties in insertion
order; `none` is `undefined`. -/
def getProp {α : Type} (obj : List (String × α)) (key : String) : Option α :=
  match obj with
  | [] => none
  | (k, v) :: rest => if k = key then some v else getProp rest key

/-- Assignment `obj[key] = value`: an existing property is overwritten in place, a new
one is added after the others. -/
def setProp {α : Type} (obj : List (String × α)) (key : String) (value : α) :
    List (String × α) :=
  match obj with
  | [] => [(key, value)]
  | (k, v) :: rest =>
    if k = key then (k, value) :: rest else (k, v) :: setProp rest key value

/-! ## `Dashboard.jsx`: best times -/

/-- The template literal `distance-style-poolSize` used as grouping key. -/
def eventKey (distance : Distance) (style : Style) (poolSize : PoolSize) : String :=
  distance.label ++ "-" ++ style.label ++ "-" ++ poolSize.label

/-- The expression `time.poolSize || '50m'`. -/
def TimeRecord.poolSizeOrDefault (time : TimeRecord) : PoolSize :=
  time.poolSize.getD .m50

/-- The key of a record: its distance, style and pool size (or `50m`). -/
def timeKey (time : TimeRecord) : String :=
  eventKey time.distance time.style time.poolSizeOrDefault

/-- One iteration of the `forEach` of `bestTimes`: store the record when the
key has no entry yet or the record is strictly faster than the entry. -/
def bestStep (best : List (String × TimeRecord)) (time : TimeRecord) :
    List (String × TimeRecord) :=
  match getProp best (timeKey time) with
  | none => setProp best (timeKey time) time
  | some b =>
    if time.totalSeconds < b.totalSeconds then setProp best (timeKey time) time else best

/-- The memo `bestTimes` of the dashboard: a single pass over `times`, starting from
the empty object. -/
def bestTimes (times : List TimeRecord) : List (String × TimeRecord) :=
  times.foldl bestStep []

/-! ## Built-in array and object operations -/

/-- The method `Array.prototype.sort(compareFn)`. ECMAScript requires the
sort to be stable, so for a consistent comparator the result is the one
arrangement in which `compareFn(a, b) <= 0` for neighbours and ties keep
their input order; insertion from the right computes it. -/
def arraySort {α : Type} (compareFn : α → α → ℚ) (l : List α) : List α :=
  l.insertionSort (fun a b => compareFn a b ≤ 0)

/-- The value of a property key that is an array index: the canonical decimal
string of an integer below `2 ^ 32 - 1`. -/
def arrayIndex (key : String) : Option Nat :=
  let n := key.data.foldl (fun acc c => acc * 10 + (c.toNat - 48)) 0
  if toString n = key ∧ n < 4294967295 then some n else none

/-- The function `Object.values(obj)`: array-index keys first, in ascending
numeric order, then the other keys in insertion order. -/
def objectValues {α : Type} (obj : List (String × α)) : List α :=
  ((obj.filter (fun kv => (arrayIndex kv.1).isSome)).insertionSort
      (fun a b => (arrayIndex a.1).getD 0 ≤ (arrayIndex b.1).getD 0)).map Prod.snd
    ++ (obj.filter (fun kv => (arrayIndex kv.1).isNone)).map Prod.snd

/-- The property names every object literal inherits from `Object.prototype`;
each of them reads as a truthy value (a function, or the prototype itself)
on an object that has no own property of that name. -/
def objectPrototypeKeys : List String :=
  ["constructor", "__defineGetter__", "__defineSetter__", "hasOwnProperty",
   "__lookupGetter__", "__lookupSetter__", "isPrototypeOf", "propertyIsEnumerable",
   "toString", "valueOf", "__proto__", "toLocaleString"]

/-! ## `Dashboard.jsx`: competition statistics -/

/-- The comparison `new Date(a) > new Date(b)` on time values, `none` being
the `NaN` of an Invalid Date. -/
def dateGreater (a b : Option Int) : Bool :=
  match a, b with
  | some x, some y => decide (x > y)
  | _, _ => false

/-- The difference `new Date(a) - new Date(b)` as a sort comparator result;
`NaN` counts as `+0` in a comparator. -/
def dateDiff (a b : Option Int) : ℚ :=
  match a, b with
  | some x, some y => ((x - y : Int) : ℚ)
  | _, _ => 0

/-- An entry of `competitionStats`. -/
structure CompetitionEntry where
  name : String
  location : String
  date : String
  points : Int
  events : Nat
  deriving DecidableEq, Repr

/-- One iteration of the `forEach` of `competitionStats`. `dateValue` is the
time value of `new Date(string)` (`none` for an Invalid Date). For a name
inherited from `Object.prototype` the test `!stats[name]` is false, no own
property is created and the updates land on the inherited object, so `stats`
keeps its own properties. Otherwise the entry (a fresh one when absent) gets
the points and the event added, and the date and location of the record when
the record is strictly later. -/
def statsStep (dateValue : String → Option Int) (stats : List (String × CompetitionEntry))
    (time : TimeRecord) : List (String × CompetitionEntry) :=
  if time.competition ∈ objectPrototypeKeys then stats
  else
    let entry := (getProp stats time.competition).getD
      { name := time.competition, location := time.competitionLocation,
        date := time.date, points := 0, events := 0 }
    let counted := { entry with points := entry.points + time.points.getD 0,
                                events := entry.events + 1 }
    setProp stats time.competition
      (if dateGreater (dateValue time.date) (dateValue counted.date) then
        { counted with date := time.date, location := time.competitionLocation }
      else counted)

/-- The memo `competitionStats`: one pass, then `Object.values` sorted by
`new Date(b.date) - new Date(a.date)`. -/
def competitionStats (dateValue : String → Option Int) (times : List TimeRecord) :
    List CompetitionEntry :=
  arraySort (fun a b => dateDiff (dateValue b.date) (dateValue a.date))
    (objectValues (times.foldl (statsStep dateValue) []))

/-! ## `Leaderboard.jsx` -/

/-- A swimmer profile. -/
structure Swimmer where
  id : String
  name : String
  location : String
  deriving DecidableEq, Repr

/-- An entry of `ranking`: the spread swimmer with `totalPoints` and
`raceCount`. -/
structure RankingEntry where
  swimmer : Swimmer
  totalPoints : Int
  raceCount : Nat
  deriving DecidableEq, Repr

/-- The callback of `swimmers.map` in `ranking`. -/
def rankingEntry (times : List TimeRecord) (swimmer : Swimmer) : RankingEntry :=
  let swimmerTimes := times.filter (fun t => t.swimmerId = swimmer.id)
  { swimmer := swimmer
    totalPoints := swimmerTimes.foldl (fun sum t => sum + t.points.getD 0) 0
    raceCount := swimmerTimes.length }

/-- The memo `ranking`: entries sorted by `b.totalPoints - a.totalPoints`. -/
def ranking (swimmers : List Swimmer) (times : List TimeRecord) : List RankingEntry :=
  arraySort (fun a b => ((b.totalPoints - a.totalPoints : Int) : ℚ))
    (swimmers.map (rankingEntry times))

/-! ## `RecordsView.jsx` -/

/-- A value of `groupedRecords`. -/
structure RecordGroup where
  distance : Distance
  style : Style
  poolSize : PoolSize
  times : List TimeRecord
  deriving DecidableEq, Repr

/-- The memo `filteredTimes`; a filter is `none` for the option `all`. -/
def filteredTimes (selectedDistance : Option Distance) (selectedStyle : Option Style)
    (selectedPoolSize : Option PoolSize) (times : List TimeRecord) : List TimeRecord :=
  let byDistance := match selectedDistance with
    | none => times
    | some d => times.filter (fun time => time.distance = d)
  let byStyle := match selectedStyle with
    | none => byDistance
    | some s => byDistance.filter (fun time => time.style = s)
  let byPool := match selectedPoolSize with
    | none => byStyle
    | some p => byStyle.filter (fun time => time.poolSizeOrDefault = p)
  arraySort (fun a b => a.totalSeconds - b.totalSeconds) byPool

/-- One iteration of the first `forEach` of `groupedRecords`: create the
group when the key is new, then push the record onto its `times`. -/
def groupStep (grouped : List (String × RecordGroup)) (time : TimeRecord) :
    List (String × RecordGroup) :=
  let group := (getProp grouped (timeKey time)).getD
    { distance := time.distance, style := time.style,
      poolSize := time.poolSizeOrDefault, times := [] }
  setProp grouped (timeKey time) { group with times := group.times ++ [time] }

/-- The body of the second `forEach` of `groupedRecords`: sort the `times`
of a group in place by `a.totalSeconds - b.totalSeconds`. -/
def sortGroup (group : RecordGroup) : RecordGroup :=
  { group with times := arraySort (fun a b => a.totalSeconds - b.totalSeconds) group.times }

/-- The memo `groupedRecords`: group the filtered records, then sort the
`times` of every group. -/
def groupedRecords (selectedDistance : Option Distance) (selectedStyle : Option Style)
    (selectedPoolSize : Option PoolSize) (times : List TimeRecord) :
    List (String × RecordGroup) :=
  ((filteredTimes selectedDistance selectedStyle selectedPoolSize times).foldl groupStep []).map
    (fun kv => (kv.1, sortGroup kv.2))

/-! ## `ComparisonView.jsx` -/

/-- Function `getBestTime`: the swimmer's records of the event, reduced from
the first one by `curr.totalSeconds < best.totalSeconds ? curr : best`;
`none` is `null`. -/
def getBestTime (times : List TimeRecord) (swimmerId : String) (distance : Distance)
    (style : Style) (poolSize : PoolSize) : Option TimeRecord :=
  match times.filter (fun t => t.swimmerId = swimmerId ∧ t.distance = distance
      ∧ t.style = style ∧ t.poolSizeOrDefault = poolSize) with
  | [] => none
  | first :: rest =>
    some (rest.foldl (fun best curr =>
      if curr.totalSeconds < best.totalSeconds then curr else best) first)

/-- An entry of `comparisons`. -/
structure Comparison where
  event : String
  time1 : Option TimeRecord
  time2 : Option TimeRecord
  winner : Nat
  deriving DecidableEq, Repr

/-- The template literal `distance style (poolSize)` of an entry. -/
def eventLabel (distance : Distance) (style : Style) (poolSize : PoolSize) : String :=
  distance.label ++ " " ++ style.label ++ " (" ++ poolSize.label ++ ")"

/-- The conditional expression stored as `winner`:
`!time1 ? 2 : !time2 ? 1 : time1.totalSeconds < time2.totalSeconds ? 1 : 2`. -/
def winnerOf (time1 time2 : Option TimeRecord) : Nat :=
  match time1, time2 with
  | none, _ => 2
  | some _, none => 1
  | some a, some b => if a.totalSeconds < b.totalSeconds then 1 else 2

/-- The body of the innermost `forEach` of `comparisons`: the entry pushed
for one combination, if any. -/
def comparisonFor (swimmer1Id swimmer2Id : String) (times : List TimeRecord)
    (style : Style) (distance : Distance) (poolSize : PoolSize) : List Comparison :=
  let time1 := getBestTime times swimmer1Id distance style poolSize
  let time2 := getBestTime times swimmer2Id distance style poolSize
  if time1.isSome ∨ time2.isSome then
    [{ event := eventLabel distance style poolSize
       time1 := time1
       time2 := time2
       winner := winnerOf time1 time2 }]
  else []

/-- The memo `comparisons`: empty unless both swimmers are selected, else the
entries over styles, then distances, then pool sizes. -/
def comparisons (swimmer1Id swimmer2Id : String) (times : List TimeRecord) :
    List Comparison :=
  if swimmer1Id = "" ∨ swimmer2Id = "" then []
  else
    STYLES.flatMap (fun style =>
      DISTANCES.flatMap (fun distance =>
        POOL_SIZES.flatMap (fun poolSize =>
          comparisonFor swimmer1Id swimmer2Id times style distance poolSize)))

/-- The record with an absent pool size replaced by `50m`. -/
def TimeRecord.withDefaultPool (time : TimeRecord) : TimeRecord :=
  { time with poolSize := some time.poolSizeOrDefault }

/-- The group with the same replacement in each of its records. -/
def RecordGroup.withDefaultPool (group : RecordGroup) : RecordGroup :=
  { group with times := group.times.map TimeRecord.withDefaultPool }

/-- The head-to-head entry with the same replacement in both of its records. -/
def Comparison.withDefaultPool (entry : Comparison) : Comparison :=
  { entry with time1 := entry.time1.map TimeRecord.withDefaultPool,
               time2 := entry.time2.map TimeRecord.withDefaultPool }

/-- The faster of the entry so far and the current record, the entry winning
ties: the choice made by `bestTimes` and by the reducer of `getBestTime`. -/
def fasterOf (best : Option TimeRecord) (curr : TimeRecord) : TimeRecord :=
  match best with
  | none => curr
  | some b => if curr.totalSeconds < b.totalSeconds then curr else b

/-- All combinations in the order of the three nested loops of `comparisons`:
styles outermost, then distances, then pool sizes. -/
def allCombinations : List (Style × Distance × PoolSize) :=
  STYLES.flatMap (fun style =>
    DISTANCES.flatMap (fun distance =>
      POOL_SIZES.map (fun poolSize => (style, distance, poolSize))))

/-- The entry as it stands when the two swimmers are exchanged. -/
def Comparison.swap (entry : Comparison) : Comparison :=
  { event := entry.event
    time1 := entry.time2
    time2 := entry.time1
    winner := winnerOf entry.time2 entry.time1 }

/-! ## Points totals of `Dashboard.jsx` and `SwimmerProfiles.jsx` -/

/-- The memo `totalPoints` of the dashboard, over the records it is given. -/
def totalPoints (times : List TimeRecord) : Int :=
  times.foldl (fun sum time => sum + time.points.getD 0) 0

/-- The constant `swimmerPoints` of a card in the profile list. -/
def swimmerPoints (times : List TimeRecord) (swimmer : Swimmer) : Int :=
  (times.filter (fun t => t.swimmerId = swimmer.id)).foldl
    (fun sum t => sum + t.points.getD 0) 0

/-- A record satisfies all active filters: each filter is either off
(`none`) or equal to the record's distance, style, pool size (`50m` when
absent). -/
def passesFilters (selectedDistance : Option Distance) (selectedStyle : Option Style)
    (selectedPoolSize : Option PoolSize) (time : TimeRecord) : Bool :=
  decide ((selectedDistance = none ∨ selectedDistance = some time.distance)
    ∧ (selectedStyle = none ∨ selectedStyle = some time.style)
    ∧ (selectedPoolSize = none ∨ selectedPoolSize = some time.poolSizeOrDefault))

/-- The comparison `new Date(a) >= new Date(b)` on time values; it is false
when either date is invalid. -/
def dateGE (a b : Option Int) : Bool :=
  match a, b with
  | some x, some y => decide (x ≥ y)
  | _, _ => false

/-- A reading of dates for the examples: the two ISO dates used in the sample
records, as milliseconds since the epoch; every other string, the empty one
included, is an Invalid Date. -/
def sampleDateValue (date : String) : Option Int :=
  if date = "2024-05-01" then some 1714521600000
  else if date = "2024-06-01" then some 1717200000000
  else none

/-- An example of the engine's `Math.pow` for the non-negative integer
exponents, of which the program uses 3: the correctly rounded power. -/
def sampleMathPow (base exponent : ℚ) : ℚ := toDouble (base ^ exponent.num.toNat)

/-- A form whose seconds field holds `590e-1`, a spelling of the number 59
that the number input accepts as a whole number within `0..59`. -/
def exponentSecondsForm : FormData :=
  { swimmerId := "s1", distance := .m100, style := .Freestyle, poolSize := .m50,
    minutes := "", seconds := "590e-1", milliseconds := "", placement := "1",
    date := "2024-05-01", competition := "Club Meet", competitionLocation := "" }

/-- A form whose seconds field holds `6e1`, a spelling of the number 60. -/
def sixtySecondsForm : FormData :=
  { swimmerId := "s1", distance := .m100, style := .Freestyle, poolSize := .m50,
    minutes := "", seconds := "6e1", milliseconds := "", placement := "1",
    date := "2024-05-01", competition := "Club Meet", competitionLocation := "" }

/-- A form filled with a time of 0 minutes, 0 seconds, 0 centiseconds. -/
def zeroTimeForm : FormData :=
  { swimmerId := "s1", distance := .m100, style := .Freestyle, poolSize := .m50,
    minutes := "", seconds := "0", milliseconds := "", placement := "1",
    date := "2024-05-01", competition := "Club Meet", competitionLocation := "" }

/-- A form filled with placement 0 and a time of 30 seconds. -/
def zeroPlacementForm : FormData :=
  { swimmerId := "s1", distance := .m100, style := .Freestyle, poolSize := .m50,
    minutes := "", seconds := "30", milliseconds := "", placement := "0",
    date := "2024-05-01", competition := "Club Meet", competitionLocation := "" }

/-- A form filled with a time of 1:05.30 and first place. -/
def sampleForm : FormData :=
  { swimmerId := "s1", distance := .m100, style := .Freestyle, poolSize := .m50,
    minutes := "1", seconds := "5", milliseconds := "30", placement := "1",
    date := "2024-05-01", competition := "Club Meet", competitionLocation := "" }

/-- A legacy record (no pool size) of 62.0 s over 100m Freestyle. -/
def slowRecord : TimeRecord :=
  { id := some "t1", swimmerId := "s1", distance := .m100, style := .Freestyle,
    poolSize := none, time := "1:02.00", totalSeconds := 62, placement := some 3,
    points := some 18, finaPoints := none, date := "2024-05-01",
    competition := "Club Meet", competitionLocation := "" }

/-- A record of 60.5 s over 100m Freestyle in a 50m pool. -/
def fastRecord : TimeRecord :=
  { id := some "t2", swimmerId := "s1", distance := .m100, style := .Freestyle,
    poolSize := some .m50, time := "1:00.50", totalSeconds := 60.5, placement := some 1,
    points := some 20, finaPoints := some 464, date := "2024-06-01",
    competition := "State Championships", competitionLocation := "Sydney" }

/-- A later record of 60.5 s over 100m Freestyle in a 50m pool, tying
`fastRecord`. -/
def tieRecord : TimeRecord :=
  { id := some "t3", swimmerId := "s1", distance := .m100, style := .Freestyle,
    poolSize := some .m50, time := "1:00.50", totalSeconds := 60.5, placement := some 2,
    points := some 19, finaPoints := some 464, date := "2024-07-01",
    competition := "Nationals", competitionLocation := "Perth" }

/-- Three swimmers, in profile order. -/
def sampleSwimmers : List Swimmer :=
  [{ id := "s1", name := "Ann", location := "Perth" },
   { id := "s2", name := "Bea", location := "Sydney" },
   { id := "s3", name := "Cleo", location := "Hobart" }]

/-- Records worth 5 points for `s1`, 20 for `s2` and 20 for `s3`. -/
def sampleRaces : List TimeRecord :=
  [{ slowRecord with id := some "r1", swimmerId := "s1", points := some 5 },
   { slowRecord with id := some "r2", swimmerId := "s2", points := some 12 },
   { fastRecord with id := some "r3", swimmerId := "s3", points := some 20 },
   { fastRecord with id := some "r4", swimmerId := "s2", points := some 8 }]

/-- A record of 2:20.00 over 200m Medley in a 25m pool, by swimmer `s2`. -/
def medleyRecord : TimeRecord :=
  { id := some "t4", swimmerId := "s2", distance := .m200, style := .Medley,
    poolSize := some .m25, time := "2:20.00", totalSeconds := 140, placement := some 4,
    points := some 17, finaPoints := some 539, date := "2024-06-01",
    competition := "State Championships", competitionLocation := "Sydney" }

/-- A record of the competition named `constructor`. -/
def constructorRecord : TimeRecord :=
  { fastRecord with id := some "t5", competition := "constructor" }

/-- A record of the club meet whose date field was left empty. -/
def undatedRecord : TimeRecord :=
  { slowRecord with id := some "t6", date := "", competitionLocation := "Perth",
                    points := some 10 }

/-- A later record of the club meet, dated 2024-06-01, in Hobart. -/
def laterClubRecord : TimeRecord :=
  { slowRecord with id := some "t7", date := "2024-06-01", competitionLocation := "Hobart",
                    points := some 5 }

/-- The swimmer `s1` of the sample records. -/
def sampleSwimmer : Swimmer := { id := "s1", name := "Ann", location := "Perth" }

/-! ## Reading back decimal numbers -/

theorem digitChar_toNat (d : Nat) (h : d < 10) : (Nat.digitChar d).toNat = 48 + d := by
  interval_cases d <;> rfl

theorem radixDigit_digitChar (d : Nat) (h : d < 10) :
    radixDigit 10 (Nat.digitChar d) = some d := by
  interval_cases d <;> rfl

theorem parseDigits_toDigitsCore (fuel : Nat) :
    ∀ (n : Nat) (ds : List Char), n < fuel →
      parseDigits 10 none (Nat.toDigitsCore 10 fuel n ds) = parseDigits 10 (some n) ds := by
  induction fuel with
  | zero => intro n ds h; omega
  | succ fuel ih =>
    intro n ds h
    have hd : radixDigit 10 (Nat.digitChar (n % 10)) = some (n % 10) :=
      radixDigit_digitChar _ (Nat.mod_lt _ (by norm_num))
    simp only [Nat.toDigitsCore]
    split
    · next h0 =>
      have : n % 10 = n := by omega
      rw [parseDigits, hd]
      simp [this]
    · next h0 =>
      rw [ih (n / 10) _ (by omega)]
      have : n / 10 * 10 + n % 10 = n := by omega
      rw [parseDigits, hd]
      simp [this]

theorem toDigitsCore_decimal (fuel : Nat) :
    ∀ (n : Nat) (ds : List Char), (∀ c ∈ ds, isDecimalDigit c) →
      ∀ c ∈ Nat.toDigitsCore 10 fuel n ds, isDecimalDigit c := by
  induction fuel with
  | zero => intro n ds h; simpa [Nat.toDigitsCore] using h
  | succ fuel ih =>
    intro n ds h
    have hd : isDecimalDigit (Nat.digitChar (n % 10)) := by
      have := digitChar_toNat (n % 10) (Nat.mod_lt _ (by norm_num))
      unfold isDecimalDigit
      omega
    simp only [Nat.toDigitsCore]
    split
    · intro c hc
      rcases List.mem_cons.1 hc with rfl | hc
      · exact hd
      · exact h c hc
    · apply ih
      intro c hc
      rcases List.mem_cons.1 hc with rfl | hc
      · exact hd
      · exact h c hc

theorem toDigitsCore_ne_nil (fuel n : Nat) (ds : List Char) (h : n < fuel) :
    Nat.toDigitsCore 10 fuel n ds ≠ [] := by
  induction fuel generalizing n ds with
  | zero => omega
  | succ fuel ih =>
    simp only [Nat.toDigitsCore]
    split
    · simp
    · exact ih _ _ (by omega)

theorem dropWhile_decimal (l : List Char) (hne : l ≠ []) (h : ∀ c ∈ l, isDecimalDigit c) :
    l.dropWhile isWhiteSpace = l := by
  cases l with
  | nil => exact absurd rfl hne
  | cons c r =>
    have hc := h c (List.mem_cons_self _ _)
    unfold isDecimalDigit at hc
    have : isWhiteSpace c = false := by
      simp [isWhiteSpace]
      omega
    simp [List.dropWhile, this]


theorem splitSign_decimal (l : List Char) (h : ∀ c ∈ l, isDecimalDigit c) :
    splitSign l = (false, l) := by
  unfold splitSign
  split
  · next r =>
    have := h _ (List.mem_cons_self _ _)
    exact absurd this (by unfold isDecimalDigit; decide)
  · next r =>
    have := h _ (List.mem_cons_self _ _)
    exact absurd this (by unfold isDecimalDigit; decide)
  · rfl

theorem parseMagnitude_decimal (l : List Char) (h : ∀ c ∈ l, isDecimalDigit c) :
    parseMagnitude l = parseDigits 10 none l := by
  unfold parseMagnitude
  split
  · next r =>
    have := h 'x' (by simp)
    exact absurd this (by unfold isDecimalDigit; decide)
  · next r =>
    have := h 'X' (by simp)
    exact absurd this (by unfold isDecimalDigit; decide)
  · rfl

theorem toString_nat_data (n : Nat) : (toString n).data = Nat.toDigitsCore 10 (n + 1) n [] := rfl

theorem parseMagnitude_toString (n : Nat) : parseMagnitude (toString n).data = some n := by
  rw [toString_nat_data, parseMagnitude_decimal _ (toDigitsCore_decimal _ _ _ (by simp)),
    parseDigits_toDigitsCore _ _ _ (Nat.lt_succ_self n)]
  rfl

/-- Function `parseInt` reads back the decimal representation of every integer. -/
theorem parseInt_toString (p : Int) : parseInt (toString p) = some p := by
  cases p with
  | ofNat n =>
    have hdec : ∀ c ∈ (toString n).data, isDecimalDigit c := by
      rw [toString_nat_data]; exact toDigitsCore_decimal _ _ _ (by simp)
    have hne : (toString n).data ≠ [] := by
      rw [toString_nat_data]; exact toDigitsCore_ne_nil _ _ _ (Nat.lt_succ_self n)
    show parseInt (toString n) = some (n : Int)
    unfold parseInt
    simp only [dropWhile_decimal _ hne hdec, splitSign_decimal _ hdec, parseMagnitude_toString]
    simp
  | negSucc n =>
    have hdec : ∀ c ∈ (toString (n + 1)).data, isDecimalDigit c := by
      rw [toString_nat_data]; exact toDigitsCore_decimal _ _ _ (by simp)
    show parseInt ("-" ++ toString (n + 1)) = some (Int.negSucc n)
    unfold parseInt
    have h1 : ("-" ++ toString (n + 1)).data = '-' :: (toString (n + 1)).data := by simp
    have h2 : List.dropWhile isWhiteSpace ('-' :: (toString (n + 1)).data)
        = '-' :: (toString (n + 1)).data := by
      rw [List.dropWhile_cons]
      have : isWhiteSpace '-' = false := by decide
      simp [this]
    simp only [h1, h2, splitSign, parseMagnitude_toString]
    simp [Int.negSucc_eq]


theorem toString_int_ne_empty (p : Int) : toString p ≠ "" := by
  intro h
  have := parseInt_toString p
  have hnone : parseInt "" = none := by decide
  rw [h, hnone] at this
  exact Option.noConfusion this

/-! ## Placement points -/

/-- C1: for every integer placement `p` from `-(2 ^ 53 - 21)` to `2 ^ 53`,
given as its decimal string, `calculatePoints` returns `max(0, 21 - p)`; in
this range `parseInt` and the subtraction are exact on binary64 numbers. The
missing (empty) placement is read as 21 and gives 0; every placement `>= 21`
of the range gives 0; first place gives 20 and place 25 gives 0. -/
theorem calculatePoints_eq_max :
    (∀ p : Int, -(2 ^ 53 - 21) ≤ p → p ≤ 2 ^ 53 →
      calculatePoints (toString p) = some (max 0 (21 - p)))
    ∧ calculatePoints "" = some 0
    ∧ (∀ p : Int, 21 ≤ p → p ≤ 2 ^ 53 → calculatePoints (toString p) = some 0)
    ∧ calculatePoints "1" = some 20 ∧ calculatePoints "25" = some 0 := by
  have key : ∀ p : Int, calculatePoints (toString p) = some (max 0 (21 - p)) := by
    intro p
    unfold calculatePoints
    rw [if_neg (toString_int_ne_empty p), parseInt_toString]
    rfl
  refine ⟨fun p _ _ => key p, by decide, ?_, by decide, by decide⟩
  intro p hp _
  rw [key p]
  congr 1
  omega

/-- Witness for C1 at placement 25. -/
theorem calculatePoints_eq_max_witness :
    (21 : Int) ≤ 25 ∧ (25 : Int) ≤ 2 ^ 53 ∧ calculatePoints (toString (25 : Int)) = some 0 :=
  ⟨by decide, by decide, calculatePoints_eq_max.2.2.1 25 (by decide) (by decide)⟩

/-! ## Binary64 rounding -/

theorem roundHalfEven_floor_le (q : ℚ) : ⌊q⌋ ≤ roundHalfEven q := by
  unfold roundHalfEven
  split_ifs <;> omega

theorem roundHalfEven_le_floor_succ (q : ℚ) : roundHalfEven q ≤ ⌊q⌋ + 1 := by
  unfold roundHalfEven
  split_ifs <;> omega

theorem roundHalfEven_mono {q1 q2 : ℚ} (h : q1 ≤ q2) : roundHalfEven q1 ≤ roundHalfEven q2 := by
  have hf : ⌊q1⌋ ≤ ⌊q2⌋ := Int.floor_le_floor h
  rcases lt_or_eq_of_le hf with hlt | heq
  · calc roundHalfEven q1 ≤ ⌊q1⌋ + 1 := roundHalfEven_le_floor_succ q1
      _ ≤ ⌊q2⌋ := hlt
      _ ≤ roundHalfEven q2 := roundHalfEven_floor_le q2
  · unfold roundHalfEven
    rw [heq]
    have hfr : q1 - (⌊q2⌋ : ℚ) ≤ q2 - (⌊q2⌋ : ℚ) := by linarith
    split_ifs <;> first | omega | linarith

theorem roundHalfEven_intCast (n : ℤ) : roundHalfEven (n : ℚ) = n := by
  unfold roundHalfEven
  simp

theorem abs_roundHalfEven_sub_le (q : ℚ) : |(roundHalfEven q : ℚ) - q| ≤ 1 / 2 := by
  have h1 : (⌊q⌋ : ℚ) ≤ q := Int.floor_le q
  have h2 : q < (⌊q⌋ : ℚ) + 1 := Int.lt_floor_add_one q
  unfold roundHalfEven
  rw [abs_le]
  split_ifs <;> push_cast <;> constructor <;> linarith

theorem ulp_pos (x : ℚ) : 0 < ulp x := by
  unfold ulp
  positivity

theorem roundPositive_nonneg {x : ℚ} (hx : 0 ≤ x) : 0 ≤ roundPositive x := by
  unfold roundPositive
  have h0 : (0 : ℤ) ≤ roundHalfEven (x / ulp x) := by
    have := roundHalfEven_mono (div_nonneg hx (le_of_lt (ulp_pos x)))
    rwa [show ((0 : ℚ)) = ((0 : ℤ) : ℚ) by simp, roundHalfEven_intCast] at this
  have : (0 : ℚ) ≤ (roundHalfEven (x / ulp x) : ℚ) := by exact_mod_cast h0
  exact mul_nonneg this (le_of_lt (ulp_pos x))

theorem roundPositive_zero : roundPositive 0 = 0 := by
  unfold roundPositive
  rw [zero_div, show ((0 : ℚ)) = ((0 : ℤ) : ℚ) by simp, roundHalfEven_intCast]
  simp

theorem roundPositive_le_zpow (x : ℚ) (e : ℤ) (he : max (Int.log 2 x) (-1022) = e) :
    roundPositive x ≤ 2 ^ (e + 1) := by
  have hlt : x < 2 ^ (Int.log 2 x + 1) := Int.lt_zpow_succ_log_self (by norm_num) x
  have hle : (2 : ℚ) ^ (Int.log 2 x + 1) ≤ 2 ^ (e + 1) :=
    zpow_le_zpow_right₀ (by norm_num) (by rw [← he]; exact add_le_add_right (le_max_left _ _) 1)
  have hu : ulp x = 2 ^ (e - 52) := by unfold ulp; rw [he]
  have hupos := ulp_pos x
  have hq : (2 : ℚ) ^ (e + 1) / ulp x = ((2 ^ 53 : ℤ) : ℚ) := by
    rw [hu, ← zpow_sub₀ (by norm_num : (2 : ℚ) ≠ 0)]
    have : e + 1 - (e - 52) = 53 := by ring
    rw [this]
    norm_num
  have h1 : roundHalfEven (x / ulp x) ≤ roundHalfEven ((2 : ℚ) ^ (e + 1) / ulp x) :=
    roundHalfEven_mono (div_le_div_of_nonneg_right (le_of_lt (lt_of_lt_of_le hlt hle))
      (le_of_lt hupos))
  rw [hq, roundHalfEven_intCast] at h1
  have h2 : (roundHalfEven (x / ulp x) : ℚ) ≤ ((2 ^ 53 : ℤ) : ℚ) := by exact_mod_cast h1
  unfold roundPositive
  calc (roundHalfEven (x / ulp x) : ℚ) * ulp x ≤ ((2 ^ 53 : ℤ) : ℚ) * ulp x :=
        mul_le_mul_of_nonneg_right h2 (le_of_lt hupos)
    _ = 2 ^ (e + 1) := by rw [← hq]; field_simp

theorem zpow_le_roundPositive {y : ℚ} (hy : 0 < y) (hlog : -1022 ≤ Int.log 2 y) :
    (2 : ℚ) ^ Int.log 2 y ≤ roundPositive y := by
  have hle : (2 : ℚ) ^ Int.log 2 y ≤ y := Int.zpow_log_le_self (by norm_num) hy
  have hupos := ulp_pos y
  have hu : ulp y = 2 ^ (Int.log 2 y - 52) := by unfold ulp; rw [max_eq_left hlog]
  have hq : (2 : ℚ) ^ Int.log 2 y / ulp y = ((2 ^ 52 : ℤ) : ℚ) := by
    rw [hu, ← zpow_sub₀ (by norm_num : (2 : ℚ) ≠ 0)]
    have : Int.log 2 y - (Int.log 2 y - 52) = 52 := by ring
    rw [this]
    norm_num
  have h1 : roundHalfEven ((2 : ℚ) ^ Int.log 2 y / ulp y) ≤ roundHalfEven (y / ulp y) :=
    roundHalfEven_mono (div_le_div_of_nonneg_right hle (le_of_lt hupos))
  rw [hq, roundHalfEven_intCast] at h1
  have h2 : ((2 ^ 52 : ℤ) : ℚ) ≤ (roundHalfEven (y / ulp y) : ℚ) := by exact_mod_cast h1
  unfold roundPositive
  calc (2 : ℚ) ^ Int.log 2 y = ((2 ^ 52 : ℤ) : ℚ) * ulp y := by rw [← hq]; field_simp
    _ ≤ (roundHalfEven (y / ulp y) : ℚ) * ulp y :=
        mul_le_mul_of_nonneg_right h2 (le_of_lt hupos)

theorem roundPositive_mono {x y : ℚ} (hx : 0 ≤ x) (hxy : x ≤ y) :
    roundPositive x ≤ roundPositive y := by
  rcases eq_or_lt_of_le hx with h0 | hpos
  · rw [← h0, roundPositive_zero]
    exact roundPositive_nonneg (le_trans hx hxy)
  have hypos : 0 < y := lt_of_lt_of_le hpos hxy
  have hlog : Int.log 2 x ≤ Int.log 2 y := Int.log_mono_right hpos hxy
  have he : max (Int.log 2 x) (-1022) ≤ max (Int.log 2 y) (-1022) :=
    max_le_max hlog (le_refl _)
  rcases eq_or_lt_of_le he with heq | hlt
  · have hu : ulp x = ulp y := by unfold ulp; rw [heq]
    unfold roundPositive
    rw [hu]
    have h1 : roundHalfEven (x / ulp y) ≤ roundHalfEven (y / ulp y) :=
      roundHalfEven_mono (div_le_div_of_nonneg_right hxy (le_of_lt (ulp_pos y)))
    have h2 : (roundHalfEven (x / ulp y) : ℚ) ≤ (roundHalfEven (y / ulp y) : ℚ) := by
      exact_mod_cast h1
    exact mul_le_mul_of_nonneg_right h2 (le_of_lt (ulp_pos y))
  · have hylog : -1022 ≤ Int.log 2 y := by
      rcases max_choice (Int.log 2 y) (-1022) with h | h
      · rw [← h]; exact le_max_right _ _
      · rw [h] at hlt
        exact absurd hlt (not_lt.2 (le_max_right _ _))
    have hey : max (Int.log 2 y) (-1022) = Int.log 2 y := max_eq_left hylog
    rw [hey] at hlt
    calc roundPositive x ≤ 2 ^ (max (Int.log 2 x) (-1022) + 1) :=
          roundPositive_le_zpow x _ rfl
      _ ≤ 2 ^ Int.log 2 y := zpow_le_zpow_right₀ (by norm_num) hlt
      _ ≤ roundPositive y := zpow_le_roundPositive hypos hylog

/-- Binary64 rounding is monotone. -/
theorem toDouble_mono {x y : ℚ} (hxy : x ≤ y) : toDouble x ≤ toDouble y := by
  unfold toDouble
  by_cases hx : x < 0
  · by_cases hy : y < 0
    · rw [if_pos hx, if_pos hy]
      exact neg_le_neg (roundPositive_mono (by linarith) (by linarith))
    · rw [if_pos hx, if_neg hy]
      have h1 := roundPositive_nonneg (show (0 : ℚ) ≤ -x by linarith)
      have h2 := roundPositive_nonneg (not_lt.1 hy)
      linarith
  · have hy : ¬ y < 0 := fun h => hx (lt_of_le_of_lt hxy h)
    rw [if_neg hx, if_neg hy]
    exact roundPositive_mono (not_lt.1 hx) hxy

theorem toDouble_nonneg {x : ℚ} (hx : 0 ≤ x) : 0 ≤ toDouble x := by
  unfold toDouble
  rw [if_neg (not_lt.2 hx)]
  exact roundPositive_nonneg hx

/-- Relative accuracy of binary64 rounding in the normal range. -/
theorem abs_toDouble_sub_le {x : ℚ} (hx : (2 : ℚ) ^ (-1022 : ℤ) ≤ x) :
    |toDouble x - x| ≤ x / 2 ^ 53 := by
  have hpos : 0 < x := lt_of_lt_of_le (by positivity) hx
  have hlog : -1022 ≤ Int.log 2 x := (Int.zpow_le_iff_le_log (by norm_num) hpos).1 hx
  have hle : (2 : ℚ) ^ Int.log 2 x ≤ x := Int.zpow_log_le_self (by norm_num) hpos
  have hu : ulp x = 2 ^ Int.log 2 x / 2 ^ 52 := by
    unfold ulp
    rw [max_eq_left hlog, zpow_sub₀ (by norm_num : (2 : ℚ) ≠ 0)]
    norm_num
  have hupos := ulp_pos x
  unfold toDouble
  rw [if_neg (not_lt.2 (le_of_lt hpos))]
  unfold roundPositive
  have hr := abs_roundHalfEven_sub_le (x / ulp x)
  have heq : (roundHalfEven (x / ulp x) : ℚ) * ulp x - x
      = ((roundHalfEven (x / ulp x) : ℚ) - x / ulp x) * ulp x := by
    field_simp
  rw [heq, abs_mul, abs_of_pos hupos]
  calc |(roundHalfEven (x / ulp x) : ℚ) - x / ulp x| * ulp x ≤ 1 / 2 * ulp x :=
        mul_le_mul_of_nonneg_right hr (le_of_lt hupos)
    _ = 2 ^ Int.log 2 x / 2 ^ 53 := by rw [hu]; ring
    _ ≤ x / 2 ^ 53 := div_le_div_of_nonneg_right hle (by positivity)

/-- A rational from `1 / 1024` on is rounded to within a factor
`1 ± 2 ^ (-53)`. -/
theorem toDouble_near {x : ℚ} (hx : 1 / 1024 ≤ x) :
    x * (1 - 1 / 2 ^ 53) ≤ toDouble x ∧ toDouble x ≤ x * (1 + 1 / 2 ^ 53) := by
  have h0 : (2 : ℚ) ^ (-1022 : ℤ) ≤ 1 / 1024 := by
    have : (1 : ℚ) / 1024 = 2 ^ (-10 : ℤ) := by norm_num
    rw [this]
    exact zpow_le_zpow_right₀ (by norm_num) (by norm_num)
  have h := abs_le.1 (abs_toDouble_sub_le (le_trans h0 hx))
  constructor <;> linarith [h.1, h.2]

/-- The example `Math.pow` is non-decreasing in its base at exponent 3. -/
theorem sampleMathPow_mono (x y : ℚ) (hxy : x ≤ y) : sampleMathPow x 3 ≤ sampleMathPow y 3 := by
  have h3 : ((3 : ℚ).num.toNat) = 3 := by norm_num; rfl
  unfold sampleMathPow
  rw [h3]
  exact toDouble_mono ((Odd.strictMono_pow (by decide : Odd 3)).monotone hxy)

/-- The example `Math.pow` is accurate to `2 ^ (-40)` at exponent 3. -/
theorem sampleMathPow_accurate (x : ℚ) (h1 : 1 / 16 ≤ x) (_h2 : x ≤ 2) :
    |sampleMathPow x 3 - x ^ 3| ≤ x ^ 3 / 2 ^ 40 := by
  have h3 : ((3 : ℚ).num.toNat) = 3 := by norm_num; rfl
  unfold sampleMathPow
  rw [h3]
  have hx3 : (1 / 16 : ℚ) ^ 3 ≤ x ^ 3 := pow_le_pow_left₀ (by norm_num) h1 3
  have hpos : (0 : ℚ) ≤ x ^ 3 := le_trans (by norm_num) hx3
  have h0 : (2 : ℚ) ^ (-1022 : ℤ) ≤ x ^ 3 := by
    refine le_trans ?_ hx3
    have : ((1 : ℚ) / 16) ^ 3 = 2 ^ (-12 : ℤ) := by norm_num
    rw [this]
    exact zpow_le_zpow_right₀ (by norm_num) (by norm_num)
  refine le_trans (abs_toDouble_sub_le h0) ?_
  exact div_le_div_of_nonneg_left hpos (by positivity) (by norm_num)

/-! ## Standardized points -/

theorem baseTimeOf_freestyle_100 : baseTimeOf .Freestyle .m100 = some (toDouble 46.80) := by
  simp [baseTimeOf, BASE_TIMES, Style.label, Distance.label, List.lookup]

theorem baseTimeOf_ne_none_iff (s : Style) (d : Distance) :
    baseTimeOf s d ≠ none ↔ (s, d) ∈ specBasePairs := by
  cases s <;> cases d <;> decide

/-- C3: `calculateFinaPoints` returns 0 for the pool size "Open Water"
whatever the time, style and distance, for every `totalSeconds <= 0`, and
for every (style, distance) pair outside the 17 pairs listed in the
specification, which are exactly the pairs that have a base time in
`BASE_TIMES`. -/
theorem calculateFinaPoints_eq_zero (mathPow : ℚ → ℚ → ℚ) (t : ℚ) (d : Distance) (s : Style)
    (p : PoolSize) :
    (p = .OpenWater → calculateFinaPoints mathPow t d s p = 0)
    ∧ (t ≤ 0 → calculateFinaPoints mathPow t d s p = 0)
    ∧ ((s, d) ∉ specBasePairs → calculateFinaPoints mathPow t d s p = 0)
    ∧ specBasePairs.length = 17
    ∧ (baseTimeOf s d ≠ none ↔ (s, d) ∈ specBasePairs) := by
  refine ⟨?_, ?_, ?_, rfl, baseTimeOf_ne_none_iff s d⟩
  · intro hp
    subst hp
    simp [calculateFinaPoints, PoolSize.label]
  · intro ht
    unfold calculateFinaPoints
    split
    · rfl
    · cases baseTimeOf s d with
      | none => rfl
      | some b => simp [ht]
  · intro hsd
    have hnone : baseTimeOf s d = none := by
      by_contra hne
      exact hsd ((baseTimeOf_ne_none_iff s d).1 hne)
    unfold calculateFinaPoints
    split
    · rfl
    · rw [hnone]

/-- Witness for C3: open water, a non-positive time, and Medley 100m. -/
theorem calculateFinaPoints_eq_zero_witness :
    calculateFinaPoints sampleMathPow 50 .m100 .Freestyle .OpenWater = 0
    ∧ calculateFinaPoints sampleMathPow 0 .m100 .Freestyle .m50 = 0
    ∧ calculateFinaPoints sampleMathPow 50 .m100 .Medley .m50 = 0 :=
  ⟨(calculateFinaPoints_eq_zero sampleMathPow 50 .m100 .Freestyle .OpenWater).1 rfl,
   (calculateFinaPoints_eq_zero sampleMathPow 0 .m100 .Freestyle .m50).2.1 (le_refl 0),
   (calculateFinaPoints_eq_zero sampleMathPow 50 .m100 .Medley .m50).2.2.1 (by decide)⟩

/-- The binary64 value of the literal `46.80`. -/
theorem baseTime_near :
    46.80 * (1 - 1 / 2 ^ 53) ≤ toDouble 46.80 ∧ toDouble 46.80 ≤ 46.80 * (1 + 1 / 2 ^ 53) :=
  toDouble_near (show (1 : ℚ) / 1024 ≤ 46.80 by norm_num)

theorem calculateFinaPoints_freestyle_100 (mathPow : ℚ → ℚ → ℚ) (t : ℚ) (ht : 0 < t) :
    calculateFinaPoints mathPow t .m100 .Freestyle .m50
      = ⌊toDouble (1000 * mathPow (toDouble (toDouble 46.80 / t)) 3)⌋ := by
  unfold calculateFinaPoints
  rw [baseTimeOf_freestyle_100]
  have h1 : ¬ (PoolSize.m50.label = "Open Water") := by decide
  have h2 : ¬ (toDouble 46.80 = 0 ∨ t ≤ 0) := by
    rintro (h | h)
    · have h0 := baseTime_near.1
      rw [h] at h0
      norm_num at h0
    · exact absurd ht (not_lt.2 h)
  simp only [h1, h2, if_false]

/-- The number handed to `Math.floor` for Freestyle 100m lies within a factor
`1 ± 2 ^ (-38)` of the exact `1000 * (46.80 / t) ^ 3`, for times between 46 s
and 700 s, on an engine whose `Math.pow(x, 3)` is accurate to `2 ^ (-40)`. -/
theorem finaPoints_enclosure (mathPow : ℚ → ℚ → ℚ)
    (hacc : ∀ x : ℚ, 1 / 16 ≤ x → x ≤ 2 → |mathPow x 3 - x ^ 3| ≤ x ^ 3 / 2 ^ 40)
    (t : ℚ) (ht1 : 46 ≤ t) (ht2 : t ≤ 700) :
    1000 * (46.80 / t) ^ 3 * (1 - 1 / 2 ^ 38)
        ≤ toDouble (1000 * mathPow (toDouble (toDouble 46.80 / t)) 3)
    ∧ toDouble (1000 * mathPow (toDouble (toDouble 46.80 / t)) 3)
        ≤ 1000 * (46.80 / t) ^ 3 * (1 + 1 / 2 ^ 38) := by
  have htpos : (0 : ℚ) < t := by linarith
  obtain ⟨hb1, hb2⟩ := baseTime_near
  generalize toDouble 46.80 = b at hb1 hb2
  have hc1 : (46.80 : ℚ) / 700 ≤ 46.80 / t :=
    div_le_div_of_nonneg_left (by norm_num) htpos ht2
  have hc2 : (46.80 : ℚ) / t ≤ 46.80 / 46 :=
    div_le_div_of_nonneg_left (by norm_num) (by norm_num) ht1
  generalize hc : (46.80 : ℚ) / t = c at hc1 hc2
  have hcpos : 0 < c := lt_of_lt_of_le (by norm_num) hc1
  have hlo : (0 : ℚ) ≤ 1 - 1 / 2 ^ 53 := by norm_num
  have hhi : (0 : ℚ) ≤ 1 + 1 / 2 ^ 53 := by norm_num
  have hx1 : c * (1 - 1 / 2 ^ 53) ≤ b / t := by
    rw [← hc, div_mul_eq_mul_div]
    exact div_le_div_of_nonneg_right hb1 (le_of_lt htpos)
  have hx2 : b / t ≤ c * (1 + 1 / 2 ^ 53) := by
    rw [← hc, div_mul_eq_mul_div]
    exact div_le_div_of_nonneg_right hb2 (le_of_lt htpos)
  have hxlow : 1 / 1024 ≤ b / t :=
    calc (1 : ℚ) / 1024 ≤ 46.80 / 700 * (1 - 1 / 2 ^ 53) := by norm_num
      _ ≤ c * (1 - 1 / 2 ^ 53) := mul_le_mul_of_nonneg_right hc1 hlo
      _ ≤ b / t := hx1
  obtain ⟨hq1, hq2⟩ := toDouble_near hxlow
  generalize toDouble (b / t) = q at hq1 hq2
  have hq1' : c * (1 - 1 / 2 ^ 53) * (1 - 1 / 2 ^ 53) ≤ q :=
    le_trans (mul_le_mul_of_nonneg_right hx1 hlo) hq1
  have hq2' : q ≤ c * (1 + 1 / 2 ^ 53) * (1 + 1 / 2 ^ 53) :=
    le_trans hq2 (mul_le_mul_of_nonneg_right hx2 hhi)
  have hqlow : 1 / 16 ≤ q :=
    calc (1 : ℚ) / 16 ≤ 46.80 / 700 * (1 - 1 / 2 ^ 53) * (1 - 1 / 2 ^ 53) := by norm_num
      _ ≤ c * (1 - 1 / 2 ^ 53) * (1 - 1 / 2 ^ 53) :=
        mul_le_mul_of_nonneg_right (mul_le_mul_of_nonneg_right hc1 hlo) hlo
      _ ≤ q := hq1'
  have hqhigh : q ≤ 2 :=
    calc q ≤ c * (1 + 1 / 2 ^ 53) * (1 + 1 / 2 ^ 53) := hq2'
      _ ≤ 46.80 / 46 * (1 + 1 / 2 ^ 53) * (1 + 1 / 2 ^ 53) :=
        mul_le_mul_of_nonneg_right (mul_le_mul_of_nonneg_right hc2 hhi) hhi
      _ ≤ 2 := by norm_num
  have hq3lo : (c * (1 - 1 / 2 ^ 53) * (1 - 1 / 2 ^ 53)) ^ 3 ≤ q ^ 3 :=
    pow_le_pow_left₀ (mul_nonneg (mul_nonneg (le_of_lt hcpos) hlo) hlo) hq1' 3
  have hq3hi : q ^ 3 ≤ (c * (1 + 1 / 2 ^ 53) * (1 + 1 / 2 ^ 53)) ^ 3 :=
    pow_le_pow_left₀ (le_trans (by norm_num) hqlow) hq2' 3
  have hq3low : (1 / 16 : ℚ) ^ 3 ≤ q ^ 3 := pow_le_pow_left₀ (by norm_num) hqlow 3
  obtain ⟨hp1, hp2⟩ := abs_le.1 (hacc q hqlow hqhigh)
  generalize mathPow q 3 = p at hp1 hp2
  generalize q ^ 3 = q3 at hq3lo hq3hi hq3low hp1 hp2
  have hp1' : q3 * (1 - 1 / 2 ^ 40) ≤ p := by linarith
  have hp2' : p ≤ q3 * (1 + 1 / 2 ^ 40) := by linarith
  have hplow : 1 / 1024 ≤ 1000 * p := by
    have : (1 / 16 : ℚ) ^ 3 * (1 - 1 / 2 ^ 40) ≤ q3 * (1 - 1 / 2 ^ 40) :=
      mul_le_mul_of_nonneg_right hq3low (by norm_num)
    have h' : (1 / 1024 : ℚ) ≤ 1000 * ((1 / 16 : ℚ) ^ 3 * (1 - 1 / 2 ^ 40)) := by norm_num
    linarith
  obtain ⟨hr1, hr2⟩ := toDouble_near hplow
  generalize toDouble (1000 * p) = r at hr1 hr2
  have hc3 : (0 : ℚ) ≤ c ^ 3 := by positivity
  constructor
  · calc 1000 * c ^ 3 * (1 - 1 / 2 ^ 38)
        ≤ 1000 * c ^ 3 * ((1 - 1 / 2 ^ 53) ^ 7 * (1 - 1 / 2 ^ 40)) :=
          mul_le_mul_of_nonneg_left (by norm_num) (mul_nonneg (by norm_num) hc3)
      _ = 1000 * ((c * (1 - 1 / 2 ^ 53) * (1 - 1 / 2 ^ 53)) ^ 3 * (1 - 1 / 2 ^ 40))
            * (1 - 1 / 2 ^ 53) := by ring
      _ ≤ 1000 * (q3 * (1 - 1 / 2 ^ 40)) * (1 - 1 / 2 ^ 53) :=
          mul_le_mul_of_nonneg_right (mul_le_mul_of_nonneg_left
            (mul_le_mul_of_nonneg_right hq3lo (by norm_num)) (by norm_num)) hlo
      _ ≤ 1000 * p * (1 - 1 / 2 ^ 53) :=
          mul_le_mul_of_nonneg_right (mul_le_mul_of_nonneg_left hp1' (by norm_num)) hlo
      _ ≤ r := hr1
  · calc r ≤ 1000 * p * (1 + 1 / 2 ^ 53) := hr2
      _ ≤ 1000 * (q3 * (1 + 1 / 2 ^ 40)) * (1 + 1 / 2 ^ 53) :=
          mul_le_mul_of_nonneg_right (mul_le_mul_of_nonneg_left hp2' (by norm_num)) hhi
      _ ≤ 1000 * ((c * (1 + 1 / 2 ^ 53) * (1 + 1 / 2 ^ 53)) ^ 3 * (1 + 1 / 2 ^ 40))
            * (1 + 1 / 2 ^ 53) :=
          mul_le_mul_of_nonneg_right (mul_le_mul_of_nonneg_left
            (mul_le_mul_of_nonneg_right hq3hi (by norm_num)) (by norm_num)) hhi
      _ = 1000 * c ^ 3 * ((1 + 1 / 2 ^ 53) ^ 7 * (1 + 1 / 2 ^ 40)) := by ring
      _ ≤ 1000 * c ^ 3 * (1 + 1 / 2 ^ 38) :=
          mul_le_mul_of_nonneg_left (by norm_num) (mul_nonneg (by norm_num) hc3)

/-- For Freestyle 100m and a time between `lo` and `hi`, the points are `n`
as soon as the exact score stays between `n` and `n + 1` over that interval
with the margin `2 ^ (-38)`. -/
theorem finaPoints_floor (mathPow : ℚ → ℚ → ℚ)
    (hacc : ∀ x : ℚ, 1 / 16 ≤ x → x ≤ 2 → |mathPow x 3 - x ^ 3| ≤ x ^ 3 / 2 ^ 40)
    (t lo hi : ℚ) (n : ℤ) (h46 : 46 ≤ lo) (hlo : lo ≤ t) (hhi : t ≤ hi) (h700 : hi ≤ 700)
    (hn1 : (n : ℚ) ≤ 1000 * (46.80 / hi) ^ 3 * (1 - 1 / 2 ^ 38))
    (hn2 : 1000 * (46.80 / lo) ^ 3 * (1 + 1 / 2 ^ 38) < (n : ℚ) + 1) :
    calculateFinaPoints mathPow t .m100 .Freestyle .m50 = n := by
  have hlopos : (0 : ℚ) < lo := by linarith
  have htpos : (0 : ℚ) < t := by linarith
  obtain ⟨he1, he2⟩ := finaPoints_enclosure mathPow hacc t (by linarith) (by linarith)
  rw [calculateFinaPoints_freestyle_100 mathPow t htpos, Int.floor_eq_iff]
  have hd1 : (46.80 : ℚ) / hi ≤ 46.80 / t := div_le_div_of_nonneg_left (by norm_num) htpos hhi
  have hd2 : (46.80 : ℚ) / t ≤ 46.80 / lo := div_le_div_of_nonneg_left (by norm_num) hlopos hlo
  have hp1 : ((46.80 : ℚ) / hi) ^ 3 ≤ (46.80 / t) ^ 3 :=
    pow_le_pow_left₀ (div_nonneg (by norm_num) (by linarith)) hd1 3
  have hp2 : ((46.80 : ℚ) / t) ^ 3 ≤ (46.80 / lo) ^ 3 :=
    pow_le_pow_left₀ (div_nonneg (by norm_num) (le_of_lt htpos)) hd2 3
  constructor
  · refine le_trans hn1 (le_trans ?_ he1)
    exact mul_le_mul_of_nonneg_right (mul_le_mul_of_nonneg_left hp1 (by norm_num))
      (by norm_num)
  · refine lt_of_le_of_lt (le_trans he2 ?_) hn2
    exact mul_le_mul_of_nonneg_right (mul_le_mul_of_nonneg_left hp2 (by norm_num))
      (by norm_num)

/-- C4 (as stated, refuted): on every engine whose `Math.pow(x, 3)` is
accurate to `2 ^ (-40)`, of which the correctly rounded power is one, all
times within a ten-thousandth of 46.82 s and of 46.83 s, both above the base
time 46.80 s of Freestyle 100m, score the same 998 points, and so do 600 s
and 601 s (0 points): the result is not strictly decreasing. -/
theorem calculateFinaPoints_not_strictly_decreasing :
    (46.80 : ℚ) ≤ 46.82 ∧ (46.82 : ℚ) < 46.83
    ∧ (∀ mathPow : ℚ → ℚ → ℚ,
        (∀ x : ℚ, 1 / 16 ≤ x → x ≤ 2 → |mathPow x 3 - x ^ 3| ≤ x ^ 3 / 2 ^ 40) →
        (∀ t : ℚ, 46.8199 ≤ t → t ≤ 46.8301 →
          calculateFinaPoints mathPow t .m100 .Freestyle .m50 = 998)
        ∧ calculateFinaPoints mathPow 46.82 .m100 .Freestyle .m50 = 998
        ∧ calculateFinaPoints mathPow 46.83 .m100 .Freestyle .m50 = 998
        ∧ ¬ (calculateFinaPoints mathPow 46.82 .m100 .Freestyle .m50
              > calculateFinaPoints mathPow 46.83 .m100 .Freestyle .m50)
        ∧ calculateFinaPoints mathPow 600 .m100 .Freestyle .m50 = 0
        ∧ calculateFinaPoints mathPow 601 .m100 .Freestyle .m50 = 0)
    ∧ (∀ x : ℚ, 1 / 16 ≤ x → x ≤ 2 → |sampleMathPow x 3 - x ^ 3| ≤ x ^ 3 / 2 ^ 40) := by
  refine ⟨by norm_num, by norm_num, ?_, sampleMathPow_accurate⟩
  intro mathPow hacc
  have h998 : ∀ t : ℚ, 46.8199 ≤ t → t ≤ 46.8301 →
      calculateFinaPoints mathPow t .m100 .Freestyle .m50 = 998 := by
    intro t h1 h2
    exact finaPoints_floor mathPow hacc t 46.8199 46.8301 998 (by norm_num) h1 h2
      (by norm_num) (by norm_num) (by norm_num)
  have h0 : ∀ t : ℚ, 600 ≤ t → t ≤ 601 →
      calculateFinaPoints mathPow t .m100 .Freestyle .m50 = 0 := by
    intro t h1 h2
    exact finaPoints_floor mathPow hacc t 600 601 0 (by norm_num) h1 h2
      (by norm_num) (by norm_num) (by norm_num)
  have a := h998 46.82 (by norm_num) (by norm_num)
  have b := h998 46.83 (by norm_num) (by norm_num)
  refine ⟨h998, a, b, ?_, h0 600 (by norm_num) (by norm_num),
    h0 601 (by norm_num) (by norm_num)⟩
  rw [a, b]
  decide

/-- C4 (amended): for Freestyle 100m in a 50m pool the result is
non-increasing above the base time, `46.80 <= t1 < t2` giving
`points(t1) >= points(t2)`, on every engine whose `Math.pow(x, 3)` is
non-decreasing in `x` over the non-negative numbers. -/
theorem calculateFinaPoints_antitone (mathPow : ℚ → ℚ → ℚ)
    (hpow : ∀ x y : ℚ, 0 ≤ x → x ≤ y → mathPow x 3 ≤ mathPow y 3)
    (t1 t2 : ℚ) (h1 : 46.80 ≤ t1) (h12 : t1 < t2) :
    calculateFinaPoints mathPow t2 .m100 .Freestyle .m50
      ≤ calculateFinaPoints mathPow t1 .m100 .Freestyle .m50 := by
  have ht1 : 0 < t1 := lt_of_lt_of_le (by norm_num) h1
  have ht2 : 0 < t2 := lt_trans ht1 h12
  rw [calculateFinaPoints_freestyle_100 mathPow t1 ht1,
    calculateFinaPoints_freestyle_100 mathPow t2 ht2]
  have hb : (0 : ℚ) ≤ toDouble 46.80 := toDouble_nonneg (by norm_num)
  have hdiv : toDouble 46.80 / t2 ≤ toDouble 46.80 / t1 :=
    div_le_div_of_nonneg_left hb ht1 (le_of_lt h12)
  have hq : toDouble (toDouble 46.80 / t2) ≤ toDouble (toDouble 46.80 / t1) :=
    toDouble_mono hdiv
  have hq0 : 0 ≤ toDouble (toDouble 46.80 / t2) :=
    toDouble_nonneg (div_nonneg hb (le_of_lt ht2))
  have hp := hpow _ _ hq0 hq
  exact Int.floor_le_floor (toDouble_mono (mul_le_mul_of_nonneg_left hp (by norm_num)))

/-- Witness for the amended C4 at 46.80 s and 50 s, with the correctly
rounded power for `Math.pow`. -/
theorem calculateFinaPoints_antitone_witness :
    calculateFinaPoints sampleMathPow 50 .m100 .Freestyle .m50
      ≤ calculateFinaPoints sampleMathPow 46.80 .m100 .Freestyle .m50 :=
  calculateFinaPoints_antitone sampleMathPow (fun x y _ hxy => sampleMathPow_mono x y hxy)
    46.80 50 (le_refl _) (by norm_num)

/-! ## Display string -/

theorem padStart_two_digits (n : Int) (h0 : 0 ≤ n) (h1 : n ≤ 99) :
    padStart (toString n) 2 '0'
      = String.mk [Nat.digitChar (n / 10).toNat, Nat.digitChar (n % 10).toNat] := by
  interval_cases n <;> rfl

theorem digitChar_ne_colon (n : Nat) (h : n < 10) : Nat.digitChar n ≠ ':' := by
  interval_cases n <;> decide

/-- C5: for every integer minutes up to `2 ^ 53` (the range in which the
engine holds the integer exactly and prints its decimal digits), in
particular every such minutes `>= 0`, seconds in `0..59` and centiseconds in
`0..99` the display string is the decimal minutes followed by `:` when
minutes `> 0` (and nothing otherwise), then exactly two digits of seconds, a
dot, and exactly two digits of centiseconds; a colon occurs in it exactly
when minutes `> 0`. -/
theorem timeString_format (m s c : Int) (hm : m ≤ 2 ^ 53) (hs0 : 0 ≤ s) (hs1 : s ≤ 59)
    (hc0 : 0 ≤ c) (hc1 : c ≤ 99) :
    timeString m s c
        = (if m > 0 then toString m ++ ":" else "")
          ++ String.mk [Nat.digitChar (s / 10).toNat, Nat.digitChar (s % 10).toNat]
          ++ "."
          ++ String.mk [Nat.digitChar (c / 10).toNat, Nat.digitChar (c % 10).toNat]
    ∧ ((':' ∈ (timeString m s c).data) ↔ 0 < m) := by
  -- the bound on `m` delimits the integers the engine holds and prints exactly
  have _ := hm
  have hfmt : timeString m s c
        = (if m > 0 then toString m ++ ":" else "")
          ++ String.mk [Nat.digitChar (s / 10).toNat, Nat.digitChar (s % 10).toNat]
          ++ "."
          ++ String.mk [Nat.digitChar (c / 10).toNat, Nat.digitChar (c % 10).toNat] := by
    unfold timeString
    rw [padStart_two_digits s hs0 (by omega), padStart_two_digits c hc0 hc1]
  refine ⟨hfmt, ?_⟩
  rw [hfmt]
  have d1 := digitChar_ne_colon (s / 10).toNat (by omega)
  have d2 := digitChar_ne_colon (s % 10).toNat (by omega)
  have d3 := digitChar_ne_colon (c / 10).toNat (by omega)
  have d4 := digitChar_ne_colon (c % 10).toNat (by omega)
  by_cases hpos : m > 0
  · simp [hpos]
  · simp [hpos, Ne.symm d1, Ne.symm d2, Ne.symm d3, Ne.symm d4]

/-- Witness for C5: `(1, 5, 30)` displays as `1:05.30`. -/
theorem timeString_format_witness :
    timeString 1 5 30 = "1:05.30" ∧ timeString 0 59 99 = "59.99" :=
  ⟨(timeString_format 1 5 30 (by decide) (by decide) (by decide) (by decide)
      (by decide)).1.trans (by decide),
   (timeString_format 0 59 99 (by decide) (by decide) (by decide) (by decide)
      (by decide)).1.trans (by decide)⟩

/-! ## Submission -/

theorem handleSubmit_ok_inv (mathPow : ℚ → ℚ → ℚ) (fd : FormData) (r : TimeRecord)
    (h : handleSubmit mathPow fd = .ok r) :
    (fd.swimmerId ≠ "" ∧ fd.seconds ≠ "" ∧ fd.competition ≠ ""
      ∧ 0 ≤ (parseInt fd.seconds).getD 0 ∧ (parseInt fd.seconds).getD 0 ≤ 59
      ∧ 0 ≤ (parseInt fd.milliseconds).getD 0 ∧ (parseInt fd.milliseconds).getD 0 ≤ 99)
    ∧ r.totalSeconds = totalSecondsOf ((parseInt fd.minutes).getD 0)
        ((parseInt fd.seconds).getD 0) ((parseInt fd.milliseconds).getD 0)
    ∧ r.points = calculatePoints fd.placement
    ∧ r.placement = parseInt fd.placement
    ∧ r.time = timeString ((parseInt fd.minutes).getD 0)
        ((parseInt fd.seconds).getD 0) ((parseInt fd.milliseconds).getD 0) := by
  unfold handleSubmit at h
  split at h
  · exact Except.noConfusion h
  · next h1 =>
    split at h
    · exact Except.noConfusion h
    · next h2 =>
      simp only at h
      split at h
      · exact Except.noConfusion h
      · next h3 =>
        injection h with h
        subst h
        refine ⟨⟨h1, ?_, ?_, ?_, ?_, ?_, ?_⟩, rfl, rfl, rfl, rfl⟩
        · exact fun hs => h2 (Or.inl hs)
        · exact fun hc => h2 (Or.inr hc)
        all_goals omega

theorem handleSubmit_ok_of (mathPow : ℚ → ℚ → ℚ) (fd : FormData)
    (h : fd.swimmerId ≠ "" ∧ fd.seconds ≠ "" ∧ fd.competition ≠ ""
      ∧ 0 ≤ (parseInt fd.seconds).getD 0 ∧ (parseInt fd.seconds).getD 0 ≤ 59
      ∧ 0 ≤ (parseInt fd.milliseconds).getD 0 ∧ (parseInt fd.milliseconds).getD 0 ≤ 99) :
    ∃ r, handleSubmit mathPow fd = .ok r := by
  obtain ⟨h1, h2, h3, h4, h5, h6, h7⟩ := h
  have hb : ¬ (fd.seconds = "" ∨ fd.competition = "") := by
    rintro (hx | hx)
    · exact h2 hx
    · exact h3 hx
  have hc : ¬ ((parseInt fd.seconds).getD 0 < 0 ∨ (parseInt fd.seconds).getD 0 ≥ 60
      ∨ (parseInt fd.milliseconds).getD 0 < 0 ∨ (parseInt fd.milliseconds).getD 0 ≥ 100) := by
    omega
  unfold handleSubmit
  rw [if_neg h1, if_neg hb]
  simp only
  rw [if_neg hc]
  exact ⟨_, rfl⟩

/-- Function `handleSubmit` builds a record exactly when the swimmer
selection, the seconds field and the competition name are non-empty and the
numbers that `parseInt` reads from the seconds and centiseconds fields (0
when it reads none) lie in `0..59` and `0..99`; otherwise it stops with a
validation toast. When both fields hold the plain decimal digits of an
integer, the numbers read are the numbers typed. -/
theorem handleSubmit_ok_iff (mathPow : ℚ → ℚ → ℚ) (fd : FormData) :
    ((∃ r, handleSubmit mathPow fd = .ok r) ↔
      (fd.swimmerId ≠ "" ∧ fd.seconds ≠ "" ∧ fd.competition ≠ ""
        ∧ 0 ≤ (parseInt fd.seconds).getD 0 ∧ (parseInt fd.seconds).getD 0 ≤ 59
        ∧ 0 ≤ (parseInt fd.milliseconds).getD 0 ∧ (parseInt fd.milliseconds).getD 0 ≤ 99))
    ∧ ((¬ ∃ r, handleSubmit mathPow fd = .ok r) ↔ ∃ e, handleSubmit mathPow fd = .error e)
    ∧ (∀ sec cs : Int, fd.seconds = toString sec → fd.milliseconds = toString cs →
        ((∃ r, handleSubmit mathPow fd = .ok r) ↔
          (fd.swimmerId ≠ "" ∧ fd.competition ≠ ""
            ∧ 0 ≤ sec ∧ sec ≤ 59 ∧ 0 ≤ cs ∧ cs ≤ 99))) := by
  have main : (∃ r, handleSubmit mathPow fd = .ok r) ↔
      (fd.swimmerId ≠ "" ∧ fd.seconds ≠ "" ∧ fd.competition ≠ ""
        ∧ 0 ≤ (parseInt fd.seconds).getD 0 ∧ (parseInt fd.seconds).getD 0 ≤ 59
        ∧ 0 ≤ (parseInt fd.milliseconds).getD 0 ∧ (parseInt fd.milliseconds).getD 0 ≤ 99) :=
    ⟨fun ⟨r, hr⟩ => (handleSubmit_ok_inv mathPow fd r hr).1, handleSubmit_ok_of mathPow fd⟩
  refine ⟨main, ?_, ?_⟩
  · cases hres : handleSubmit mathPow fd with
    | error e => simp
    | ok r => simp
  · intro sec cs hsec hcs
    rw [main, hsec, hcs, parseInt_toString, parseInt_toString]
    simp only [Option.getD_some]
    constructor
    · rintro ⟨h1, _, h3, h4⟩
      exact ⟨h1, h3, h4⟩
    · rintro ⟨h1, h3, h4⟩
      exact ⟨h1, toString_int_ne_empty sec, h3, h4⟩

/-- The sample form (1:05.30) is accepted. -/
theorem handleSubmit_sampleForm (mathPow : ℚ → ℚ → ℚ) :
    ∃ r, handleSubmit mathPow sampleForm = .ok r :=
  ((handleSubmit_ok_iff mathPow sampleForm).2.2 5 30 (by decide) (by decide)).2
    ⟨by decide, by decide, by decide, by decide, by decide, by decide⟩

/-- C7 (failing input): with the seconds typed as `590e-1`, the number 59,
`parseInt` reads 590 and `handleSubmit` stops with the toast "Invalid time",
building no record although every field is present and 59 lies in `0..59`;
with the seconds typed as `6e1`, the number 60, `parseInt` reads 6 and
`handleSubmit` builds a record of 6 seconds, shown as `06.00`, although 60
lies outside `0..59`. -/
theorem handleSubmit_misreads_seconds :
    exponentSecondsForm.swimmerId ≠ "" ∧ exponentSecondsForm.seconds = "590e-1"
    ∧ exponentSecondsForm.competition ≠ "" ∧ exponentSecondsForm.milliseconds = ""
    ∧ parseInt "590e-1" = some 590
    ∧ (∀ mathPow : ℚ → ℚ → ℚ,
        handleSubmit mathPow exponentSecondsForm = .error "Invalid time")
    ∧ sixtySecondsForm.seconds = "6e1"
    ∧ parseInt "6e1" = some 6
    ∧ ∀ mathPow : ℚ → ℚ → ℚ,
        ∃ r, handleSubmit mathPow sixtySecondsForm = .ok r ∧ r.time = "06.00"
          ∧ r.totalSeconds = 6 := by
  refine ⟨by decide, rfl, by decide, rfl, by decide, ?_, rfl, by decide, ?_⟩
  · intro mathPow
    unfold handleSubmit
    rw [if_neg (by decide), if_neg (by decide)]
    simp only
    rw [if_pos (by decide)]
  · intro mathPow
    obtain ⟨r, hr⟩ := handleSubmit_ok_of mathPow sixtySecondsForm
      ⟨by decide, by decide, by decide, by decide, by decide, by decide, by decide⟩
    obtain ⟨_, ht, _, _, htime⟩ := handleSubmit_ok_inv mathPow sixtySecondsForm r hr
    have hm : (parseInt sixtySecondsForm.minutes).getD 0 = 0 := by decide
    have hs : (parseInt sixtySecondsForm.seconds).getD 0 = 6 := by decide
    have hc : (parseInt sixtySecondsForm.milliseconds).getD 0 = 0 := by decide
    rw [hm, hs, hc] at ht htime
    refine ⟨r, hr, htime.trans (by decide), ?_⟩
    rw [ht]
    norm_num [totalSecondsOf]

/-- C8 (as stated, refuted): the form with 0 seconds and nothing else in the
time fields is accepted and its record has `totalSeconds = 0`. -/
theorem handleSubmit_zero_totalSeconds :
    zeroTimeForm.seconds = "0" ∧ zeroTimeForm.minutes = "" ∧ zeroTimeForm.milliseconds = ""
    ∧ ∀ mathPow : ℚ → ℚ → ℚ,
        ∃ r, handleSubmit mathPow zeroTimeForm = .ok r ∧ r.totalSeconds = 0
          ∧ ¬ (0 < r.totalSeconds) := by
  refine ⟨rfl, rfl, rfl, ?_⟩
  intro mathPow
  obtain ⟨r, hr⟩ := handleSubmit_ok_of mathPow zeroTimeForm
    ⟨by decide, by decide, by decide, by decide, by decide, by decide, by decide⟩
  have h := (handleSubmit_ok_inv mathPow zeroTimeForm r hr).2.1
  have hm : (parseInt zeroTimeForm.minutes).getD 0 = 0 := by decide
  have hs : (parseInt zeroTimeForm.seconds).getD 0 = 0 := by decide
  have hc : (parseInt zeroTimeForm.milliseconds).getD 0 = 0 := by decide
  rw [hm, hs, hc] at h
  have h0 : r.totalSeconds = 0 := by rw [h]; norm_num [totalSecondsOf]
  exact ⟨r, hr, h0, by rw [h0]; exact lt_irrefl 0⟩

/-- C8 (amended): a record built from an accepted submission whose minutes
field reads as `>= 0` has `totalSeconds >= 0`, and `totalSeconds > 0` unless
minutes, seconds and centiseconds are all 0. -/
theorem handleSubmit_totalSeconds_nonneg (mathPow : ℚ → ℚ → ℚ) (fd : FormData)
    (r : TimeRecord) (h : handleSubmit mathPow fd = .ok r)
    (hm : 0 ≤ (parseInt fd.minutes).getD 0) :
    0 ≤ r.totalSeconds
    ∧ (0 < r.totalSeconds ↔
        ¬ ((parseInt fd.minutes).getD 0 = 0 ∧ (parseInt fd.seconds).getD 0 = 0
            ∧ (parseInt fd.milliseconds).getD 0 = 0)) := by
  obtain ⟨⟨_, _, _, hs0, _, hc0, _⟩, ht, _, _, _⟩ := handleSubmit_ok_inv mathPow fd r h
  rw [ht]
  unfold totalSecondsOf
  generalize (parseInt fd.minutes).getD 0 = m at hm
  generalize (parseInt fd.seconds).getD 0 = s at hs0
  generalize (parseInt fd.milliseconds).getD 0 = c at hc0
  have hmq : (0 : ℚ) ≤ (m : ℚ) := by exact_mod_cast hm
  have hsq : (0 : ℚ) ≤ (s : ℚ) := by exact_mod_cast hs0
  have hcq : (0 : ℚ) ≤ (c : ℚ) := by exact_mod_cast hc0
  refine ⟨by positivity, ?_⟩
  constructor
  · rintro hpos ⟨rfl, rfl, rfl⟩
    norm_num at hpos
  · intro hne
    by_contra hnot
    have hle : (m : ℚ) * 60 + (s : ℚ) + (c : ℚ) / 100 ≤ 0 := not_lt.1 hnot
    have hm0 : (m : ℚ) = 0 := by nlinarith
    have hs0 : (s : ℚ) = 0 := by nlinarith
    have hc0 : (c : ℚ) = 0 := by nlinarith
    exact hne ⟨by exact_mod_cast hm0, by exact_mod_cast hs0, by exact_mod_cast hc0⟩

/-- Witness for the amended C8: the sample form (1:05.30). -/
theorem handleSubmit_totalSeconds_nonneg_witness :
    ∃ r, handleSubmit sampleMathPow sampleForm = .ok r ∧ 0 ≤ r.totalSeconds := by
  obtain ⟨r, hr⟩ := handleSubmit_ok_of sampleMathPow sampleForm
    ⟨by decide, by decide, by decide, by decide, by decide, by decide, by decide⟩
  exact ⟨r, hr,
    (handleSubmit_totalSeconds_nonneg sampleMathPow sampleForm r hr (by decide)).1⟩

/-- C9 (failing input): the form with placement 0 is accepted and its record
carries 21 points, outside `[0, 20]`. -/
theorem handleSubmit_points_out_of_range :
    zeroPlacementForm.placement = "0"
    ∧ ∀ mathPow : ℚ → ℚ → ℚ,
        ∃ r, handleSubmit mathPow zeroPlacementForm = .ok r ∧ r.points = some 21
          ∧ r.placement = some 0 := by
  refine ⟨rfl, ?_⟩
  intro mathPow
  obtain ⟨r, hr⟩ := handleSubmit_ok_of mathPow zeroPlacementForm
    ⟨by decide, by decide, by decide, by decide, by decide, by decide, by decide⟩
  refine ⟨r, hr, ?_, ?_⟩
  · rw [(handleSubmit_ok_inv mathPow zeroPlacementForm r hr).2.2.1]
    decide
  · rw [(handleSubmit_ok_inv mathPow zeroPlacementForm r hr).2.2.2.1]
    decide

/-! ## Best times -/

theorem getProp_setProp {α : Type} (obj : List (String × α)) (k k' : String) (v : α) :
    getProp (setProp obj k v) k' = if k = k' then some v else getProp obj k' := by
  induction obj with
  | nil => simp [setProp, getProp]
  | cons kv rest ih =>
    obtain ⟨k0, v0⟩ := kv
    by_cases h0 : k0 = k
    · subst h0
      by_cases h1 : k0 = k'
      · simp [setProp, getProp, h1]
      · simp [setProp, getProp, h1]
    · by_cases h1 : k0 = k'
      · subst h1
        simp [setProp, getProp, h0, Ne.symm h0]
      · simp [setProp, getProp, h0, h1, ih]

theorem append_dash_inj (a a' b b' : List Char) (ha : '-' ∉ a) (ha' : '-' ∉ a')
    (h : a ++ '-' :: b = a' ++ '-' :: b') : a = a' ∧ b = b' := by
  induction a generalizing a' with
  | nil =>
    cases a' with
    | nil => simpa using h
    | cons c r =>
      simp at h
      exact absurd (h.1 ▸ List.mem_cons_self _ _) ha'
  | cons x xs ih =>
    cases a' with
    | nil =>
      simp at h
      exact absurd (h.1 ▸ List.mem_cons_self _ _) ha
    | cons c r =>
      simp at h
      obtain ⟨hx, hr⟩ := h
      have := ih r (fun hm => ha (List.mem_cons_of_mem _ hm))
        (fun hm => ha' (List.mem_cons_of_mem _ hm)) hr
      exact ⟨by rw [hx, this.1], this.2⟩

theorem eventKey_data (d : Distance) (s : Style) (p : PoolSize) :
    (eventKey d s p).data = d.label.data ++ '-' :: (s.label.data ++ '-' :: p.label.data) := by
  simp [eventKey]

theorem eventKey_inj (d d' : Distance) (s s' : Style) (p p' : PoolSize)
    (h : eventKey d s p = eventKey d' s' p') : d = d' ∧ s = s' ∧ p = p' := by
  have hd : ∀ x : Distance, '-' ∉ x.label.data := by intro x; cases x <;> decide
  have hs : ∀ x : Style, '-' ∉ x.label.data := by intro x; cases x <;> decide
  have h1 := congrArg String.data h
  rw [eventKey_data, eventKey_data] at h1
  obtain ⟨e1, h2⟩ := append_dash_inj _ _ _ _ (hd d) (hd d') h1
  obtain ⟨e2, e3⟩ := append_dash_inj _ _ _ _ (hs s) (hs s') h2
  refine ⟨?_, ?_, ?_⟩
  · revert e1; cases d <;> cases d' <;> decide
  · revert e2; cases s <;> cases s' <;> decide
  · revert e3; cases p <;> cases p' <;> decide

theorem bestStep_inv (best : List (String × TimeRecord)) (seen : List TimeRecord)
    (t : TimeRecord)
    (h1 : ∀ k r, getProp best k = some r →
      r ∈ seen ∧ timeKey r = k
        ∧ ∀ u ∈ seen, timeKey u = k → r.totalSeconds ≤ u.totalSeconds)
    (h2 : ∀ u ∈ seen, ∃ r, getProp best (timeKey u) = some r) :
    (∀ k r, getProp (bestStep best t) k = some r →
      r ∈ seen ++ [t] ∧ timeKey r = k
        ∧ ∀ u ∈ seen ++ [t], timeKey u = k → r.totalSeconds ≤ u.totalSeconds)
    ∧ (∀ u ∈ seen ++ [t], ∃ r, getProp (bestStep best t) (timeKey u) = some r) := by
  unfold bestStep
  cases hb : getProp best (timeKey t) with
  | none =>
    simp only
    constructor
    · intro k r hr
      rw [getProp_setProp] at hr
      by_cases hk : timeKey t = k
      · rw [if_pos hk] at hr
        injection hr with hr
        subst hr
        refine ⟨by simp, hk, ?_⟩
        intro u hu huk
        rcases List.mem_append.1 hu with hu | hu
        · obtain ⟨r', hr'⟩ := h2 u hu
          rw [huk, ← hk, hb] at hr'
          exact Option.noConfusion hr'
        · rw [List.mem_singleton.1 hu]
      · rw [if_neg hk] at hr
        obtain ⟨a, b, c⟩ := h1 k r hr
        refine ⟨List.mem_append_left _ a, b, ?_⟩
        intro u hu huk
        rcases List.mem_append.1 hu with hu | hu
        · exact c u hu huk
        · rw [List.mem_singleton.1 hu] at huk
          exact absurd huk hk
    · intro u hu
      rw [getProp_setProp]
      by_cases hk : timeKey t = timeKey u
      · exact ⟨t, by rw [if_pos hk]⟩
      · rw [if_neg hk]
        rcases List.mem_append.1 hu with hu | hu
        · exact h2 u hu
        · rw [List.mem_singleton.1 hu] at hk
          exact absurd rfl hk
  | some b =>
    simp only
    obtain ⟨bmem, bkey, bmin⟩ := h1 _ b hb
    by_cases hlt : t.totalSeconds < b.totalSeconds
    · rw [if_pos hlt]
      constructor
      · intro k r hr
        rw [getProp_setProp] at hr
        by_cases hk : timeKey t = k
        · rw [if_pos hk] at hr
          injection hr with hr
          subst hr
          refine ⟨by simp, hk, ?_⟩
          intro u hu huk
          rcases List.mem_append.1 hu with hu | hu
          · exact le_trans (le_of_lt hlt) (bmin u hu (huk.trans hk.symm))
          · rw [List.mem_singleton.1 hu]
        · rw [if_neg hk] at hr
          obtain ⟨a, b', c⟩ := h1 k r hr
          refine ⟨List.mem_append_left _ a, b', ?_⟩
          intro u hu huk
          rcases List.mem_append.1 hu with hu | hu
          · exact c u hu huk
          · rw [List.mem_singleton.1 hu] at huk
            exact absurd huk hk
      · intro u hu
        rw [getProp_setProp]
        by_cases hk : timeKey t = timeKey u
        · exact ⟨t, by rw [if_pos hk]⟩
        · rw [if_neg hk]
          rcases List.mem_append.1 hu with hu | hu
          · exact h2 u hu
          · rw [List.mem_singleton.1 hu] at hk
            exact absurd rfl hk
    · rw [if_neg hlt]
      constructor
      · intro k r hr
        obtain ⟨a, b', c⟩ := h1 k r hr
        refine ⟨List.mem_append_left _ a, b', ?_⟩
        intro u hu huk
        rcases List.mem_append.1 hu with hu | hu
        · exact c u hu huk
        · rw [List.mem_singleton.1 hu] at huk ⊢
          rw [← huk, hb] at hr
          injection hr with hr
          rw [← hr]
          exact not_lt.1 hlt
      · intro u hu
        rcases List.mem_append.1 hu with hu | hu
        · exact h2 u hu
        · rw [List.mem_singleton.1 hu]
          exact ⟨b, hb⟩

theorem foldl_bestStep_inv (l : List TimeRecord) :
    ∀ (best : List (String × TimeRecord)) (seen : List TimeRecord),
      (∀ k r, getProp best k = some r →
        r ∈ seen ∧ timeKey r = k
          ∧ ∀ u ∈ seen, timeKey u = k → r.totalSeconds ≤ u.totalSeconds) →
      (∀ u ∈ seen, ∃ r, getProp best (timeKey u) = some r) →
      (∀ k r, getProp (l.foldl bestStep best) k = some r →
        r ∈ seen ++ l ∧ timeKey r = k
          ∧ ∀ u ∈ seen ++ l, timeKey u = k → r.totalSeconds ≤ u.totalSeconds)
      ∧ (∀ u ∈ seen ++ l, ∃ r, getProp (l.foldl bestStep best) (timeKey u) = some r) := by
  induction l with
  | nil =>
    intro best seen h1 h2
    simpa using ⟨h1, h2⟩
  | cons t rest ih =>
    intro best seen h1 h2
    obtain ⟨s1, s2⟩ := bestStep_inv best seen t h1 h2
    have := ih (bestStep best t) (seen ++ [t]) s1 s2
    simpa [List.append_assoc] using this

theorem bestTimes_inv (times : List TimeRecord) :
    (∀ k r, getProp (bestTimes times) k = some r →
      r ∈ times ∧ timeKey r = k
        ∧ ∀ u ∈ times, timeKey u = k → r.totalSeconds ≤ u.totalSeconds)
    ∧ (∀ u ∈ times, ∃ r, getProp (bestTimes times) (timeKey u) = some r) := by
  have := foldl_bestStep_inv times [] []
    (fun k r h => by simp [getProp] at h) (fun u hu => by simp at hu)
  simpa [bestTimes] using this

theorem timeKey_eq_eventKey_iff (t : TimeRecord) (d : Distance) (s : Style) (p : PoolSize) :
    timeKey t = eventKey d s p ↔ t.distance = d ∧ t.style = s ∧ t.poolSizeOrDefault = p := by
  constructor
  · intro h
    exact eventKey_inj _ _ _ _ _ _ h
  · rintro ⟨rfl, rfl, rfl⟩
    rfl

/-- C10: `bestTimes` has an entry for an event key (distance, style, pool
size) exactly when a record of the list has that distance, that style and that
pool size (`50m` when absent); every key with an entry is the key of a record
of the list; the entry is a record of the list with that key whose
`totalSeconds` is at most that of every record of the list with that key; the
empty list gives the empty object. -/
theorem bestTimes_spec (times : List TimeRecord) :
    (∀ d s p, (∃ r, getProp (bestTimes times) (eventKey d s p) = some r) ↔
      ∃ t ∈ times, t.distance = d ∧ t.style = s ∧ t.poolSizeOrDefault = p)
    ∧ (∀ k, (∃ r, getProp (bestTimes times) k = some r) →
      ∃ t ∈ times, k = eventKey t.distance t.style t.poolSizeOrDefault)
    ∧ (∀ d s p r, getProp (bestTimes times) (eventKey d s p) = some r →
      r ∈ times ∧ r.distance = d ∧ r.style = s ∧ r.poolSizeOrDefault = p
        ∧ ∀ t ∈ times, t.distance = d → t.style = s → t.poolSizeOrDefault = p →
            r.totalSeconds ≤ t.totalSeconds)
    ∧ bestTimes [] = [] := by
  obtain ⟨h1, h2⟩ := bestTimes_inv times
  refine ⟨?_, ?_, ?_, rfl⟩
  · intro d s p
    constructor
    · rintro ⟨r, hr⟩
      obtain ⟨a, b, _⟩ := h1 _ r hr
      exact ⟨r, a, (timeKey_eq_eventKey_iff r d s p).1 b⟩
    · rintro ⟨t, ht, hk⟩
      have := h2 t ht
      rwa [(timeKey_eq_eventKey_iff t d s p).2 hk] at this
  · rintro k ⟨r, hr⟩
    obtain ⟨a, b, _⟩ := h1 _ r hr
    exact ⟨r, a, b.symm⟩
  · intro d s p r hr
    obtain ⟨a, b, c⟩ := h1 _ r hr
    obtain ⟨e1, e2, e3⟩ := (timeKey_eq_eventKey_iff r d s p).1 b
    refine ⟨a, e1, e2, e3, ?_⟩
    intro t ht t1 t2 t3
    exact c t ht ((timeKey_eq_eventKey_iff t d s p).2 ⟨t1, t2, t3⟩)

/-- Witness for C10: over the 62.0 s and 60.5 s records of one event the
entry exists and is at most 60.5 s. -/
theorem bestTimes_spec_witness :
    ∃ r, getProp (bestTimes [slowRecord, fastRecord]) (eventKey .m100 .Freestyle .m50) = some r
      ∧ r.totalSeconds ≤ 60.5 := by
  obtain ⟨r, hr⟩ := ((bestTimes_spec [slowRecord, fastRecord]).1 .m100 .Freestyle .m50).2
    ⟨slowRecord, List.mem_cons_self _ _, rfl, rfl, rfl⟩
  refine ⟨r, hr, ?_⟩
  exact ((bestTimes_spec [slowRecord, fastRecord]).2.2.1 _ _ _ r hr).2.2.2.2 fastRecord
    (List.mem_cons_of_mem _ (List.mem_cons_self _ _)) rfl rfl rfl

/-! ## Best times: first seen wins -/

theorem bestStep_first (best : List (String × TimeRecord)) (seen : List TimeRecord)
    (t : TimeRecord)
    (h1 : ∀ k r, getProp best k = some r →
      ∃ pre post, seen = pre ++ r :: post ∧ timeKey r = k
        ∧ (∀ u ∈ pre, timeKey u = k → r.totalSeconds < u.totalSeconds)
        ∧ (∀ u ∈ post, timeKey u = k → r.totalSeconds ≤ u.totalSeconds))
    (h2 : ∀ u ∈ seen, ∃ r, getProp best (timeKey u) = some r) :
    ∀ k r, getProp (bestStep best t) k = some r →
      ∃ pre post, seen ++ [t] = pre ++ r :: post ∧ timeKey r = k
        ∧ (∀ u ∈ pre, timeKey u = k → r.totalSeconds < u.totalSeconds)
        ∧ (∀ u ∈ post, timeKey u = k → r.totalSeconds ≤ u.totalSeconds) := by
  have keep : ∀ k r, getProp best k = some r → (timeKey t = k → r.totalSeconds ≤ t.totalSeconds) →
      ∃ pre post, seen ++ [t] = pre ++ r :: post ∧ timeKey r = k
        ∧ (∀ u ∈ pre, timeKey u = k → r.totalSeconds < u.totalSeconds)
        ∧ (∀ u ∈ post, timeKey u = k → r.totalSeconds ≤ u.totalSeconds) := by
    intro k r hr ht
    obtain ⟨pre, post, e, hk, hpre, hpost⟩ := h1 k r hr
    refine ⟨pre, post ++ [t], by rw [e]; simp, hk, hpre, ?_⟩
    intro u hu huk
    rcases List.mem_append.1 hu with hu | hu
    · exact hpost u hu huk
    · rw [List.mem_singleton.1 hu] at huk ⊢
      exact ht huk
  intro k r hr
  unfold bestStep at hr
  cases hb : getProp best (timeKey t) with
  | none =>
    rw [hb] at hr
    simp only at hr
    rw [getProp_setProp] at hr
    by_cases hk : timeKey t = k
    · rw [if_pos hk] at hr
      injection hr with hr
      subst hr
      refine ⟨seen, [], rfl, hk, ?_, by simp⟩
      intro u hu huk
      obtain ⟨r', hr'⟩ := h2 u hu
      rw [huk, ← hk, hb] at hr'
      exact Option.noConfusion hr'
    · rw [if_neg hk] at hr
      exact keep k r hr (fun h => absurd h hk)
  | some b =>
    rw [hb] at hr
    simp only at hr
    obtain ⟨bpre, bpost, be, bkey, bhpre, bhpost⟩ := h1 _ b hb
    by_cases hlt : t.totalSeconds < b.totalSeconds
    · rw [if_pos hlt, getProp_setProp] at hr
      by_cases hk : timeKey t = k
      · rw [if_pos hk] at hr
        injection hr with hr
        subst hr
        refine ⟨seen, [], rfl, hk, ?_, by simp⟩
        intro u hu huk
        have hukt : timeKey u = timeKey t := huk.trans hk.symm
        rw [be] at hu
        rcases List.mem_append.1 hu with hu | hu
        · exact lt_trans hlt (bhpre u hu hukt)
        · rcases List.mem_cons.1 hu with hu | hu
          · rw [hu]; exact hlt
          · exact lt_of_lt_of_le hlt (bhpost u hu hukt)
      · rw [if_neg hk] at hr
        exact keep k r hr (fun h => absurd h hk)
    · rw [if_neg hlt] at hr
      refine keep k r hr ?_
      intro hk
      rw [← hk, hb] at hr
      injection hr with hr
      rw [← hr]
      exact not_lt.1 hlt

theorem first_decomp_min (seen : List TimeRecord) (k : String) (r : TimeRecord)
    (h : ∃ pre post, seen = pre ++ r :: post ∧ timeKey r = k
        ∧ (∀ u ∈ pre, timeKey u = k → r.totalSeconds < u.totalSeconds)
        ∧ (∀ u ∈ post, timeKey u = k → r.totalSeconds ≤ u.totalSeconds)) :
    r ∈ seen ∧ timeKey r = k
      ∧ ∀ u ∈ seen, timeKey u = k → r.totalSeconds ≤ u.totalSeconds := by
  obtain ⟨pre, post, e, hk, hpre, hpost⟩ := h
  refine ⟨by rw [e]; simp, hk, ?_⟩
  intro u hu huk
  rw [e] at hu
  rcases List.mem_append.1 hu with hu | hu
  · exact le_of_lt (hpre u hu huk)
  · rcases List.mem_cons.1 hu with hu | hu
    · rw [hu]
    · exact hpost u hu huk

theorem foldl_bestStep_first (l : List TimeRecord) :
    ∀ (best : List (String × TimeRecord)) (seen : List TimeRecord),
      (∀ k r, getProp best k = some r →
        ∃ pre post, seen = pre ++ r :: post ∧ timeKey r = k
          ∧ (∀ u ∈ pre, timeKey u = k → r.totalSeconds < u.totalSeconds)
          ∧ (∀ u ∈ post, timeKey u = k → r.totalSeconds ≤ u.totalSeconds)) →
      (∀ u ∈ seen, ∃ r, getProp best (timeKey u) = some r) →
      ∀ k r, getProp (l.foldl bestStep best) k = some r →
        ∃ pre post, seen ++ l = pre ++ r :: post ∧ timeKey r = k
          ∧ (∀ u ∈ pre, timeKey u = k → r.totalSeconds < u.totalSeconds)
          ∧ (∀ u ∈ post, timeKey u = k → r.totalSeconds ≤ u.totalSeconds) := by
  induction l with
  | nil =>
    intro best seen h1 h2
    simpa using h1
  | cons t rest ih =>
    intro best seen h1 h2
    have s1 := bestStep_first best seen t h1 h2
    have s2 := (bestStep_inv best seen t
      (fun k r hr => first_decomp_min seen k r (h1 k r hr)) h2).2
    have := ih (bestStep best t) (seen ++ [t]) s1 s2
    simpa [List.append_assoc] using this

theorem bestStep_of_not_lt (best : List (String × TimeRecord)) (t b : TimeRecord)
    (hb : getProp best (timeKey t) = some b) (h : ¬ t.totalSeconds < b.totalSeconds) :
    bestStep best t = best := by
  unfold bestStep
  rw [hb]
  simp only
  rw [if_neg h]

theorem bestTimes_append_of_not_lt (times : List TimeRecord) (t b : TimeRecord)
    (hb : getProp (bestTimes times) (timeKey t) = some b)
    (h : ¬ t.totalSeconds < b.totalSeconds) :
    bestTimes (times ++ [t]) = bestTimes times := by
  unfold bestTimes at hb ⊢
  rw [List.foldl_append]
  simp only [List.foldl_cons, List.foldl_nil]
  exact bestStep_of_not_lt _ t b hb h

/-- C11: the entry of `bestTimes` for a key is the first record of the list
among those with that key and the minimal `totalSeconds`: every earlier
record with the key is strictly slower, every later one is not faster.
Appending a record that ties the current entry of its key leaves `bestTimes`
unchanged. -/
theorem bestTimes_first_seen (times : List TimeRecord) :
    (∀ k r, getProp (bestTimes times) k = some r →
      ∃ pre post, times = pre ++ r :: post ∧ timeKey r = k
        ∧ (∀ u ∈ pre, timeKey u = k → r.totalSeconds < u.totalSeconds)
        ∧ (∀ u ∈ post, timeKey u = k → r.totalSeconds ≤ u.totalSeconds))
    ∧ (∀ t b, getProp (bestTimes times) (timeKey t) = some b →
        t.totalSeconds = b.totalSeconds → bestTimes (times ++ [t]) = bestTimes times) := by
  constructor
  · have := foldl_bestStep_first times [] []
      (fun k r h => by simp [getProp] at h) (fun u hu => by simp at hu)
    simpa [bestTimes] using this
  · intro t b hb heq
    exact bestTimes_append_of_not_lt times t b hb (by rw [heq]; exact lt_irrefl _)

theorem bestTimes_slow_fast :
    bestTimes [slowRecord, fastRecord] = [("100m-Freestyle-50m", fastRecord)] := by
  have h1 : timeKey slowRecord = "100m-Freestyle-50m" := by decide
  have h2 : timeKey fastRecord = "100m-Freestyle-50m" := by decide
  have hlt : fastRecord.totalSeconds < slowRecord.totalSeconds := by
    norm_num [fastRecord, slowRecord]
  simp [bestTimes, bestStep, h1, h2, getProp, setProp, hlt]

/-- Witness for C11: over 62.0 s, 60.5 s and a second 60.5 s the entry is
the first 60.5 s record. -/
theorem bestTimes_first_seen_witness :
    bestTimes ([slowRecord, fastRecord] ++ [tieRecord])
      = [("100m-Freestyle-50m", fastRecord)] :=
  ((bestTimes_first_seen [slowRecord, fastRecord]).2 tieRecord fastRecord
    (by
      have hk : timeKey tieRecord = "100m-Freestyle-50m" := by decide
      rw [bestTimes_slow_fast, hk]
      simp [getProp])
    (by norm_num [tieRecord, fastRecord])).trans
    bestTimes_slow_fast

/-! ## Sorting -/

theorem filter_orderedInsert_of_related {α : Type} (r : α → α → Prop) [DecidableRel r]
    (p : α → Bool) (hp : ∀ a b, p a = true → p b = true → r a b) (a : α) (l : List α) :
    (l.orderedInsert r a).filter p = (a :: l).filter p := by
  induction l with
  | nil => simp
  | cons b l ih =>
    by_cases hab : r a b
    · simp [List.orderedInsert, hab]
    · have hne : ¬ (p a = true ∧ p b = true) := fun h => hab (hp a b h.1 h.2)
      simp only [List.orderedInsert, if_neg hab, List.filter_cons, ih]
      by_cases hpa : p a = true
      · have hpb : ¬ p b = true := fun h => hne ⟨hpa, h⟩
        simp [hpa, hpb]
      · simp [hpa]

theorem filter_insertionSort_of_related {α : Type} (r : α → α → Prop) [DecidableRel r]
    (p : α → Bool) (hp : ∀ a b, p a = true → p b = true → r a b) (l : List α) :
    (l.insertionSort r).filter p = l.filter p := by
  induction l with
  | nil => simp
  | cons a l ih =>
    rw [List.insertionSort, filter_orderedInsert_of_related r p hp, List.filter_cons,
      List.filter_cons, ih]

theorem arraySort_perm {α : Type} (compareFn : α → α → ℚ) (l : List α) :
    (arraySort compareFn l).Perm l :=
  List.perm_insertionSort _ l

theorem arraySort_sorted {α : Type} (key : α → ℚ) (l : List α) :
    List.Sorted (fun a b => key a ≤ key b) (arraySort (fun a b => key a - key b) l) := by
  have hrel : (fun a b : α => key a - key b ≤ 0) = (fun a b => key a ≤ key b) := by
    funext a b
    exact propext sub_nonpos
  unfold arraySort
  haveI : IsTotal α (fun a b => key a - key b ≤ 0) :=
    ⟨fun a b => by simp only [sub_nonpos]; exact le_total _ _⟩
  haveI : IsTrans α (fun a b => key a - key b ≤ 0) :=
    ⟨fun a b c hab hbc => by simp only [sub_nonpos] at *; exact le_trans hab hbc⟩
  have h := List.sorted_insertionSort (fun a b : α => key a - key b ≤ 0) l
  exact List.Pairwise.imp (fun hab => sub_nonpos.1 hab) h

theorem arraySort_stable {α : Type} (key : α → ℚ) (v : ℚ) (l : List α) :
    (arraySort (fun a b => key a - key b) l).filter (fun a => decide (key a = v))
      = l.filter (fun a => decide (key a = v)) := by
  unfold arraySort
  apply filter_insertionSort_of_related
  intro a b ha hb
  simp only [decide_eq_true_eq] at ha hb
  show key a - key b ≤ 0
  rw [ha, hb]
  simp

theorem foldl_add_eq_sum {α : Type} (f : α → Int) (l : List α) (init : Int) :
    l.foldl (fun sum t => sum + f t) init = init + (l.map f).sum := by
  induction l generalizing init with
  | nil => simp
  | cons a l ih =>
    simp only [List.foldl_cons, List.map_cons, List.sum_cons]
    rw [ih]
    ring

/-! ## Leaderboard -/

theorem ranking_eq_sort_neg (swimmers : List Swimmer) (times : List TimeRecord) :
    ranking swimmers times
      = arraySort (fun a b => (-(a.totalPoints : ℚ)) - (-(b.totalPoints : ℚ)))
          (swimmers.map (rankingEntry times)) := by
  unfold ranking
  congr 1
  funext a b
  push_cast
  ring

theorem ranking_perm (swimmers : List Swimmer) (times : List TimeRecord) :
    (ranking swimmers times).Perm (swimmers.map (rankingEntry times)) :=
  arraySort_perm _ _

/-- C16: every entry of `ranking` carries a swimmer of the input list with
`totalPoints` the sum of the points (0 when missing) of exactly the records
whose `swimmerId` is the swimmer's id and `raceCount` the number of those
records; every swimmer of the input has its entry (the swimmers of the
entries are a permutation of the input); a swimmer without records gets 0
and 0. -/
theorem ranking_entries (swimmers : List Swimmer) (times : List TimeRecord) :
    (∀ e ∈ ranking swimmers times,
      e.swimmer ∈ swimmers
      ∧ e.totalPoints
          = ((times.filter (fun t => t.swimmerId = e.swimmer.id)).map
              (fun t => t.points.getD 0)).sum
      ∧ e.raceCount = (times.filter (fun t => t.swimmerId = e.swimmer.id)).length
      ∧ ((∀ t ∈ times, t.swimmerId ≠ e.swimmer.id) → e.totalPoints = 0 ∧ e.raceCount = 0))
    ∧ ((ranking swimmers times).map (fun e => e.swimmer)).Perm swimmers := by
  constructor
  · intro e he
    have hmem := (ranking_perm swimmers times).mem_iff.1 he
    obtain ⟨s, hs, rfl⟩ := List.mem_map.1 hmem
    have htot : (rankingEntry times s).totalPoints
        = ((times.filter (fun t => t.swimmerId = s.id)).map (fun t => t.points.getD 0)).sum := by
      simp [rankingEntry, foldl_add_eq_sum]
    refine ⟨hs, htot, rfl, ?_⟩
    intro hnone
    have hnil : times.filter (fun t => t.swimmerId = s.id) = [] := by
      rw [List.filter_eq_nil_iff]
      intro t ht
      simpa using hnone t ht
    constructor
    · rw [htot]
      show ((times.filter (fun t => t.swimmerId = s.id)).map (fun t => t.points.getD 0)).sum = 0
      rw [hnil]; rfl
    · show (times.filter (fun t => t.swimmerId = s.id)).length = 0
      rw [hnil]; rfl
  · have h := (ranking_perm swimmers times).map (fun e => e.swimmer)
    have hid : (swimmers.map (rankingEntry times)).map (fun e => e.swimmer) = swimmers := by
      rw [List.map_map]
      conv_rhs => rw [← List.map_id swimmers]
      rfl
    rwa [hid] at h

/-- Witness for C16: the leaderboard of the sample swimmers has three
entries. -/
theorem ranking_entries_witness :
    ((ranking sampleSwimmers sampleRaces).map (fun e => e.swimmer)).Perm sampleSwimmers :=
  (ranking_entries sampleSwimmers sampleRaces).2

/-- C17: `ranking` is a permutation of the entries of the input swimmers,
each entry has at least the `totalPoints` of the next one, and for every
total the entries with that total appear in the order of the input
swimmers. -/
theorem ranking_stable_sorted (swimmers : List Swimmer) (times : List TimeRecord) :
    (ranking swimmers times).Perm (swimmers.map (rankingEntry times))
    ∧ List.Sorted (fun a b => a.totalPoints ≥ b.totalPoints) (ranking swimmers times)
    ∧ (∀ v : Int, (ranking swimmers times).filter (fun e => decide (e.totalPoints = v))
        = (swimmers.map (rankingEntry times)).filter (fun e => decide (e.totalPoints = v))) := by
  refine ⟨ranking_perm swimmers times, ?_, ?_⟩
  · rw [ranking_eq_sort_neg]
    have h := arraySort_sorted (fun e : RankingEntry => -(e.totalPoints : ℚ))
      (swimmers.map (rankingEntry times))
    refine List.Pairwise.imp ?_ h
    intro a b hab
    have : (b.totalPoints : ℚ) ≤ (a.totalPoints : ℚ) := by linarith
    exact_mod_cast this
  · intro v
    rw [ranking_eq_sort_neg]
    have h := arraySort_stable (fun e : RankingEntry => -(e.totalPoints : ℚ)) (-(v : ℚ))
      (swimmers.map (rankingEntry times))
    have hp : (fun e : RankingEntry => decide (-(e.totalPoints : ℚ) = -(v : ℚ)))
        = (fun e => decide (e.totalPoints = v)) := by
      funext e
      congr 1
      apply propext
      constructor
      · intro h
        have : (e.totalPoints : ℚ) = (v : ℚ) := by linarith
        exact_mod_cast this
      · intro h
        rw [h]
    rw [hp] at h
    exact h

/-- Witness for C17: with totals 5, 20, 20 in profile order, the two
swimmers on 20 points come out in profile order. -/
theorem ranking_stable_sorted_witness :
    ((ranking sampleSwimmers sampleRaces).filter (fun e => decide (e.totalPoints = 20))).map
        (fun e => e.swimmer.id) = ["s2", "s3"]
    ∧ (sampleSwimmers.map (fun s => (rankingEntry sampleRaces s).totalPoints)) = [5, 20, 20] := by
  rw [(ranking_stable_sorted sampleSwimmers sampleRaces).2.2 20]
  constructor <;> decide

/-! ## Records view -/

theorem getProp_map {α β : Type} (f : α → β) (obj : List (String × α)) (k : String) :
    getProp (obj.map (fun kv => (kv.1, f kv.2))) k = (getProp obj k).map f := by
  induction obj with
  | nil => rfl
  | cons kv rest ih =>
    obtain ⟨k0, v0⟩ := kv
    by_cases h : k0 = k
    · simp [getProp, h]
    · simp [getProp, h, ih]

theorem filteredTimes_eq (sd : Option Distance) (ss : Option Style) (sp : Option PoolSize)
    (times : List TimeRecord) :
    filteredTimes sd ss sp times
      = arraySort (fun a b => a.totalSeconds - b.totalSeconds)
          (times.filter (passesFilters sd ss sp)) := by
  cases sd <;> cases ss <;> cases sp <;>
    simp only [filteredTimes, List.filter_filter] <;> congr 1
  all_goals first
    | (apply List.filter_congr
       intro t _
       simp [passesFilters, eq_comm]
       try ac_rfl)
    | (symm
       rw [List.filter_eq_self]
       intro t _
       simp [passesFilters])

theorem groupStep_inv (grouped : List (String × RecordGroup)) (seen : List TimeRecord)
    (t : TimeRecord)
    (h1 : ∀ k g, getProp grouped k = some g →
      k = eventKey g.distance g.style g.poolSize
        ∧ g.times = seen.filter (fun u => decide (timeKey u = k)))
    (h2 : ∀ u ∈ seen, ∃ g, getProp grouped (timeKey u) = some g) :
    (∀ k g, getProp (groupStep grouped t) k = some g →
      k = eventKey g.distance g.style g.poolSize
        ∧ g.times = (seen ++ [t]).filter (fun u => decide (timeKey u = k)))
    ∧ (∀ u ∈ seen ++ [t], ∃ g, getProp (groupStep grouped t) (timeKey u) = some g) := by
  unfold groupStep
  constructor
  · intro k g hg
    rw [getProp_setProp] at hg
    by_cases hk : timeKey t = k
    · rw [if_pos hk] at hg
      injection hg with hg
      subst hg
      cases hb : getProp grouped (timeKey t) with
      | none =>
        have hnil : seen.filter (fun u => decide (timeKey u = k)) = [] := by
          rw [List.filter_eq_nil_iff]
          intro u hu
          obtain ⟨g', hg'⟩ := h2 u hu
          simp only [decide_eq_true_eq]
          intro huk
          rw [huk, ← hk, hb] at hg'
          exact Option.noConfusion hg'
        simp only [Option.getD_none, List.nil_append]
        refine ⟨hk.symm, ?_⟩
        rw [List.filter_append, hnil]
        simp [hk]
      | some g0 =>
        obtain ⟨e1, e2⟩ := h1 _ g0 hb
        simp only [Option.getD_some]
        refine ⟨by rw [← hk]; exact e1, ?_⟩
        rw [List.filter_append, e2, hk]
        simp [hk]
    · rw [if_neg hk] at hg
      obtain ⟨e1, e2⟩ := h1 k g hg
      refine ⟨e1, ?_⟩
      rw [List.filter_append, e2]
      simp [hk]
  · intro u hu
    rw [getProp_setProp]
    by_cases hk : timeKey t = timeKey u
    · rw [if_pos hk]
      exact ⟨_, rfl⟩
    · rw [if_neg hk]
      rcases List.mem_append.1 hu with hu | hu
      · exact h2 u hu
      · rw [List.mem_singleton.1 hu] at hk
        exact absurd rfl hk

theorem foldl_groupStep_inv (l : List TimeRecord) :
    ∀ (grouped : List (String × RecordGroup)) (seen : List TimeRecord),
      (∀ k g, getProp grouped k = some g →
        k = eventKey g.distance g.style g.poolSize
          ∧ g.times = seen.filter (fun u => decide (timeKey u = k))) →
      (∀ u ∈ seen, ∃ g, getProp grouped (timeKey u) = some g) →
      (∀ k g, getProp (l.foldl groupStep grouped) k = some g →
        k = eventKey g.distance g.style g.poolSize
          ∧ g.times = (seen ++ l).filter (fun u => decide (timeKey u = k)))
      ∧ (∀ u ∈ seen ++ l, ∃ g, getProp (l.foldl groupStep grouped) (timeKey u) = some g) := by
  induction l with
  | nil =>
    intro grouped seen h1 h2
    simpa using ⟨h1, h2⟩
  | cons t rest ih =>
    intro grouped seen h1 h2
    obtain ⟨s1, s2⟩ := groupStep_inv grouped seen t h1 h2
    have := ih (groupStep grouped t) (seen ++ [t]) s1 s2
    simpa [List.append_assoc] using this

/-- Every group of `groupedRecords` is keyed by its own distance, style and
pool size and holds, sorted, the filtered records with that key in the order
of `filteredTimes`; every filtered record's key has a group. -/
theorem groupedRecords_inv (sd : Option Distance) (ss : Option Style) (sp : Option PoolSize)
    (times : List TimeRecord) :
    (∀ k g, getProp (groupedRecords sd ss sp times) k = some g →
      k = eventKey g.distance g.style g.poolSize
        ∧ g.times = arraySort (fun a b => a.totalSeconds - b.totalSeconds)
            ((filteredTimes sd ss sp times).filter (fun u => decide (timeKey u = k))))
    ∧ (∀ u ∈ filteredTimes sd ss sp times,
        ∃ g, getProp (groupedRecords sd ss sp times) (timeKey u) = some g) := by
  obtain ⟨h1, h2⟩ := foldl_groupStep_inv (filteredTimes sd ss sp times) [] []
    (fun k g h => by simp [getProp] at h) (fun u hu => by simp at hu)
  simp only [List.nil_append] at h1 h2
  unfold groupedRecords
  constructor
  · intro k g hg
    rw [getProp_map] at hg
    cases hg0 : getProp ((filteredTimes sd ss sp times).foldl groupStep []) k with
    | none => rw [hg0] at hg; exact Option.noConfusion hg
    | some g0 =>
      rw [hg0] at hg
      injection hg with hg
      subst hg
      obtain ⟨e1, e2⟩ := h1 k g0 hg0
      exact ⟨e1, by simp only [sortGroup, e2]⟩
  · intro u hu
    obtain ⟨g, hg⟩ := h2 u hu
    rw [getProp_map, hg]
    exact ⟨_, rfl⟩

theorem mem_filteredTimes (sd : Option Distance) (ss : Option Style) (sp : Option PoolSize)
    (times : List TimeRecord) (t : TimeRecord) :
    t ∈ filteredTimes sd ss sp times ↔ t ∈ times ∧ passesFilters sd ss sp t = true := by
  rw [filteredTimes_eq, (arraySort_perm _ _).mem_iff, List.mem_filter]

theorem groupedRecords_times_perm (sd : Option Distance) (ss : Option Style)
    (sp : Option PoolSize) (times : List TimeRecord) (k : String) (g : RecordGroup)
    (hg : getProp (groupedRecords sd ss sp times) k = some g) :
    g.times.Perm (times.filter
      (fun t => passesFilters sd ss sp t && decide (timeKey t = k))) := by
  rw [((groupedRecords_inv sd ss sp times).1 k g hg).2, filteredTimes_eq]
  refine (arraySort_perm _ _).trans ?_
  refine ((arraySort_perm _ _).filter _).trans ?_
  rw [List.filter_filter]
  apply List.Perm.of_eq
  congr 1
  funext t
  exact Bool.and_comm _ _

theorem foldl_groupStep_key (l : List TimeRecord) :
    ∀ (grouped : List (String × RecordGroup)) (k : String) (g : RecordGroup),
      getProp (l.foldl groupStep grouped) k = some g →
      (∃ g0, getProp grouped k = some g0) ∨ ∃ u ∈ l, timeKey u = k := by
  induction l with
  | nil =>
    intro grouped k g hg
    exact Or.inl ⟨g, hg⟩
  | cons t rest ih =>
    intro grouped k g hg
    rcases ih (groupStep grouped t) k g hg with ⟨g0, h0⟩ | ⟨u, hu, huk⟩
    · unfold groupStep at h0
      rw [getProp_setProp] at h0
      by_cases hk : timeKey t = k
      · exact Or.inr ⟨t, List.mem_cons_self _ _, hk⟩
      · rw [if_neg hk] at h0
        exact Or.inl ⟨g0, h0⟩
    · exact Or.inr ⟨u, List.mem_cons_of_mem _ hu, huk⟩

theorem groupedRecords_key_mem (sd : Option Distance) (ss : Option Style)
    (sp : Option PoolSize) (times : List TimeRecord) (k : String) (g : RecordGroup)
    (hg : getProp (groupedRecords sd ss sp times) k = some g) :
    ∃ u ∈ filteredTimes sd ss sp times, timeKey u = k := by
  unfold groupedRecords at hg
  rw [getProp_map] at hg
  cases hg0 : getProp ((filteredTimes sd ss sp times).foldl groupStep []) k with
  | none => rw [hg0] at hg; exact Option.noConfusion hg
  | some g0 =>
    rcases foldl_groupStep_key _ [] k g0 hg0 with ⟨g1, h1⟩ | h
    · simp [getProp] at h1
    · exact h

theorem mem_group_iff (sd : Option Distance) (ss : Option Style) (sp : Option PoolSize)
    (times : List TimeRecord) (k : String) (g : RecordGroup)
    (hg : getProp (groupedRecords sd ss sp times) k = some g) (t : TimeRecord) :
    t ∈ g.times ↔ t ∈ times ∧ passesFilters sd ss sp t = true ∧ timeKey t = k := by
  rw [(groupedRecords_times_perm sd ss sp times k g hg).mem_iff, List.mem_filter]
  simp [and_assoc]

/-- C18: a record appears in a group of `groupedRecords` exactly when it is in
the list and satisfies all active filters; the group under the key of
(distance, style, pool size) carries these three values and holds, up to
order, exactly the filtered records with that distance, style and pool size
(`50m` when absent), each as often as in the list; a record sits only in the
group of its own key; with a distance filter every grouped record has that
distance; when no record passes the filters the result is the empty object. -/
theorem groupedRecords_spec (sd : Option Distance) (ss : Option Style) (sp : Option PoolSize)
    (times : List TimeRecord) :
    (∀ t, (∃ k g, getProp (groupedRecords sd ss sp times) k = some g ∧ t ∈ g.times)
      ↔ (t ∈ times ∧ passesFilters sd ss sp t = true))
    ∧ (∀ d s p g, getProp (groupedRecords sd ss sp times) (eventKey d s p) = some g →
        g.distance = d ∧ g.style = s ∧ g.poolSize = p
        ∧ g.times.Perm (times.filter (fun t => passesFilters sd ss sp t
            && decide (t.distance = d ∧ t.style = s ∧ t.poolSizeOrDefault = p))))
    ∧ (∀ k g t, getProp (groupedRecords sd ss sp times) k = some g → t ∈ g.times →
        k = eventKey t.distance t.style t.poolSizeOrDefault
        ∧ g.distance = t.distance ∧ g.style = t.style ∧ g.poolSize = t.poolSizeOrDefault
        ∧ g.times.count t = times.count t)
    ∧ (∀ k g t d, getProp (groupedRecords sd ss sp times) k = some g → t ∈ g.times →
        sd = some d → t.distance = d)
    ∧ ((∀ t ∈ times, passesFilters sd ss sp t = false) →
        groupedRecords sd ss sp times = []) := by
  refine ⟨?_, ?_, ?_, ?_, ?_⟩
  · intro t
    constructor
    · rintro ⟨k, g, hg, ht⟩
      obtain ⟨a, b, _⟩ := (mem_group_iff sd ss sp times k g hg t).1 ht
      exact ⟨a, b⟩
    · rintro ⟨a, b⟩
      obtain ⟨g, hg⟩ := (groupedRecords_inv sd ss sp times).2 t
        ((mem_filteredTimes sd ss sp times t).2 ⟨a, b⟩)
      exact ⟨timeKey t, g, hg, (mem_group_iff sd ss sp times _ g hg t).2 ⟨a, b, rfl⟩⟩
  · intro d s p g hg
    obtain ⟨e1, _⟩ := (groupedRecords_inv sd ss sp times).1 _ g hg
    obtain ⟨h1, h2, h3⟩ := eventKey_inj _ _ _ _ _ _ e1
    refine ⟨h1.symm, h2.symm, h3.symm, ?_⟩
    have hp := groupedRecords_times_perm sd ss sp times _ g hg
    have hf : (fun t => passesFilters sd ss sp t && decide (timeKey t = eventKey d s p))
        = (fun t => passesFilters sd ss sp t
            && decide (t.distance = d ∧ t.style = s ∧ t.poolSizeOrDefault = p)) := by
      funext t
      congr 1
      exact decide_eq_decide.2 (timeKey_eq_eventKey_iff t d s p)
    rwa [hf] at hp
  · intro k g t hg ht
    obtain ⟨a, b, c⟩ := (mem_group_iff sd ss sp times k g hg t).1 ht
    obtain ⟨e1, _⟩ := (groupedRecords_inv sd ss sp times).1 _ g hg
    have hk : eventKey t.distance t.style t.poolSizeOrDefault
        = eventKey g.distance g.style g.poolSize := by
      rw [← e1, ← c]; rfl
    obtain ⟨h1, h2, h3⟩ := eventKey_inj _ _ _ _ _ _ hk
    refine ⟨c.symm, h1.symm, h2.symm, h3.symm, ?_⟩
    rw [(groupedRecords_times_perm sd ss sp times k g hg).count_eq, List.count_filter]
    simp [b, c]
  · intro k g t d hg ht hsd
    obtain ⟨_, b, _⟩ := (mem_group_iff sd ss sp times k g hg t).1 ht
    subst hsd
    simp [passesFilters] at b
    exact b.1.symm
  · intro hnone
    have hnil : times.filter (passesFilters sd ss sp) = [] := by
      rw [List.filter_eq_nil_iff]
      intro t ht
      simp [hnone t ht]
    unfold groupedRecords
    rw [filteredTimes_eq, hnil]
    rfl

/-- C19: the `times` of every group of `groupedRecords` are in ascending
order of `totalSeconds`, the group is not empty, and its first entry has the
smallest `totalSeconds` of the group. -/
theorem groupedRecords_sorted (sd : Option Distance) (ss : Option Style) (sp : Option PoolSize)
    (times : List TimeRecord) (k : String) (g : RecordGroup)
    (hg : getProp (groupedRecords sd ss sp times) k = some g) :
    List.Sorted (fun a b => a.totalSeconds ≤ b.totalSeconds) g.times
    ∧ ∃ first rest, g.times = first :: rest
        ∧ ∀ t ∈ g.times, first.totalSeconds ≤ t.totalSeconds := by
  have hs : List.Sorted (fun a b : TimeRecord => a.totalSeconds ≤ b.totalSeconds) g.times := by
    rw [((groupedRecords_inv sd ss sp times).1 k g hg).2]
    exact arraySort_sorted (fun t : TimeRecord => t.totalSeconds) _
  refine ⟨hs, ?_⟩
  obtain ⟨u, hu, huk⟩ := groupedRecords_key_mem sd ss sp times k g hg
  have hmem : u ∈ g.times := by
    obtain ⟨a, b⟩ := (mem_filteredTimes sd ss sp times u).1 hu
    exact (mem_group_iff sd ss sp times k g hg u).2 ⟨a, b, huk⟩
  cases hts : g.times with
  | nil => rw [hts] at hmem; exact absurd hmem (List.not_mem_nil _)
  | cons first rest =>
    refine ⟨first, rest, rfl, ?_⟩
    intro t ht
    rw [hts] at hs
    rcases List.mem_cons.1 ht with ht | ht
    · rw [ht]
    · exact List.rel_of_sorted_cons hs t ht

/-- Witness for C18: with the distance filter on 100m, the 100m record is
grouped and the 200m record is not. -/
theorem groupedRecords_spec_witness :
    (∃ k g, getProp (groupedRecords (some .m100) none none
        [slowRecord, medleyRecord, fastRecord]) k = some g ∧ fastRecord ∈ g.times)
    ∧ ¬ (∃ k g, getProp (groupedRecords (some .m100) none none
        [slowRecord, medleyRecord, fastRecord]) k = some g ∧ medleyRecord ∈ g.times) := by
  constructor
  · exact ((groupedRecords_spec (some .m100) none none
      [slowRecord, medleyRecord, fastRecord]).1 fastRecord).2
      ⟨by simp, by decide⟩
  · intro h
    have := (((groupedRecords_spec (some .m100) none none
      [slowRecord, medleyRecord, fastRecord]).1 medleyRecord).1 h).2
    revert this
    decide

/-- Witness for C19: the 100m Freestyle 50m group of the sample records is in
ascending order. -/
theorem groupedRecords_sorted_witness :
    ∃ g, getProp (groupedRecords none none none [slowRecord, medleyRecord, fastRecord])
        (timeKey fastRecord) = some g
      ∧ List.Sorted (fun a b => a.totalSeconds ≤ b.totalSeconds) g.times := by
  obtain ⟨g, hg⟩ := (groupedRecords_inv none none none
    [slowRecord, medleyRecord, fastRecord]).2 fastRecord
    ((mem_filteredTimes none none none _ fastRecord).2 ⟨by simp, by decide⟩)
  exact ⟨g, hg, (groupedRecords_sorted none none none _ _ g hg).1⟩

/-! ## Head to head -/

theorem append_sep_inj (c : Char) (a a' b b' : List Char) (ha : c ∉ a) (ha' : c ∉ a')
    (h : a ++ c :: b = a' ++ c :: b') : a = a' ∧ b = b' := by
  induction a generalizing a' with
  | nil =>
    cases a' with
    | nil => simpa using h
    | cons x r =>
      simp at h
      exact absurd (h.1 ▸ List.mem_cons_self _ _) ha'
  | cons x xs ih =>
    cases a' with
    | nil =>
      simp at h
      exact absurd (h.1 ▸ List.mem_cons_self _ _) ha
    | cons y r =>
      simp at h
      obtain ⟨hx, hr⟩ := h
      have := ih r (fun hm => ha (List.mem_cons_of_mem _ hm))
        (fun hm => ha' (List.mem_cons_of_mem _ hm)) hr
      exact ⟨by rw [hx, this.1], this.2⟩

theorem eventLabel_inj (d d' : Distance) (s s' : Style) (p p' : PoolSize)
    (h : eventLabel d s p = eventLabel d' s' p') : d = d' ∧ s = s' ∧ p = p' := by
  have hd : ∀ x : Distance, ' ' ∉ x.label.data := by intro x; cases x <;> decide
  have hs : ∀ x : Style, ' ' ∉ x.label.data := by intro x; cases x <;> decide
  have hdata : ∀ (x : Distance) (y : Style) (z : PoolSize), (eventLabel x y z).data
      = x.label.data ++ ' ' :: (y.label.data ++ ' ' :: ('(' :: (z.label.data ++ [')']))) := by
    intro x y z
    simp [eventLabel]
  have h1 := congrArg String.data h
  rw [hdata, hdata] at h1
  obtain ⟨e1, h2⟩ := append_sep_inj ' ' _ _ _ _ (hd d) (hd d') h1
  obtain ⟨e2, e3⟩ := append_sep_inj ' ' _ _ _ _ (hs s) (hs s') h2
  refine ⟨?_, ?_, ?_⟩
  · revert e1; cases d <;> cases d' <;> decide
  · revert e2; cases s <;> cases s' <;> decide
  · revert e3; cases p <;> cases p' <;> decide

theorem mem_STYLES (s : Style) : s ∈ STYLES := by cases s <;> decide

theorem mem_DISTANCES (d : Distance) : d ∈ DISTANCES := by cases d <;> decide

theorem mem_POOL_SIZES (p : PoolSize) : p ∈ POOL_SIZES := by cases p <;> decide

theorem foldl_faster_mem (rest : List TimeRecord) (first : TimeRecord) :
    rest.foldl (fun best curr =>
      if curr.totalSeconds < best.totalSeconds then curr else best) first ∈ first :: rest := by
  induction rest generalizing first with
  | nil => simp
  | cons c rest ih =>
    simp only [List.foldl_cons]
    by_cases h : c.totalSeconds < first.totalSeconds
    · rw [if_pos h]
      have := ih c
      rcases List.mem_cons.1 this with h1 | h1
      · rw [h1]; simp
      · exact List.mem_cons_of_mem _ (List.mem_cons_of_mem _ h1)
    · rw [if_neg h]
      have := ih first
      rcases List.mem_cons.1 this with h1 | h1
      · rw [h1]; simp
      · exact List.mem_cons_of_mem _ (List.mem_cons_of_mem _ h1)

theorem getBestTime_eq_none_iff (times : List TimeRecord) (sid : String) (d : Distance)
    (s : Style) (p : PoolSize) :
    getBestTime times sid d s p = none ↔
      ∀ t ∈ times, ¬ (t.swimmerId = sid ∧ t.distance = d ∧ t.style = s
        ∧ t.poolSizeOrDefault = p) := by
  unfold getBestTime
  cases hf : times.filter (fun t => t.swimmerId = sid ∧ t.distance = d
      ∧ t.style = s ∧ t.poolSizeOrDefault = p) with
  | nil =>
    simp only [true_iff]
    intro t ht hm
    have : t ∈ times.filter (fun t => t.swimmerId = sid ∧ t.distance = d
        ∧ t.style = s ∧ t.poolSizeOrDefault = p) :=
      List.mem_filter.2 ⟨ht, by simpa using hm⟩
    rw [hf] at this
    exact absurd this (List.not_mem_nil _)
  | cons first rest =>
    simp only [false_iff, reduceCtorEq]
    intro hall
    have : first ∈ times.filter (fun t => t.swimmerId = sid ∧ t.distance = d
        ∧ t.style = s ∧ t.poolSizeOrDefault = p) := by rw [hf]; simp
    obtain ⟨hm, hp⟩ := List.mem_filter.1 this
    exact hall first hm (by simpa using hp)

theorem getBestTime_some_mem (times : List TimeRecord) (sid : String) (d : Distance)
    (s : Style) (p : PoolSize) (r : TimeRecord) (h : getBestTime times sid d s p = some r) :
    r ∈ times ∧ r.swimmerId = sid ∧ r.distance = d ∧ r.style = s
      ∧ r.poolSizeOrDefault = p := by
  unfold getBestTime at h
  cases hf : times.filter (fun t => t.swimmerId = sid ∧ t.distance = d
      ∧ t.style = s ∧ t.poolSizeOrDefault = p) with
  | nil => rw [hf] at h; exact Option.noConfusion h
  | cons first rest =>
    rw [hf] at h
    injection h with h
    have hm := foldl_faster_mem rest first
    rw [h, ← hf] at hm
    obtain ⟨a, b⟩ := List.mem_filter.1 hm
    exact ⟨a, by simpa using b⟩

theorem mem_comparisons (s1 s2 : String) (h1 : s1 ≠ "") (h2 : s2 ≠ "")
    (times : List TimeRecord) (e : Comparison) :
    e ∈ comparisons s1 s2 times ↔
      ∃ d s p, ((getBestTime times s1 d s p).isSome ∨ (getBestTime times s2 d s p).isSome)
        ∧ e = { event := eventLabel d s p
                time1 := getBestTime times s1 d s p
                time2 := getBestTime times s2 d s p
                winner := winnerOf (getBestTime times s1 d s p)
                  (getBestTime times s2 d s p) } := by
  have hsel : ¬ (s1 = "" ∨ s2 = "") := by
    rintro (h | h)
    · exact h1 h
    · exact h2 h
  unfold comparisons
  rw [if_neg hsel]
  simp only [List.mem_flatMap, comparisonFor]
  constructor
  · rintro ⟨s, _, d, _, p, _, he⟩
    by_cases hc : (getBestTime times s1 d s p).isSome ∨ (getBestTime times s2 d s p).isSome
    · rw [if_pos hc] at he
      exact ⟨d, s, p, hc, List.mem_singleton.1 he⟩
    · rw [if_neg hc] at he
      exact absurd he (List.not_mem_nil _)
  · rintro ⟨d, s, p, hc, he⟩
    refine ⟨s, mem_STYLES s, d, mem_DISTANCES d, p, mem_POOL_SIZES p, ?_⟩
    rw [if_pos hc, he]
    exact List.mem_singleton.2 rfl

/-- C20: for two selected swimmers, `comparisons` has an entry for a
combination (distance, style, pool size) exactly when a record of one of the
two swimmers has that distance, style and pool size (`50m` when absent);
every entry belongs to one combination, its `time1` (`time2`) is `null`
exactly when the first (second) swimmer has no record for it and is otherwise
a record of that swimmer for it; when no record belongs to either swimmer the
result is the empty list. -/
theorem comparisons_spec (s1 s2 : String) (h1 : s1 ≠ "") (h2 : s2 ≠ "")
    (times : List TimeRecord) :
    (∀ d s p, (∃ e ∈ comparisons s1 s2 times, e.event = eventLabel d s p) ↔
      ∃ t ∈ times, (t.swimmerId = s1 ∨ t.swimmerId = s2) ∧ t.distance = d ∧ t.style = s
        ∧ t.poolSizeOrDefault = p)
    ∧ (∀ e ∈ comparisons s1 s2 times, ∃ d s p, e.event = eventLabel d s p
        ∧ (e.time1 = none ↔ ∀ t ∈ times, ¬ (t.swimmerId = s1 ∧ t.distance = d ∧ t.style = s
            ∧ t.poolSizeOrDefault = p))
        ∧ (e.time2 = none ↔ ∀ t ∈ times, ¬ (t.swimmerId = s2 ∧ t.distance = d ∧ t.style = s
            ∧ t.poolSizeOrDefault = p))
        ∧ (∀ r, e.time1 = some r → r ∈ times ∧ r.swimmerId = s1 ∧ r.distance = d
            ∧ r.style = s ∧ r.poolSizeOrDefault = p)
        ∧ (∀ r, e.time2 = some r → r ∈ times ∧ r.swimmerId = s2 ∧ r.distance = d
            ∧ r.style = s ∧ r.poolSizeOrDefault = p))
    ∧ ((∀ t ∈ times, t.swimmerId ≠ s1 ∧ t.swimmerId ≠ s2) → comparisons s1 s2 times = []) := by
  have some_iff : ∀ (sid : String) (d : Distance) (s : Style) (p : PoolSize),
      (getBestTime times sid d s p).isSome ↔
        ∃ t ∈ times, t.swimmerId = sid ∧ t.distance = d ∧ t.style = s
          ∧ t.poolSizeOrDefault = p := by
    intro sid d s p
    have hn := getBestTime_eq_none_iff times sid d s p
    cases hg : getBestTime times sid d s p with
    | none =>
      rw [hg] at hn
      simp only [Option.isSome_none, Bool.false_eq_true, false_iff]
      rintro ⟨t, ht, hm⟩
      exact hn.1 rfl t ht hm
    | some r =>
      rw [hg] at hn
      simp only [Option.isSome_some, true_iff]
      by_contra hcon
      push_neg at hcon
      have := hn.2 (fun t ht hm => hcon t ht hm.1 hm.2.1 hm.2.2.1 hm.2.2.2)
      exact Option.noConfusion this
  refine ⟨?_, ?_, ?_⟩
  · intro d s p
    constructor
    · rintro ⟨e, he, hev⟩
      obtain ⟨d', s', p', hc, rfl⟩ := (mem_comparisons s1 s2 h1 h2 times e).1 he
      obtain ⟨rfl, rfl, rfl⟩ := eventLabel_inj _ _ _ _ _ _ hev
      rcases hc with hc | hc
      · obtain ⟨t, ht, a, b⟩ := (some_iff s1 _ _ _).1 hc
        exact ⟨t, ht, Or.inl a, b⟩
      · obtain ⟨t, ht, a, b⟩ := (some_iff s2 _ _ _).1 hc
        exact ⟨t, ht, Or.inr a, b⟩
    · rintro ⟨t, ht, hsw, b⟩
      refine ⟨_, (mem_comparisons s1 s2 h1 h2 times _).2 ⟨d, s, p, ?_, rfl⟩, rfl⟩
      rcases hsw with a | a
      · exact Or.inl ((some_iff s1 d s p).2 ⟨t, ht, a, b⟩)
      · exact Or.inr ((some_iff s2 d s p).2 ⟨t, ht, a, b⟩)
  · intro e he
    obtain ⟨d, s, p, _, rfl⟩ := (mem_comparisons s1 s2 h1 h2 times e).1 he
    exact ⟨d, s, p, rfl, getBestTime_eq_none_iff times s1 d s p,
      getBestTime_eq_none_iff times s2 d s p,
      fun r hr => getBestTime_some_mem times s1 d s p r hr,
      fun r hr => getBestTime_some_mem times s2 d s p r hr⟩
  · intro hnone
    rw [List.eq_nil_iff_forall_not_mem]
    intro e he
    obtain ⟨d, s, p, hc, _⟩ := (mem_comparisons s1 s2 h1 h2 times e).1 he
    rcases hc with hc | hc
    · obtain ⟨t, ht, a, _⟩ := (some_iff s1 _ _ _).1 hc
      exact (hnone t ht).1 a
    · obtain ⟨t, ht, a, _⟩ := (some_iff s2 _ _ _).1 hc
      exact (hnone t ht).2 a

/-- Witness for C20: swimmer `s1` has a 100m Freestyle record in the default
pool and swimmer `s2` has none, and the entry is present. -/
theorem comparisons_spec_witness :
    ∃ e ∈ comparisons "s1" "s2" [slowRecord, medleyRecord],
      e.event = eventLabel .m100 .Freestyle .m50 :=
  ((comparisons_spec "s1" "s2" (by decide) (by decide) [slowRecord, medleyRecord]).1
    .m100 .Freestyle .m50).2
    ⟨slowRecord, List.mem_cons_self _ _, Or.inl rfl, rfl, rfl, rfl⟩

/-! ## The pool size default -/

theorem setProp_map {α β : Type} (f : α → β) (obj : List (String × α)) (k : String) (v : α) :
    setProp (obj.map (fun kv => (kv.1, f kv.2))) k (f v)
      = (setProp obj k v).map (fun kv => (kv.1, f kv.2)) := by
  induction obj with
  | nil => rfl
  | cons kv rest ih =>
    obtain ⟨k0, v0⟩ := kv
    by_cases h : k0 = k
    · simp [setProp, h]
    · simp only [List.map_cons, setProp, if_neg h, ih]

theorem withDefaultPool_poolSizeOrDefault (t : TimeRecord) :
    t.withDefaultPool.poolSizeOrDefault = t.poolSizeOrDefault := rfl

theorem timeKey_withDefaultPool (t : TimeRecord) : timeKey t.withDefaultPool = timeKey t := rfl

theorem bestStep_withDefaultPool (best : List (String × TimeRecord)) (t : TimeRecord) :
    bestStep (best.map (fun kv => (kv.1, kv.2.withDefaultPool))) t.withDefaultPool
      = (bestStep best t).map (fun kv => (kv.1, kv.2.withDefaultPool)) := by
  unfold bestStep
  rw [timeKey_withDefaultPool, getProp_map]
  cases getProp best (timeKey t) with
  | none => exact setProp_map _ _ _ _
  | some b =>
    simp only [Option.map_some']
    have hts : t.withDefaultPool.totalSeconds = t.totalSeconds := rfl
    have hbs : b.withDefaultPool.totalSeconds = b.totalSeconds := rfl
    rw [hts, hbs]
    by_cases h : t.totalSeconds < b.totalSeconds
    · rw [if_pos h, if_pos h]
      exact setProp_map _ _ _ _
    · rw [if_neg h, if_neg h]

theorem bestTimes_withDefaultPool (times : List TimeRecord) :
    bestTimes (times.map TimeRecord.withDefaultPool)
      = (bestTimes times).map (fun kv => (kv.1, kv.2.withDefaultPool)) := by
  have key : ∀ (l : List TimeRecord) (best : List (String × TimeRecord)),
      (l.map TimeRecord.withDefaultPool).foldl bestStep
          (best.map (fun kv => (kv.1, kv.2.withDefaultPool)))
        = (l.foldl bestStep best).map (fun kv => (kv.1, kv.2.withDefaultPool)) := by
    intro l
    induction l with
    | nil => intro best; rfl
    | cons t rest ih =>
      intro best
      simp only [List.map_cons, List.foldl_cons]
      rw [bestStep_withDefaultPool, ih]
  exact key times []

theorem arraySort_map_withDefaultPool (l : List TimeRecord) :
    arraySort (fun a b => a.totalSeconds - b.totalSeconds) (l.map TimeRecord.withDefaultPool)
      = (arraySort (fun a b => a.totalSeconds - b.totalSeconds) l).map
          TimeRecord.withDefaultPool := by
  unfold arraySort
  symm
  apply List.map_insertionSort
  intro a _ b _
  rfl

theorem filteredTimes_withDefaultPool (sd : Option Distance) (ss : Option Style)
    (sp : Option PoolSize) (times : List TimeRecord) :
    filteredTimes sd ss sp (times.map TimeRecord.withDefaultPool)
      = (filteredTimes sd ss sp times).map TimeRecord.withDefaultPool := by
  rw [filteredTimes_eq, filteredTimes_eq, List.filter_map, arraySort_map_withDefaultPool]
  rfl

theorem groupStep_withDefaultPool (grouped : List (String × RecordGroup)) (t : TimeRecord) :
    groupStep (grouped.map (fun kv => (kv.1, kv.2.withDefaultPool))) t.withDefaultPool
      = (groupStep grouped t).map (fun kv => (kv.1, kv.2.withDefaultPool)) := by
  unfold groupStep
  rw [timeKey_withDefaultPool, getProp_map, ← setProp_map]
  cases getProp grouped (timeKey t) with
  | none => rfl
  | some g => simp [RecordGroup.withDefaultPool]

theorem sortGroup_withDefaultPool (g : RecordGroup) :
    sortGroup g.withDefaultPool = (sortGroup g).withDefaultPool := by
  simp only [sortGroup, RecordGroup.withDefaultPool, arraySort_map_withDefaultPool]

theorem groupedRecords_withDefaultPool (sd : Option Distance) (ss : Option Style)
    (sp : Option PoolSize) (times : List TimeRecord) :
    groupedRecords sd ss sp (times.map TimeRecord.withDefaultPool)
      = (groupedRecords sd ss sp times).map (fun kv => (kv.1, kv.2.withDefaultPool)) := by
  have key : ∀ (l : List TimeRecord) (grouped : List (String × RecordGroup)),
      (l.map TimeRecord.withDefaultPool).foldl groupStep
          (grouped.map (fun kv => (kv.1, kv.2.withDefaultPool)))
        = (l.foldl groupStep grouped).map (fun kv => (kv.1, kv.2.withDefaultPool)) := by
    intro l
    induction l with
    | nil => intro grouped; rfl
    | cons t rest ih =>
      intro grouped
      simp only [List.map_cons, List.foldl_cons]
      rw [groupStep_withDefaultPool, ih]
  unfold groupedRecords
  rw [filteredTimes_withDefaultPool]
  have := key (filteredTimes sd ss sp times) []
  simp only [List.map_nil] at this
  rw [this, List.map_map, List.map_map]
  apply List.map_congr_left
  intro kv _
  simp only [Function.comp, sortGroup_withDefaultPool]

theorem foldl_faster_withDefaultPool (rest : List TimeRecord) (first : TimeRecord) :
    (rest.map TimeRecord.withDefaultPool).foldl (fun best curr =>
        if curr.totalSeconds < best.totalSeconds then curr else best) first.withDefaultPool
      = (rest.foldl (fun best curr =>
          if curr.totalSeconds < best.totalSeconds then curr else best)
          first).withDefaultPool := by
  induction rest generalizing first with
  | nil => rfl
  | cons c rest ih =>
    simp only [List.map_cons, List.foldl_cons]
    have hc : c.withDefaultPool.totalSeconds = c.totalSeconds := rfl
    have hf : first.withDefaultPool.totalSeconds = first.totalSeconds := rfl
    rw [hc, hf]
    by_cases h : c.totalSeconds < first.totalSeconds
    · rw [if_pos h, if_pos h, ih]
    · rw [if_neg h, if_neg h, ih]

theorem getBestTime_withDefaultPool (times : List TimeRecord) (sid : String) (d : Distance)
    (s : Style) (p : PoolSize) :
    getBestTime (times.map TimeRecord.withDefaultPool) sid d s p
      = (getBestTime times sid d s p).map TimeRecord.withDefaultPool := by
  unfold getBestTime
  rw [List.filter_map]
  have hf : ((fun t : TimeRecord => decide (t.swimmerId = sid ∧ t.distance = d
      ∧ t.style = s ∧ t.poolSizeOrDefault = p)) ∘ TimeRecord.withDefaultPool)
      = (fun t : TimeRecord => decide (t.swimmerId = sid ∧ t.distance = d
          ∧ t.style = s ∧ t.poolSizeOrDefault = p)) := rfl
  rw [hf]
  cases times.filter (fun t => t.swimmerId = sid ∧ t.distance = d
      ∧ t.style = s ∧ t.poolSizeOrDefault = p) with
  | nil => rfl
  | cons first rest =>
    simp only [List.map_cons, Option.map_some']
    rw [foldl_faster_withDefaultPool]

theorem winnerOf_withDefaultPool (a b : Option TimeRecord) :
    winnerOf (a.map TimeRecord.withDefaultPool) (b.map TimeRecord.withDefaultPool)
      = winnerOf a b := by
  cases a <;> cases b <;> rfl

theorem comparisonFor_withDefaultPool (s1 s2 : String) (times : List TimeRecord)
    (style : Style) (d : Distance) (p : PoolSize) :
    comparisonFor s1 s2 (times.map TimeRecord.withDefaultPool) style d p
      = (comparisonFor s1 s2 times style d p).map Comparison.withDefaultPool := by
  unfold comparisonFor
  simp only [getBestTime_withDefaultPool, Option.isSome_map', winnerOf_withDefaultPool]
  by_cases h : (getBestTime times s1 d style p).isSome ∨ (getBestTime times s2 d style p).isSome
  · rw [if_pos h, if_pos h]
    rfl
  · rw [if_neg h, if_neg h]
    rfl

theorem comparisons_withDefaultPool (s1 s2 : String) (times : List TimeRecord) :
    comparisons s1 s2 (times.map TimeRecord.withDefaultPool)
      = (comparisons s1 s2 times).map Comparison.withDefaultPool := by
  unfold comparisons
  by_cases h : s1 = "" ∨ s2 = ""
  · rw [if_pos h, if_pos h]
    rfl
  · rw [if_neg h, if_neg h]
    simp only [List.map_flatMap, comparisonFor_withDefaultPool]

/-- C12: replacing every absent pool size by `50m` in the input changes
nothing in `bestTimes`, in `groupedRecords` (for every setting of the three
filters) and in `comparisons` (for every pair of swimmers) except that the
records they return carry the replaced pool size: keys, groups, group
fields, order, events and winners are the same. -/
theorem withDefaultPool_invariant (times : List TimeRecord) :
    bestTimes (times.map TimeRecord.withDefaultPool)
        = (bestTimes times).map (fun kv => (kv.1, kv.2.withDefaultPool))
    ∧ (∀ sd ss sp, groupedRecords sd ss sp (times.map TimeRecord.withDefaultPool)
        = (groupedRecords sd ss sp times).map (fun kv => (kv.1, kv.2.withDefaultPool)))
    ∧ (∀ s1 s2, comparisons s1 s2 (times.map TimeRecord.withDefaultPool)
        = (comparisons s1 s2 times).map Comparison.withDefaultPool)
    ∧ (∀ t : TimeRecord, t.withDefaultPool.poolSize = some (t.poolSize.getD .m50)
        ∧ { t.withDefaultPool with poolSize := t.poolSize } = t)
    ∧ (∀ g : RecordGroup, g.withDefaultPool.distance = g.distance
        ∧ g.withDefaultPool.style = g.style ∧ g.withDefaultPool.poolSize = g.poolSize)
    ∧ (∀ e : Comparison, e.withDefaultPool.event = e.event
        ∧ e.withDefaultPool.winner = e.winner) :=
  ⟨bestTimes_withDefaultPool times,
   fun sd ss sp => groupedRecords_withDefaultPool sd ss sp times,
   fun s1 s2 => comparisons_withDefaultPool s1 s2 times,
   fun _ => ⟨rfl, rfl⟩, fun _ => ⟨rfl, rfl, rfl⟩, fun _ => ⟨rfl, rfl⟩⟩

/-- Witness for C12: a legacy record without pool size is keyed under
`50m`, with or without the replacement. -/
theorem withDefaultPool_invariant_witness :
    bestTimes ([slowRecord].map TimeRecord.withDefaultPool)
      = [("100m-Freestyle-50m", slowRecord.withDefaultPool)] := by
  rw [(withDefaultPool_invariant [slowRecord]).1]
  have h1 : timeKey slowRecord = "100m-Freestyle-50m" := by decide
  simp [bestTimes, bestStep, h1, getProp, setProp]

/-! ## Objects as maps: own keys -/

theorem getProp_eq_none_iff {α : Type} (obj : List (String × α)) (k : String) :
    getProp obj k = none ↔ k ∉ obj.map Prod.fst := by
  induction obj with
  | nil => simp [getProp]
  | cons kv rest ih =>
    obtain ⟨k0, v0⟩ := kv
    by_cases h : k0 = k
    · simp [getProp, h]
    · simp only [getProp, if_neg h, ih, List.map_cons, List.mem_cons, not_or]
      constructor
      · intro hr
        exact ⟨fun hk => h hk.symm, hr⟩
      · intro hr
        exact hr.2

theorem mem_of_getProp {α : Type} (obj : List (String × α)) (k : String) (v : α)
    (h : getProp obj k = some v) : (k, v) ∈ obj := by
  induction obj with
  | nil => simp [getProp] at h
  | cons kv rest ih =>
    obtain ⟨k0, v0⟩ := kv
    by_cases hk : k0 = k
    · simp only [getProp, if_pos hk] at h
      injection h with h
      subst hk; subst h
      exact List.mem_cons_self _ _
    · simp only [getProp, if_neg hk] at h
      exact List.mem_cons_of_mem _ (ih h)

theorem getProp_of_mem {α : Type} (obj : List (String × α)) (k : String) (v : α)
    (hnd : (obj.map Prod.fst).Nodup) (h : (k, v) ∈ obj) : getProp obj k = some v := by
  induction obj with
  | nil => exact absurd h (List.not_mem_nil _)
  | cons kv rest ih =>
    obtain ⟨k0, v0⟩ := kv
    simp only [List.map_cons, List.nodup_cons] at hnd
    rcases List.mem_cons.1 h with h | h
    · injection h with h1 h2
      subst h1; subst h2
      simp [getProp]
    · have hk : k0 ≠ k := by
        intro hk
        subst hk
        exact hnd.1 (List.mem_map_of_mem Prod.fst h)
      simp only [getProp, if_neg hk]
      exact ih hnd.2 h

theorem keys_setProp {α : Type} (obj : List (String × α)) (k : String) (v : α) :
    (setProp obj k v).map Prod.fst
      = if k ∈ obj.map Prod.fst then obj.map Prod.fst else obj.map Prod.fst ++ [k] := by
  induction obj with
  | nil => simp [setProp]
  | cons kv rest ih =>
    obtain ⟨k0, v0⟩ := kv
    by_cases h : k0 = k
    · simp [setProp, h]
    · have hne : ¬ k = k0 := fun hk => h hk.symm
      simp only [setProp, if_neg h, List.map_cons, ih, List.mem_cons, hne, false_or]
      split <;> simp

theorem nodup_keys_setProp {α : Type} (obj : List (String × α)) (k : String) (v : α)
    (hnd : (obj.map Prod.fst).Nodup) : ((setProp obj k v).map Prod.fst).Nodup := by
  rw [keys_setProp]
  split
  · exact hnd
  · next hk =>
    rw [List.nodup_append]
    refine ⟨hnd, List.nodup_singleton k, ?_⟩
    intro a ha hb
    rw [List.mem_singleton.1 hb] at ha
    exact hk ha

theorem objectValues_perm {α : Type} (obj : List (String × α)) :
    (objectValues obj).Perm (obj.map Prod.snd) := by
  unfold objectValues
  have h1 := ((List.perm_insertionSort
    (fun a b : String × α => (arrayIndex a.1).getD 0 ≤ (arrayIndex b.1).getD 0)
    (obj.filter (fun kv => (arrayIndex kv.1).isSome))).map Prod.snd)
  have h2 : ((obj.filter (fun kv => (arrayIndex kv.1).isSome))
      ++ (obj.filter (fun kv => (arrayIndex kv.1).isNone))).Perm obj := by
    have := List.filter_append_perm (fun kv : String × α => (arrayIndex kv.1).isSome) obj
    have he : (fun kv : String × α => (arrayIndex kv.1).isNone)
        = (fun kv => !(arrayIndex kv.1).isSome) := by
      funext kv
      cases arrayIndex kv.1 <;> rfl
    rw [he]
    exact this
  have h3 := h2.map Prod.snd
  rw [List.map_append] at h3
  exact (List.Perm.append_right _ h1).trans h3

theorem mem_objectValues {α : Type} (obj : List (String × α)) (hnd : (obj.map Prod.fst).Nodup)
    (v : α) : v ∈ objectValues obj ↔ ∃ k, getProp obj k = some v := by
  rw [(objectValues_perm obj).mem_iff, List.mem_map]
  constructor
  · rintro ⟨⟨k, v'⟩, hm, rfl⟩
    exact ⟨k, getProp_of_mem obj k v' hnd hm⟩
  · rintro ⟨k, hk⟩
    exact ⟨(k, v), mem_of_getProp obj k v hk, rfl⟩

/-! ## Competition statistics -/

theorem getProp_statsStep (dv : String → Option Int) (stats : List (String × CompetitionEntry))
    (t : TimeRecord) (hp : t.competition ∉ objectPrototypeKeys) (k : String) :
    getProp (statsStep dv stats t) k
      = if t.competition = k then
          some (if dateGreater (dv t.date)
              (dv ((getProp stats t.competition).getD
                { name := t.competition, location := t.competitionLocation,
                  date := t.date, points := 0, events := 0 }).date) then
            { name := ((getProp stats t.competition).getD
                { name := t.competition, location := t.competitionLocation,
                  date := t.date, points := 0, events := 0 }).name
              location := t.competitionLocation
              date := t.date
              points := ((getProp stats t.competition).getD
                { name := t.competition, location := t.competitionLocation,
                  date := t.date, points := 0, events := 0 }).points + t.points.getD 0
              events := ((getProp stats t.competition).getD
                { name := t.competition, location := t.competitionLocation,
                  date := t.date, points := 0, events := 0 }).events + 1 }
          else
            { name := ((getProp stats t.competition).getD
                { name := t.competition, location := t.competitionLocation,
                  date := t.date, points := 0, events := 0 }).name
              location := ((getProp stats t.competition).getD
                { name := t.competition, location := t.competitionLocation,
                  date := t.date, points := 0, events := 0 }).location
              date := ((getProp stats t.competition).getD
                { name := t.competition, location := t.competitionLocation,
                  date := t.date, points := 0, events := 0 }).date
              points := ((getProp stats t.competition).getD
                { name := t.competition, location := t.competitionLocation,
                  date := t.date, points := 0, events := 0 }).points + t.points.getD 0
              events := ((getProp stats t.competition).getD
                { name := t.competition, location := t.competitionLocation,
                  date := t.date, points := 0, events := 0 }).events + 1 })
        else getProp stats k := by
  unfold statsStep
  rw [if_neg hp]
  simp only
  rw [getProp_setProp]

theorem dateGreater_self (a : Option Int) : dateGreater a a = false := by
  cases a with
  | none => rfl
  | some x => simp [dateGreater]

theorem statsStep_counts (dv : String → Option Int) (stats : List (String × CompetitionEntry))
    (seen : List TimeRecord) (t : TimeRecord)
    (hnd : (stats.map Prod.fst).Nodup)
    (h1 : ∀ k e, getProp stats k = some e →
      e.name = k ∧ k ∉ objectPrototypeKeys
      ∧ e.points = ((seen.filter (fun u => decide (u.competition = k))).map
          (fun u => u.points.getD 0)).sum
      ∧ e.events = (seen.filter (fun u => decide (u.competition = k))).length
      ∧ ∃ r ∈ seen, r.competition = k ∧ e.date = r.date
          ∧ e.location = r.competitionLocation)
    (h2 : ∀ u ∈ seen, u.competition ∉ objectPrototypeKeys →
      ∃ e, getProp stats u.competition = some e) :
    ((statsStep dv stats t).map Prod.fst).Nodup
    ∧ (∀ k e, getProp (statsStep dv stats t) k = some e →
      e.name = k ∧ k ∉ objectPrototypeKeys
      ∧ e.points = (((seen ++ [t]).filter (fun u => decide (u.competition = k))).map
          (fun u => u.points.getD 0)).sum
      ∧ e.events = ((seen ++ [t]).filter (fun u => decide (u.competition = k))).length
      ∧ ∃ r ∈ seen ++ [t], r.competition = k ∧ e.date = r.date
          ∧ e.location = r.competitionLocation)
    ∧ (∀ u ∈ seen ++ [t], u.competition ∉ objectPrototypeKeys →
      ∃ e, getProp (statsStep dv stats t) u.competition = some e) := by
  have other : ∀ k e, getProp stats k = some e → t.competition ≠ k →
      e.name = k ∧ k ∉ objectPrototypeKeys
      ∧ e.points = (((seen ++ [t]).filter (fun u => decide (u.competition = k))).map
          (fun u => u.points.getD 0)).sum
      ∧ e.events = ((seen ++ [t]).filter (fun u => decide (u.competition = k))).length
      ∧ ∃ r ∈ seen ++ [t], r.competition = k ∧ e.date = r.date
          ∧ e.location = r.competitionLocation := by
    intro k e he hne
    obtain ⟨a, b, c, d, r, hr, hr'⟩ := h1 k e he
    refine ⟨a, b, ?_, ?_, r, List.mem_append_left _ hr, hr'⟩
    · rw [c, List.filter_append]; simp [hne]
    · rw [d, List.filter_append]; simp [hne]
  by_cases hp : t.competition ∈ objectPrototypeKeys
  · have hst : statsStep dv stats t = stats := by
      unfold statsStep
      rw [if_pos hp]
    rw [hst]
    refine ⟨hnd, ?_, ?_⟩
    · intro k e he
      have hne : t.competition ≠ k := by
        intro h
        rw [h] at hp
        exact (h1 k e he).2.1 hp
      exact other k e he hne
    · intro u hu hup
      rcases List.mem_append.1 hu with hu | hu
      · exact h2 u hu hup
      · rw [List.mem_singleton.1 hu] at hup
        exact absurd hp hup
  · refine ⟨?_, ?_, ?_⟩
    · unfold statsStep
      rw [if_neg hp]
      exact nodup_keys_setProp _ _ _ hnd
    · intro k e he
      rw [getProp_statsStep dv stats t hp] at he
      by_cases hk : t.competition = k
      · rw [if_pos hk] at he
        injection he with he
        have hfresh : getProp stats t.competition = none →
            seen.filter (fun u => decide (u.competition = k)) = [] := by
          intro hnone
          rw [List.filter_eq_nil_iff]
          intro u hu
          simp only [decide_eq_true_eq]
          intro huk
          have hup : u.competition ∉ objectPrototypeKeys := by
            rw [huk, ← hk]; exact hp
          obtain ⟨e', he'⟩ := h2 u hu hup
          rw [huk, ← hk, hnone] at he'
          exact Option.noConfusion he'
        have hkp : k ∉ objectPrototypeKeys := by rw [← hk]; exact hp
        cases hb : getProp stats t.competition with
        | none =>
          have hnil := hfresh hb
          rw [hb] at he
          simp only [Option.getD_none, dateGreater_self, Bool.false_eq_true, if_false] at he
          subst he
          refine ⟨hk, hkp, ?_, ?_, t, by simp, hk, rfl, rfl⟩
          · rw [List.filter_append, hnil]; simp [hk]
          · rw [List.filter_append, hnil]; simp [hk]
        | some e0 =>
          obtain ⟨a, _, c, d, r, hr, hrk, hrd, hrl⟩ := h1 _ e0 hb
          rw [hb] at he
          simp only [Option.getD_some] at he
          have hpts : e0.points + t.points.getD 0
              = (((seen ++ [t]).filter (fun u => decide (u.competition = k))).map
                  (fun u => u.points.getD 0)).sum := by
            rw [c, List.filter_append, hk]; simp [hk]
          have hev : e0.events + 1
              = ((seen ++ [t]).filter (fun u => decide (u.competition = k))).length := by
            rw [d, List.filter_append, hk]; simp [hk]
          by_cases hdg : dateGreater (dv t.date) (dv e0.date) = true
          · rw [if_pos hdg] at he
            subst he
            exact ⟨a.trans hk, hkp, hpts, hev, t, by simp, hk, rfl, rfl⟩
          · rw [if_neg hdg] at he
            subst he
            exact ⟨a.trans hk, hkp, hpts, hev, r, List.mem_append_left _ hr,
              hrk.trans hk, hrd, hrl⟩
      · rw [if_neg hk] at he
        exact other k e he hk
    · intro u hu hup
      rw [getProp_statsStep dv stats t hp]
      by_cases hk : t.competition = u.competition
      · rw [if_pos hk]
        exact ⟨_, rfl⟩
      · rw [if_neg hk]
        rcases List.mem_append.1 hu with hu | hu
        · exact h2 u hu hup
        · rw [List.mem_singleton.1 hu] at hk
          exact absurd rfl hk

theorem statsStep_dates (dv : String → Option Int) (stats : List (String × CompetitionEntry))
    (seen : List TimeRecord) (t : TimeRecord)
    (hkp : ∀ k e, getProp stats k = some e → k ∉ objectPrototypeKeys)
    (h2 : ∀ u ∈ seen, u.competition ∉ objectPrototypeKeys →
      ∃ e, getProp stats u.competition = some e)
    (h3 : ∀ k e, getProp stats k = some e →
      (∀ r0, (seen.filter (fun u => decide (u.competition = k))).head? = some r0 →
        (dv r0.date).isSome = true) →
      ∃ pre r post x, seen = pre ++ r :: post ∧ r.competition = k ∧ e.date = r.date
        ∧ e.location = r.competitionLocation ∧ dv r.date = some x
        ∧ (∀ u ∈ pre, u.competition = k → ∀ y, dv u.date = some y → y < x)
        ∧ (∀ u ∈ post, u.competition = k → ∀ y, dv u.date = some y → y ≤ x)) :
    ∀ k e, getProp (statsStep dv stats t) k = some e →
      (∀ r0, ((seen ++ [t]).filter (fun u => decide (u.competition = k))).head? = some r0 →
        (dv r0.date).isSome = true) →
      ∃ pre r post x, seen ++ [t] = pre ++ r :: post ∧ r.competition = k ∧ e.date = r.date
        ∧ e.location = r.competitionLocation ∧ dv r.date = some x
        ∧ (∀ u ∈ pre, u.competition = k → ∀ y, dv u.date = some y → y < x)
        ∧ (∀ u ∈ post, u.competition = k → ∀ y, dv u.date = some y → y ≤ x) := by
  have hhead : ∀ k r0, (seen.filter (fun u => decide (u.competition = k))).head? = some r0 →
      ((seen ++ [t]).filter (fun u => decide (u.competition = k))).head? = some r0 := by
    intro k r0 h
    rw [List.filter_append]
    cases hf : seen.filter (fun u => decide (u.competition = k)) with
    | nil => rw [hf] at h; exact Option.noConfusion h
    | cons a l => rw [hf] at h; exact h
  have other : ∀ k e, getProp stats k = some e → t.competition ≠ k →
      (∀ r0, ((seen ++ [t]).filter (fun u => decide (u.competition = k))).head? = some r0 →
        (dv r0.date).isSome = true) →
      ∃ pre r post x, seen ++ [t] = pre ++ r :: post ∧ r.competition = k ∧ e.date = r.date
        ∧ e.location = r.competitionLocation ∧ dv r.date = some x
        ∧ (∀ u ∈ pre, u.competition = k → ∀ y, dv u.date = some y → y < x)
        ∧ (∀ u ∈ post, u.competition = k → ∀ y, dv u.date = some y → y ≤ x) := by
    intro k e he hne hv
    obtain ⟨pre, r, post, x, e1, e2, e3, e4, e5, e6, e7⟩ := h3 k e he
      (fun r0 hr0 => hv r0 (hhead k r0 hr0))
    refine ⟨pre, r, post ++ [t], x, by rw [e1]; simp, e2, e3, e4, e5, e6, ?_⟩
    intro u hu huk
    rcases List.mem_append.1 hu with hu | hu
    · exact e7 u hu huk
    · rw [List.mem_singleton.1 hu] at huk
      exact absurd huk hne
  intro k e he hv
  by_cases hp : t.competition ∈ objectPrototypeKeys
  · have hst : statsStep dv stats t = stats := by
      unfold statsStep
      rw [if_pos hp]
    rw [hst] at he
    have hne : t.competition ≠ k := by
      intro h
      rw [h] at hp
      exact hkp k e he hp
    exact other k e he hne hv
  · rw [getProp_statsStep dv stats t hp] at he
    by_cases hk : t.competition = k
    · rw [if_pos hk] at he
      injection he with he
      cases hb : getProp stats t.competition with
      | none =>
        have hnil : seen.filter (fun u => decide (u.competition = k)) = [] := by
          rw [List.filter_eq_nil_iff]
          intro u hu
          simp only [decide_eq_true_eq]
          intro huk
          have hup : u.competition ∉ objectPrototypeKeys := by
            rw [huk, ← hk]; exact hp
          obtain ⟨e', he'⟩ := h2 u hu hup
          rw [huk, ← hk, hb] at he'
          exact Option.noConfusion he'
        have htv : (dv t.date).isSome = true := by
          apply hv t
          rw [List.filter_append, hnil]
          simp [hk]
        obtain ⟨yt, hyt⟩ := Option.isSome_iff_exists.1 htv
        rw [hb] at he
        simp only [Option.getD_none, dateGreater_self, Bool.false_eq_true, if_false] at he
        subst he
        refine ⟨seen, t, [], yt, rfl, hk, rfl, rfl, hyt, ?_, by simp⟩
        intro u hu huk
        have hu' : u ∈ seen.filter (fun u => decide (u.competition = k)) :=
          List.mem_filter.2 ⟨hu, by simpa using huk⟩
        rw [hnil] at hu'
        exact absurd hu' (List.not_mem_nil u)
      | some e0 =>
        obtain ⟨pre, r, post, x, e1, e2, e3, e4, e5, e6, e7⟩ := h3 _ e0 hb
          (fun r0 hr0 => hv r0 (hhead k r0 (by rw [← hk]; exact hr0)))
        rw [hb] at he
        simp only [Option.getD_some] at he
        cases hyt : dv t.date with
        | none =>
          have hdg : dateGreater (dv t.date) (dv e0.date) = false := by
            rw [hyt]; rfl
          rw [hdg] at he
          simp only [Bool.false_eq_true, if_false] at he
          subst he
          refine ⟨pre, r, post ++ [t], x, by rw [e1]; simp, e2.trans hk, e3, e4, e5, ?_, ?_⟩
          · intro u hu huk y hy
            exact e6 u hu (huk.trans hk.symm) y hy
          · intro u hu huk y hy
            rcases List.mem_append.1 hu with hu | hu
            · exact e7 u hu (huk.trans hk.symm) y hy
            · rw [List.mem_singleton.1 hu, hyt] at hy
              exact Option.noConfusion hy
        | some yt =>
          have hdg : dateGreater (dv t.date) (dv e0.date) = decide (yt > x) := by
            rw [e3, e5, hyt]
            rfl
          by_cases hgt : yt > x
          · rw [hdg, if_pos (decide_eq_true hgt)] at he
            subst he
            refine ⟨seen, t, [], yt, rfl, hk, rfl, rfl, hyt, ?_, by simp⟩
            intro u hu huk y hy
            have huk' : u.competition = t.competition := huk.trans hk.symm
            rw [e1] at hu
            rcases List.mem_append.1 hu with hu | hu
            · exact lt_trans (e6 u hu huk' y hy) hgt
            · rcases List.mem_cons.1 hu with hu | hu
              · rw [hu, e5] at hy
                injection hy with hy
                rw [← hy]; exact hgt
              · exact lt_of_le_of_lt (e7 u hu huk' y hy) hgt
          · rw [hdg, if_neg (by simpa using hgt)] at he
            subst he
            refine ⟨pre, r, post ++ [t], x, by rw [e1]; simp, e2.trans hk, e3, e4, e5, ?_, ?_⟩
            · intro u hu huk y hy
              exact e6 u hu (huk.trans hk.symm) y hy
            · intro u hu huk y hy
              rcases List.mem_append.1 hu with hu | hu
              · exact e7 u hu (huk.trans hk.symm) y hy
              · rw [List.mem_singleton.1 hu, hyt] at hy
                injection hy with hy
                rw [← hy]
                exact not_lt.1 hgt
    · rw [if_neg hk] at he
      exact other k e he hk hv

theorem foldl_statsStep_inv (dv : String → Option Int) (l : List TimeRecord) :
    ∀ (stats : List (String × CompetitionEntry)) (seen : List TimeRecord),
      (stats.map Prod.fst).Nodup →
      (∀ k e, getProp stats k = some e →
        e.name = k ∧ k ∉ objectPrototypeKeys
        ∧ e.points = ((seen.filter (fun u => decide (u.competition = k))).map
            (fun u => u.points.getD 0)).sum
        ∧ e.events = (seen.filter (fun u => decide (u.competition = k))).length
        ∧ ∃ r ∈ seen, r.competition = k ∧ e.date = r.date
            ∧ e.location = r.competitionLocation) →
      (∀ u ∈ seen, u.competition ∉ objectPrototypeKeys →
        ∃ e, getProp stats u.competition = some e) →
      (∀ k e, getProp stats k = some e →
        (∀ r0, (seen.filter (fun u => decide (u.competition = k))).head? = some r0 →
          (dv r0.date).isSome = true) →
        ∃ pre r post x, seen = pre ++ r :: post ∧ r.competition = k ∧ e.date = r.date
          ∧ e.location = r.competitionLocation ∧ dv r.date = some x
          ∧ (∀ u ∈ pre, u.competition = k → ∀ y, dv u.date = some y → y < x)
          ∧ (∀ u ∈ post, u.competition = k → ∀ y, dv u.date = some y → y ≤ x)) →
      ((l.foldl (statsStep dv) stats).map Prod.fst).Nodup
      ∧ (∀ k e, getProp (l.foldl (statsStep dv) stats) k = some e →
        e.name = k ∧ k ∉ objectPrototypeKeys
        ∧ e.points = (((seen ++ l).filter (fun u => decide (u.competition = k))).map
            (fun u => u.points.getD 0)).sum
        ∧ e.events = ((seen ++ l).filter (fun u => decide (u.competition = k))).length
        ∧ ∃ r ∈ seen ++ l, r.competition = k ∧ e.date = r.date
            ∧ e.location = r.competitionLocation)
      ∧ (∀ u ∈ seen ++ l, u.competition ∉ objectPrototypeKeys →
        ∃ e, getProp (l.foldl (statsStep dv) stats) u.competition = some e)
      ∧ (∀ k e, getProp (l.foldl (statsStep dv) stats) k = some e →
        (∀ r0, ((seen ++ l).filter (fun u => decide (u.competition = k))).head? = some r0 →
          (dv r0.date).isSome = true) →
        ∃ pre r post x, seen ++ l = pre ++ r :: post ∧ r.competition = k ∧ e.date = r.date
          ∧ e.location = r.competitionLocation ∧ dv r.date = some x
          ∧ (∀ u ∈ pre, u.competition = k → ∀ y, dv u.date = some y → y < x)
          ∧ (∀ u ∈ post, u.competition = k → ∀ y, dv u.date = some y → y ≤ x)) := by
  induction l with
  | nil =>
    intro stats seen hnd h1 h2 h3
    simp only [List.foldl_nil, List.append_nil]
    exact ⟨hnd, h1, h2, h3⟩
  | cons t rest ih =>
    intro stats seen hnd h1 h2 h3
    obtain ⟨s0, s1, s2⟩ := statsStep_counts dv stats seen t hnd h1 h2
    have s3 := statsStep_dates dv stats seen t (fun k e he => (h1 k e he).2.1) h2 h3
    have := ih (statsStep dv stats t) (seen ++ [t]) s0 s1 s2 s3
    simp only [List.append_assoc, List.singleton_append] at this
    exact this

/-- The object built by the pass of `competitionStats`: its keys are
distinct; every entry is named by its key, which is not a name inherited from
`Object.prototype`, and carries the sum of points and the number of the
records of that name, and the date and location of one of them; every record
with a name that is not inherited has its entry; and when the first record of
a name has a valid date, the entry's date and location are those of the first
record with the latest date among the validly dated ones. -/
theorem stats_inv (dv : String → Option Int) (times : List TimeRecord) :
    ((times.foldl (statsStep dv) []).map Prod.fst).Nodup
    ∧ (∀ k e, getProp (times.foldl (statsStep dv) []) k = some e →
      e.name = k ∧ k ∉ objectPrototypeKeys
      ∧ e.points = ((times.filter (fun u => decide (u.competition = k))).map
          (fun u => u.points.getD 0)).sum
      ∧ e.events = (times.filter (fun u => decide (u.competition = k))).length
      ∧ ∃ r ∈ times, r.competition = k ∧ e.date = r.date
          ∧ e.location = r.competitionLocation)
    ∧ (∀ u ∈ times, u.competition ∉ objectPrototypeKeys →
      ∃ e, getProp (times.foldl (statsStep dv) []) u.competition = some e)
    ∧ (∀ k e, getProp (times.foldl (statsStep dv) []) k = some e →
      (∀ r0, (times.filter (fun u => decide (u.competition = k))).head? = some r0 →
        (dv r0.date).isSome = true) →
      ∃ pre r post x, times = pre ++ r :: post ∧ r.competition = k ∧ e.date = r.date
        ∧ e.location = r.competitionLocation ∧ dv r.date = some x
        ∧ (∀ u ∈ pre, u.competition = k → ∀ y, dv u.date = some y → y < x)
        ∧ (∀ u ∈ post, u.competition = k → ∀ y, dv u.date = some y → y ≤ x)) := by
  have := foldl_statsStep_inv dv times [] [] (by simp)
    (fun k e h => by simp [getProp] at h) (fun u hu => by simp at hu)
    (fun k e h => by simp [getProp] at h)
  simp only [List.nil_append] at this
  exact this

theorem mem_competitionStats (dv : String → Option Int) (times : List TimeRecord)
    (e : CompetitionEntry) :
    e ∈ competitionStats dv times ↔ getProp (times.foldl (statsStep dv) []) e.name = some e := by
  unfold competitionStats
  rw [(arraySort_perm _ _).mem_iff, mem_objectValues _ (stats_inv dv times).1]
  constructor
  · rintro ⟨k, hk⟩
    have := ((stats_inv dv times).2.1 k e hk).1
    rw [this]
    exact hk
  · intro h
    exact ⟨_, h⟩

/-- Entries of `competitionStats`: the names are distinct and none is
inherited from `Object.prototype`; every entry carries the sum of points and
the number of the records of its name; every record whose name is not
inherited has an entry. -/
theorem competitionStats_entries (dv : String → Option Int) (times : List TimeRecord) :
    ((competitionStats dv times).map (fun e => e.name)).Nodup
    ∧ (∀ e ∈ competitionStats dv times,
        e.name ∉ objectPrototypeKeys
        ∧ (∃ t ∈ times, t.competition = e.name)
        ∧ e.points = ((times.filter (fun u => decide (u.competition = e.name))).map
            (fun u => u.points.getD 0)).sum
        ∧ e.events = (times.filter (fun u => decide (u.competition = e.name))).length)
    ∧ (∀ t ∈ times, t.competition ∉ objectPrototypeKeys →
        ∃ e ∈ competitionStats dv times, e.name = t.competition) := by
  obtain ⟨hnd, h1, h2, _⟩ := stats_inv dv times
  refine ⟨?_, ?_, ?_⟩
  · have hperm : ((competitionStats dv times).map (fun e => e.name)).Perm
        ((times.foldl (statsStep dv) []).map Prod.fst) := by
      have hp1 := ((arraySort_perm
        (fun a b : CompetitionEntry => dateDiff (dv b.date) (dv a.date))
        (objectValues (times.foldl (statsStep dv) []))).trans
        (objectValues_perm _)).map (fun e => e.name)
      refine hp1.trans (List.Perm.of_eq ?_)
      rw [List.map_map]
      apply List.map_congr_left
      intro kv hkv
      obtain ⟨k, e⟩ := kv
      exact (h1 k e (getProp_of_mem _ k e hnd hkv)).1
    exact hperm.nodup_iff.2 hnd
  · intro e he
    have hg := (mem_competitionStats dv times e).1 he
    obtain ⟨_, b, c, d, r, hr, hrk, _⟩ := h1 _ e hg
    exact ⟨b, ⟨r, hr, hrk⟩, c, d⟩
  · intro t ht hp
    obtain ⟨e, he⟩ := h2 t ht hp
    have hname := (h1 _ e he).1
    refine ⟨e, (mem_competitionStats dv times e).2 ?_, hname⟩
    rw [hname]
    exact he

/-- C13 (failing input): a record whose competition is named `constructor`
gets no entry, whatever the reading of dates. -/
theorem competitionStats_inherited_name :
    constructorRecord.competition = "constructor"
    ∧ ∀ dv : String → Option Int, competitionStats dv [constructorRecord] = [] := by
  refine ⟨rfl, ?_⟩
  intro dv
  have : constructorRecord.competition ∈ objectPrototypeKeys := by decide
  simp [competitionStats, statsStep, this, objectValues, arraySort]

/-- C14 (failing input): when the first record of a competition has an
empty date, the entry keeps that Invalid Date and the location of that
record, although a later record of the competition is dated 2024-05-01, so
the entry carries neither the latest date nor the location of the record that
has it. -/
theorem competitionStats_undated_first :
    competitionStats sampleDateValue [undatedRecord, slowRecord]
      = [{ name := "Club Meet", location := "Perth", date := "", points := 28, events := 2 }]
    ∧ sampleDateValue "" = none
    ∧ slowRecord.competition = "Club Meet"
    ∧ sampleDateValue slowRecord.date = some 1714521600000
    ∧ slowRecord.competitionLocation ≠ "Perth" := by
  refine ⟨by decide, by decide, rfl, by decide, by decide⟩

/-- What `competitionStats` does keep: in every entry for a competition whose
first record has a valid date, the date and the location are those of one
record of that competition, which has the latest date among its validly dated
records: every earlier one is strictly older and no later one is newer. -/
theorem competitionStats_latest (dv : String → Option Int) (times : List TimeRecord)
    (e : CompetitionEntry) (he : e ∈ competitionStats dv times)
    (hv : ∀ r0, (times.filter (fun u => decide (u.competition = e.name))).head? = some r0 →
      (dv r0.date).isSome = true) :
    ∃ pre r post x, times = pre ++ r :: post ∧ r.competition = e.name ∧ e.date = r.date
      ∧ e.location = r.competitionLocation ∧ dv r.date = some x
      ∧ (∀ u ∈ pre, u.competition = e.name → ∀ y, dv u.date = some y → y < x)
      ∧ (∀ u ∈ post, u.competition = e.name → ∀ y, dv u.date = some y → y ≤ x) :=
  (stats_inv dv times).2.2.2 _ e ((mem_competitionStats dv times e).1 he) hv

/-- Example: the club meet with records dated 2024-05-01, undated, and
2024-06-01; the entry takes the date and the location of the last one. -/
theorem competitionStats_latest_witness :
    ∃ e ∈ competitionStats sampleDateValue [slowRecord, undatedRecord, laterClubRecord],
      e.name = "Club Meet" ∧ e.date = "2024-06-01" ∧ e.location = "Hobart" ∧
      ∃ pre r post x, [slowRecord, undatedRecord, laterClubRecord] = pre ++ r :: post
        ∧ r.competition = e.name ∧ e.date = r.date
        ∧ e.location = r.competitionLocation ∧ sampleDateValue r.date = some x
        ∧ (∀ u ∈ pre, u.competition = e.name → ∀ y, sampleDateValue u.date = some y → y < x)
        ∧ (∀ u ∈ post, u.competition = e.name →
            ∀ y, sampleDateValue u.date = some y → y ≤ x) := by
  have hmem :
      (⟨"Club Meet", "Hobart", "2024-06-01", 33, 3⟩ : CompetitionEntry)
        ∈ competitionStats sampleDateValue [slowRecord, undatedRecord, laterClubRecord] := by
    decide
  refine ⟨_, hmem, rfl, rfl, rfl, competitionStats_latest sampleDateValue _ _ hmem ?_⟩
  intro r0 hr0
  have : r0 = slowRecord := by
    have h : ([slowRecord, undatedRecord, laterClubRecord].filter
        (fun u => decide (u.competition = "Club Meet"))).head? = some slowRecord := by decide
    rw [h] at hr0
    exact (Option.some.inj hr0).symm
  rw [this]
  decide

theorem orderedInsert_congr {α : Type} (r r' : α → α → Prop) [DecidableRel r]
    [DecidableRel r'] (a : α) (l : List α) (h : ∀ b ∈ l, r a b ↔ r' a b) :
    l.orderedInsert r a = l.orderedInsert r' a := by
  induction l with
  | nil => rfl
  | cons b l ih =>
    have hb := h b (List.mem_cons_self _ _)
    have ih' := ih (fun c hc => h c (List.mem_cons_of_mem _ hc))
    by_cases hab : r a b
    · simp [List.orderedInsert, hab, hb.1 hab]
    · have hab' : ¬ r' a b := fun h' => hab (hb.2 h')
      simp [List.orderedInsert, hab, hab', ih']

theorem insertionSort_congr {α : Type} (r r' : α → α → Prop) [DecidableRel r]
    [DecidableRel r'] (l : List α) (h : ∀ a ∈ l, ∀ b ∈ l, r a b ↔ r' a b) :
    l.insertionSort r = l.insertionSort r' := by
  induction l with
  | nil => rfl
  | cons a l ih =>
    have ih' := ih (fun x hx y hy => h x (List.mem_cons_of_mem _ hx) y
      (List.mem_cons_of_mem _ hy))
    rw [List.insertionSort, List.insertionSort, ih']
    apply orderedInsert_congr
    intro b hb
    exact h a (List.mem_cons_self _ _) b
      (List.mem_cons_of_mem _ ((List.mem_insertionSort r').1 hb))

/-- C15 (failing input): with an undated club meet and a dated state
championship the list comes out with the undated entry first, whose date is
not `>=` the date of the entry after it. -/
theorem competitionStats_not_sorted :
    competitionStats sampleDateValue [undatedRecord, fastRecord]
      = [{ name := "Club Meet", location := "Perth", date := "", points := 10, events := 1 },
         { name := "State Championships", location := "Sydney", date := "2024-06-01",
           points := 20, events := 1 }]
    ∧ dateGE (sampleDateValue "") (sampleDateValue "2024-06-01") = false := by
  constructor <;> decide

/-- When every entry has a valid date, each entry of `competitionStats` has a
date `>=` the date of every entry after it. -/
theorem competitionStats_sorted_of_entries (dv : String → Option Int) (times : List TimeRecord)
    (hv : ∀ e ∈ competitionStats dv times, (dv e.date).isSome = true) :
    List.Sorted (fun a b => dateGE (dv a.date) (dv b.date) = true)
      (competitionStats dv times) := by
  have hvalid : ∀ e ∈ objectValues (times.foldl (statsStep dv) []),
      (dv e.date).isSome = true := by
    intro e he
    exact hv e ((arraySort_perm _ _).mem_iff.2 he)
  have hsort : competitionStats dv times
      = arraySort (fun a b : CompetitionEntry =>
          (-(((dv a.date).getD 0 : Int) : ℚ)) - (-(((dv b.date).getD 0 : Int) : ℚ)))
          (objectValues (times.foldl (statsStep dv) [])) := by
    unfold competitionStats arraySort
    apply insertionSort_congr
    intro a ha b hb
    obtain ⟨x, hx⟩ := Option.isSome_iff_exists.1 (hvalid a ha)
    obtain ⟨y, hy⟩ := Option.isSome_iff_exists.1 (hvalid b hb)
    simp only [hx, hy, dateDiff, Option.getD_some]
    push_cast
    constructor <;> intro h <;> linarith
  have hs := arraySort_sorted
    (fun e : CompetitionEntry => -(((dv e.date).getD 0 : Int) : ℚ))
    (objectValues (times.foldl (statsStep dv) []))
  rw [← hsort] at hs
  refine List.Pairwise.imp_of_mem ?_ hs
  intro a b ha hb hab
  obtain ⟨x, hx⟩ := Option.isSome_iff_exists.1 (hv a ha)
  obtain ⟨y, hy⟩ := Option.isSome_iff_exists.1 (hv b hb)
  simp only [hx, hy, Option.getD_some] at hab
  have hyx : (y : ℚ) ≤ (x : ℚ) := by linarith
  have : y ≤ x := by exact_mod_cast hyx
  simp [hx, hy, dateGE, this]

/-- When every record has a valid date, every entry has one, and the list is
sorted by date, latest first. -/
theorem competitionStats_sorted (dv : String → Option Int) (times : List TimeRecord)
    (hv : ∀ t ∈ times, (dv t.date).isSome = true) :
    List.Sorted (fun a b => dateGE (dv a.date) (dv b.date) = true)
      (competitionStats dv times) := by
  apply competitionStats_sorted_of_entries
  intro e he
  obtain ⟨_, _, _, _, r, hr, _, hrd, _⟩ :=
    (stats_inv dv times).2.1 _ e ((mem_competitionStats dv times e).1 he)
  rw [hrd]
  exact hv r hr

/-- Example: the club meet (2024-05-01) and the state championship
(2024-06-01) come out latest first. -/
theorem competitionStats_sorted_witness :
    List.Sorted (fun a b => dateGE (sampleDateValue a.date) (sampleDateValue b.date) = true)
      (competitionStats sampleDateValue [slowRecord, fastRecord])
    ∧ (competitionStats sampleDateValue [slowRecord, fastRecord]).map (fun e => e.name)
        = ["State Championships", "Club Meet"] := by
  constructor
  · apply competitionStats_sorted
    intro t ht
    rcases List.mem_cons.1 ht with ht | ht
    · rw [ht]; decide
    · rw [List.mem_singleton.1 ht]; decide
  · decide

/-! ## Head to head and best times -/

theorem getProp_bestStep (best : List (String × TimeRecord)) (t : TimeRecord) (k : String) :
    getProp (bestStep best t) k
      = if timeKey t = k then some (fasterOf (getProp best k) t) else getProp best k := by
  unfold bestStep
  by_cases hk : timeKey t = k
  · rw [if_pos hk, ← hk]
    cases hb : getProp best (timeKey t) with
    | none =>
      simp only [getProp_setProp, if_true, fasterOf]
    | some b =>
      simp only [fasterOf]
      by_cases hlt : t.totalSeconds < b.totalSeconds
      · simp only [if_pos hlt, getProp_setProp, if_true]
      · simp only [if_neg hlt, hb]
  · rw [if_neg hk]
    cases hb : getProp best (timeKey t) with
    | none => simp only [getProp_setProp, if_neg hk]
    | some b =>
      by_cases hlt : t.totalSeconds < b.totalSeconds
      · simp only [if_pos hlt, getProp_setProp, if_neg hk]
      · simp only [if_neg hlt]

theorem getProp_foldl_bestStep (l : List TimeRecord) :
    ∀ (best : List (String × TimeRecord)) (k : String),
      getProp (l.foldl bestStep best) k
        = (l.filter (fun t => decide (timeKey t = k))).foldl
            (fun acc t => some (fasterOf acc t)) (getProp best k) := by
  induction l with
  | nil => intro best k; rfl
  | cons t rest ih =>
    intro best k
    rw [List.foldl_cons, ih, getProp_bestStep]
    by_cases hk : timeKey t = k
    · simp [hk]
    · simp [hk]

theorem foldl_some_fasterOf (rest : List TimeRecord) (first : TimeRecord) :
    rest.foldl (fun acc t => some (fasterOf acc t)) (some first)
      = some (rest.foldl (fun best curr =>
          if curr.totalSeconds < best.totalSeconds then curr else best) first) := by
  induction rest generalizing first with
  | nil => rfl
  | cons c rest ih =>
    simp only [List.foldl_cons, fasterOf]
    exact ih _

/-- The lookup of `getBestTime` is the entry of `bestTimes` over the records
of that swimmer. -/
theorem getBestTime_eq_bestTimes (times : List TimeRecord) (sid : String) (d : Distance)
    (s : Style) (p : PoolSize) :
    getBestTime times sid d s p
      = getProp (bestTimes (times.filter (fun t => decide (t.swimmerId = sid))))
          (eventKey d s p) := by
  unfold bestTimes
  rw [getProp_foldl_bestStep, List.filter_filter]
  have hf : (fun t : TimeRecord => decide (timeKey t = eventKey d s p)
        && decide (t.swimmerId = sid))
      = (fun t : TimeRecord => decide (t.swimmerId = sid ∧ t.distance = d
          ∧ t.style = s ∧ t.poolSizeOrDefault = p)) := by
    funext t
    rw [Bool.and_comm, ← Bool.decide_and]
    exact decide_eq_decide.2
      (and_congr_right (fun _ => timeKey_eq_eventKey_iff t d s p))
  rw [hf]
  unfold getBestTime
  cases times.filter (fun t => t.swimmerId = sid ∧ t.distance = d
      ∧ t.style = s ∧ t.poolSizeOrDefault = p) with
  | nil => rfl
  | cons first rest =>
    simp only [List.foldl_cons, getProp, fasterOf]
    exact (foldl_some_fasterOf rest first).symm

/-- C23: for every swimmer id, every combination and every record list,
`getBestTime` returns exactly what `bestTimes`, applied to the records of that
swimmer, holds under the key of the combination: the same record, the first
seen among ties included, and `null` exactly when that key has no entry. -/
theorem getBestTime_refines_bestTimes (times : List TimeRecord) (sid : String) (d : Distance)
    (s : Style) (p : PoolSize) :
    getBestTime times sid d s p
        = getProp (bestTimes (times.filter (fun t => decide (t.swimmerId = sid))))
            (eventKey d s p)
    ∧ (getBestTime times sid d s p = none ↔
        getProp (bestTimes (times.filter (fun t => decide (t.swimmerId = sid))))
          (eventKey d s p) = none) := by
  have h := getBestTime_eq_bestTimes times sid d s p
  exact ⟨h, by rw [h]⟩

/-- Witness for C23: over the 62.0 s and 60.5 s records of swimmer `s1` both
lookups give the 60.5 s record. -/
theorem getBestTime_refines_bestTimes_witness :
    getBestTime [slowRecord, fastRecord] "s1" .m100 .Freestyle .m50 = some fastRecord := by
  rw [(getBestTime_refines_bestTimes [slowRecord, fastRecord] "s1" .m100 .Freestyle .m50).1]
  have hf : [slowRecord, fastRecord].filter (fun t => decide (t.swimmerId = "s1"))
      = [slowRecord, fastRecord] := rfl
  have hk : eventKey .m100 .Freestyle .m50 = "100m-Freestyle-50m" := by decide
  rw [hf, bestTimes_slow_fast, hk]
  simp [getProp]

theorem getBestTime_best (times : List TimeRecord) (sid : String) (d : Distance)
    (s : Style) (p : PoolSize) (a : TimeRecord) (h : getBestTime times sid d s p = some a) :
    a ∈ times ∧ a.swimmerId = sid ∧ a.distance = d ∧ a.style = s ∧ a.poolSizeOrDefault = p
      ∧ ∀ t ∈ times, t.swimmerId = sid → t.distance = d → t.style = s →
          t.poolSizeOrDefault = p → a.totalSeconds ≤ t.totalSeconds := by
  obtain ⟨hm, h1, h2, h3, h4⟩ := getBestTime_some_mem times sid d s p a h
  refine ⟨hm, h1, h2, h3, h4, ?_⟩
  rw [getBestTime_eq_bestTimes] at h
  obtain ⟨_, _, hmin⟩ := (bestTimes_inv _).1 _ a h
  intro t ht t1 t2 t3 t4
  exact hmin t (List.mem_filter.2 ⟨ht, by simpa using t1⟩)
    ((timeKey_eq_eventKey_iff t d s p).2 ⟨t2, t3, t4⟩)

theorem mem_comparisons_any (s1 s2 : String) (times : List TimeRecord) (e : Comparison)
    (he : e ∈ comparisons s1 s2 times) :
    ∃ d s p, ((getBestTime times s1 d s p).isSome ∨ (getBestTime times s2 d s p).isSome)
      ∧ e = { event := eventLabel d s p
              time1 := getBestTime times s1 d s p
              time2 := getBestTime times s2 d s p
              winner := winnerOf (getBestTime times s1 d s p)
                (getBestTime times s2 d s p) } := by
  by_cases h1 : s1 = ""
  · simp [comparisons, h1] at he
  · by_cases h2 : s2 = ""
    · simp [comparisons, h2] at he
    · exact (mem_comparisons s1 s2 h1 h2 times e).1 he

/-- C21: in every entry of `comparisons` the winner is 2 when `time1` is
`null`, 1 when `time1` is present and `time2` is `null`, and otherwise 1
exactly when the `totalSeconds` of `time1` is strictly smaller than that of
`time2`, so 2 on a tie; `time1` and `time2` are the fastest records of the
first and the second swimmer for the entry's combination. -/
theorem comparisons_winner (s1 s2 : String) (times : List TimeRecord) (e : Comparison)
    (he : e ∈ comparisons s1 s2 times) :
    (e.time1 = none → e.winner = 2)
    ∧ (e.time1 ≠ none → e.time2 = none → e.winner = 1)
    ∧ (∀ a b, e.time1 = some a → e.time2 = some b →
        (e.winner = 1 ↔ a.totalSeconds < b.totalSeconds)
        ∧ (e.winner = 2 ↔ ¬ a.totalSeconds < b.totalSeconds)
        ∧ (a.totalSeconds = b.totalSeconds → e.winner = 2))
    ∧ (e.winner = 1 ∨ e.winner = 2)
    ∧ (∃ d s p, e.event = eventLabel d s p
        ∧ (∀ a, e.time1 = some a → a ∈ times ∧ a.swimmerId = s1 ∧ a.distance = d
            ∧ a.style = s ∧ a.poolSizeOrDefault = p
            ∧ ∀ t ∈ times, t.swimmerId = s1 → t.distance = d → t.style = s →
                t.poolSizeOrDefault = p → a.totalSeconds ≤ t.totalSeconds)
        ∧ (∀ b, e.time2 = some b → b ∈ times ∧ b.swimmerId = s2 ∧ b.distance = d
            ∧ b.style = s ∧ b.poolSizeOrDefault = p
            ∧ ∀ t ∈ times, t.swimmerId = s2 → t.distance = d → t.style = s →
                t.poolSizeOrDefault = p → b.totalSeconds ≤ t.totalSeconds)) := by
  obtain ⟨d, s, p, _, rfl⟩ := mem_comparisons_any s1 s2 times e he
  refine ⟨?_, ?_, ?_, ?_, ⟨d, s, p, rfl, ?_, ?_⟩⟩
  · intro h
    simp only at h
    simp only [h, winnerOf]
  · intro h1 h2
    simp only at h1 h2
    cases hg : getBestTime times s1 d s p with
    | none => exact absurd hg h1
    | some a => simp only [h2, winnerOf]
  · intro a b ha hb
    simp only at ha hb
    simp only [ha, hb, winnerOf]
    by_cases hlt : a.totalSeconds < b.totalSeconds
    · simp [hlt]
      intro heq
      rw [heq] at hlt
      exact absurd hlt (lt_irrefl _)
    · simp [hlt]
  · simp only [winnerOf]
    cases getBestTime times s1 d s p with
    | none => exact Or.inr rfl
    | some a =>
      cases getBestTime times s2 d s p with
      | none => exact Or.inl rfl
      | some b =>
        by_cases hlt : a.totalSeconds < b.totalSeconds
        · simp [hlt]
        · simp [hlt]
  · intro a ha
    exact getBestTime_best times s1 d s p a ha
  · intro b hb
    exact getBestTime_best times s2 d s p b hb

/-- Witness for C21: swimmer `s1` has a 100m Freestyle record, swimmer `s2`
has none, and the winner of that entry is 1. -/
theorem comparisons_winner_witness :
    ∃ e ∈ comparisons "s1" "s2" [slowRecord, medleyRecord],
      e.event = eventLabel .m100 .Freestyle .m50 ∧ e.time2 = none ∧ e.winner = 1 := by
  have h1 : getBestTime [slowRecord, medleyRecord] "s1" .m100 .Freestyle .m50
      = some slowRecord := rfl
  have h2 : getBestTime [slowRecord, medleyRecord] "s2" .m100 .Freestyle .m50 = none := rfl
  have hmem : ({ event := eventLabel .m100 .Freestyle .m50
                 time1 := getBestTime [slowRecord, medleyRecord] "s1" .m100 .Freestyle .m50
                 time2 := getBestTime [slowRecord, medleyRecord] "s2" .m100 .Freestyle .m50
                 winner := winnerOf
                   (getBestTime [slowRecord, medleyRecord] "s1" .m100 .Freestyle .m50)
                   (getBestTime [slowRecord, medleyRecord] "s2" .m100 .Freestyle .m50) }
        : Comparison) ∈ comparisons "s1" "s2" [slowRecord, medleyRecord] :=
    (mem_comparisons "s1" "s2" (by decide) (by decide) _ _).2
      ⟨.m100, .Freestyle, .m50, Or.inl (by rw [h1]; rfl), rfl⟩
  refine ⟨_, hmem, rfl, h2, ?_⟩
  exact (comparisons_winner "s1" "s2" _ _ hmem).2.1 (by simp [h1]) h2

/-! ## Head to head: order of the entries -/

theorem getBestTime_isSome_iff (times : List TimeRecord) (sid : String) (d : Distance)
    (s : Style) (p : PoolSize) :
    (getBestTime times sid d s p).isSome = true ↔
      ∃ t ∈ times, t.swimmerId = sid ∧ t.distance = d ∧ t.style = s
        ∧ t.poolSizeOrDefault = p := by
  have hn := getBestTime_eq_none_iff times sid d s p
  cases hg : getBestTime times sid d s p with
  | none =>
    rw [hg] at hn
    simp only [Option.isSome_none, Bool.false_eq_true, false_iff]
    rintro ⟨t, ht, hm⟩
    exact hn.1 rfl t ht hm
  | some r =>
    rw [hg] at hn
    simp only [Option.isSome_some, true_iff]
    by_contra hcon
    push_neg at hcon
    have := hn.2 (fun t ht hm => hcon t ht hm.1 hm.2.1 hm.2.2.1 hm.2.2.2)
    exact Option.noConfusion this

theorem flatMap_if_singleton {α β : Type} (p : α → Prop) [DecidablePred p] (g : α → β)
    (l : List α) :
    l.flatMap (fun x => if p x then [g x] else []) = (l.filter (fun x => decide (p x))).map g := by
  induction l with
  | nil => rfl
  | cons a l ih =>
    rw [List.flatMap_cons, ih]
    by_cases h : p a
    · simp [h]
    · simp [h]

theorem comparisons_eq_flatMap (s1 s2 : String) (h1 : s1 ≠ "") (h2 : s2 ≠ "")
    (times : List TimeRecord) :
    comparisons s1 s2 times
      = allCombinations.flatMap (fun c => comparisonFor s1 s2 times c.1 c.2.1 c.2.2) := by
  have hsel : ¬ (s1 = "" ∨ s2 = "") := by
    rintro (h | h)
    · exact h1 h
    · exact h2 h
  unfold comparisons allCombinations
  rw [if_neg hsel]
  simp only [List.flatMap_assoc, List.flatMap_map]

theorem comparisons_events (s1 s2 : String) (h1 : s1 ≠ "") (h2 : s2 ≠ "")
    (times : List TimeRecord) :
    (comparisons s1 s2 times).map (fun e => e.event)
      = (allCombinations.filter (fun c => decide (∃ t ∈ times,
            (t.swimmerId = s1 ∨ t.swimmerId = s2) ∧ t.distance = c.2.1 ∧ t.style = c.1
              ∧ t.poolSizeOrDefault = c.2.2))).map
          (fun c => eventLabel c.2.1 c.1 c.2.2) := by
  rw [comparisons_eq_flatMap s1 s2 h1 h2, List.map_flatMap]
  have hstep : ∀ c : Style × Distance × PoolSize,
      (comparisonFor s1 s2 times c.1 c.2.1 c.2.2).map (fun e => e.event)
        = if (∃ t ∈ times, (t.swimmerId = s1 ∨ t.swimmerId = s2) ∧ t.distance = c.2.1
              ∧ t.style = c.1 ∧ t.poolSizeOrDefault = c.2.2)
          then [eventLabel c.2.1 c.1 c.2.2] else [] := by
    intro c
    have hiff : ((getBestTime times s1 c.2.1 c.1 c.2.2).isSome = true
          ∨ (getBestTime times s2 c.2.1 c.1 c.2.2).isSome = true)
        ↔ ∃ t ∈ times, (t.swimmerId = s1 ∨ t.swimmerId = s2) ∧ t.distance = c.2.1
              ∧ t.style = c.1 ∧ t.poolSizeOrDefault = c.2.2 := by
      rw [getBestTime_isSome_iff, getBestTime_isSome_iff]
      constructor
      · rintro (⟨t, ht, a, b⟩ | ⟨t, ht, a, b⟩)
        · exact ⟨t, ht, Or.inl a, b⟩
        · exact ⟨t, ht, Or.inr a, b⟩
      · rintro ⟨t, ht, a | a, b⟩
        · exact Or.inl ⟨t, ht, a, b⟩
        · exact Or.inr ⟨t, ht, a, b⟩
    unfold comparisonFor
    by_cases hc : (getBestTime times s1 c.2.1 c.1 c.2.2).isSome = true
        ∨ (getBestTime times s2 c.2.1 c.1 c.2.2).isSome = true
    · rw [if_pos hc, if_pos (hiff.1 hc)]
      rfl
    · rw [if_neg hc, if_neg (fun h => hc (hiff.2 h))]
      rfl
  simp only [hstep]
  exact flatMap_if_singleton _ _ _

theorem allCombinations_labels_nodup :
    (allCombinations.map (fun c => eventLabel c.2.1 c.1 c.2.2)).Nodup := by
  apply List.Nodup.map
  · intro c c' h
    obtain ⟨s, d, p⟩ := c
    obtain ⟨s', d', p'⟩ := c'
    obtain ⟨e1, e2, e3⟩ := eventLabel_inj _ _ _ _ _ _ h
    simp only at e1 e2 e3
    rw [e1, e2, e3]
  · have hprod : allCombinations = List.product STYLES (List.product DISTANCES POOL_SIZES) := by
      simp only [allCombinations, List.product, List.map_flatMap, List.map_map]
      rfl
    rw [hprod]
    exact List.Nodup.product (by decide) (List.Nodup.product (by decide) (by decide))

theorem comparisons_events_sublist (s1 s2 : String) (times : List TimeRecord) :
    ((comparisons s1 s2 times).map (fun e => e.event)).Sublist
      (allCombinations.map (fun c => eventLabel c.2.1 c.1 c.2.2)) := by
  by_cases h1 : s1 = ""
  · simp [comparisons, h1]
  · by_cases h2 : s2 = ""
    · simp [comparisons, h2]
    · rw [comparisons_events s1 s2 h1 h2]
      exact (List.filter_sublist _).map _

/-- C22: the events of `comparisons` are the labels of the combinations for
which one of the two swimmers has a record, in the order of the fixed
enumeration (styles outermost, then distances, then pool sizes); they form a
sublist of the 180 distinct labels of that enumeration, so no combination
appears twice and there are at most 180 entries; a reordering of the input
records, whatever their times, leaves the events and their order unchanged. -/
theorem comparisons_order (s1 s2 : String) (times : List TimeRecord) :
    ((comparisons s1 s2 times).map (fun e => e.event)).Sublist
        (allCombinations.map (fun c => eventLabel c.2.1 c.1 c.2.2))
    ∧ (s1 ≠ "" → s2 ≠ "" →
        (comparisons s1 s2 times).map (fun e => e.event)
          = (allCombinations.filter (fun c => decide (∃ t ∈ times,
              (t.swimmerId = s1 ∨ t.swimmerId = s2) ∧ t.distance = c.2.1 ∧ t.style = c.1
                ∧ t.poolSizeOrDefault = c.2.2))).map
            (fun c => eventLabel c.2.1 c.1 c.2.2))
    ∧ allCombinations.length = 180
    ∧ (allCombinations.map (fun c => eventLabel c.2.1 c.1 c.2.2)).Nodup
    ∧ ((comparisons s1 s2 times).map (fun e => e.event)).Nodup
    ∧ (comparisons s1 s2 times).length ≤ 180
    ∧ (∀ times' : List TimeRecord, times'.Perm times →
        (comparisons s1 s2 times').map (fun e => e.event)
          = (comparisons s1 s2 times).map (fun e => e.event)) := by
  have hsub := comparisons_events_sublist s1 s2 times
  refine ⟨hsub, fun h1 h2 => comparisons_events s1 s2 h1 h2 times, rfl,
    allCombinations_labels_nodup,
    hsub.nodup allCombinations_labels_nodup, ?_, ?_⟩
  · have := hsub.length_le
    simpa using this
  · intro times' hperm
    by_cases h1 : s1 = ""
    · simp [comparisons, h1]
    · by_cases h2 : s2 = ""
      · simp [comparisons, h2]
      · rw [comparisons_events s1 s2 h1 h2, comparisons_events s1 s2 h1 h2]
        congr 1
        apply List.filter_congr
        intro c _
        apply decide_eq_decide.2
        constructor
        · rintro ⟨t, ht, h⟩
          exact ⟨t, hperm.mem_iff.1 ht, h⟩
        · rintro ⟨t, ht, h⟩
          exact ⟨t, hperm.mem_iff.2 ht, h⟩

/-- Witness for C22: the Medley record comes first in the input, yet the
Freestyle event comes first in the result. -/
theorem comparisons_order_witness :
    (comparisons "s1" "s2" [medleyRecord, slowRecord]).map (fun e => e.event)
      = ["100m Freestyle (50m)", "200m Medley (25m)"] := by
  rw [(comparisons_order "s1" "s2" [medleyRecord, slowRecord]).2.1 (by decide) (by decide)]
  rfl

/-! ## Head to head: exchanging the swimmers -/

theorem comparisonFor_swap (a b : String) (times : List TimeRecord) (s : Style)
    (d : Distance) (p : PoolSize) :
    comparisonFor b a times s d p = (comparisonFor a b times s d p).map Comparison.swap := by
  unfold comparisonFor
  by_cases h : (getBestTime times a d s p).isSome = true
      ∨ (getBestTime times b d s p).isSome = true
  · rw [if_pos h, if_pos h.symm]
    rfl
  · rw [if_neg h, if_neg (fun h' => h h'.symm)]
    rfl

theorem comparisons_map_swap (a b : String) (times : List TimeRecord) :
    comparisons b a times = (comparisons a b times).map Comparison.swap := by
  unfold comparisons
  by_cases h : a = "" ∨ b = ""
  · rw [if_pos h, if_pos h.symm]
    rfl
  · rw [if_neg h, if_neg (fun h' => h h'.symm)]
    simp only [List.map_flatMap, ← comparisonFor_swap]

/-- C25: `comparisons(b, a)` is `comparisons(a, b)` entry by entry with the
two times exchanged: same events in the same order, `time1` and `time2`
swapped; where both swimmers have a best time with equal `totalSeconds` both
results report winner 2, and in every other entry the winner is flipped. -/
theorem comparisons_swap (a b : String) (times : List TimeRecord) :
    comparisons b a times = (comparisons a b times).map Comparison.swap
    ∧ (comparisons b a times).map (fun e => e.event)
        = (comparisons a b times).map (fun e => e.event)
    ∧ (∀ e ∈ comparisons a b times,
        e.swap.event = e.event ∧ e.swap.time1 = e.time2 ∧ e.swap.time2 = e.time1
        ∧ ((∃ x y, e.time1 = some x ∧ e.time2 = some y ∧ x.totalSeconds = y.totalSeconds) →
            e.winner = 2 ∧ e.swap.winner = 2)
        ∧ ((¬ ∃ x y, e.time1 = some x ∧ e.time2 = some y
              ∧ x.totalSeconds = y.totalSeconds) →
            (e.winner = 1 ∧ e.swap.winner = 2) ∨ (e.winner = 2 ∧ e.swap.winner = 1))) := by
  refine ⟨comparisons_map_swap a b times, ?_, ?_⟩
  · rw [comparisons_map_swap a b times, List.map_map]
    rfl
  · intro e he
    obtain ⟨d, s, p, hc, rfl⟩ := mem_comparisons_any a b times e he
    refine ⟨rfl, rfl, rfl, ?_, ?_⟩
    · rintro ⟨x, y, hx, hy, hxy⟩
      simp only at hx hy
      simp only [Comparison.swap, hx, hy, winnerOf, hxy, lt_irrefl, if_false, and_self]
    · intro hnt
      simp only [Comparison.swap]
      cases hx : getBestTime times a d s p with
      | none =>
        cases hy : getBestTime times b d s p with
        | none =>
          rw [hx, hy] at hc
          simp at hc
        | some y => exact Or.inr ⟨rfl, rfl⟩
      | some x =>
        cases hy : getBestTime times b d s p with
        | none => exact Or.inl ⟨rfl, rfl⟩
        | some y =>
          have hne : x.totalSeconds ≠ y.totalSeconds := by
            intro heq
            exact hnt ⟨x, y, by simp only [hx], by simp only [hy], heq⟩
          simp only [winnerOf]
          rcases lt_or_gt_of_ne hne with hlt | hgt
          · left
            simp [hlt, not_lt.2 (le_of_lt hlt)]
          · right
            simp [hgt, not_lt.2 (le_of_lt hgt)]

/-- Witness for C25: with the swimmers exchanged the Freestyle event, which
only `s1` swam, is won by swimmer 2 and the Medley event by swimmer 1. -/
theorem comparisons_swap_witness :
    (comparisons "s2" "s1" [slowRecord, medleyRecord]).map (fun e => (e.event, e.winner))
      = [("100m Freestyle (50m)", 2), ("200m Medley (25m)", 1)] := by
  rw [(comparisons_swap "s1" "s2" [slowRecord, medleyRecord]).1]
  rfl

/-! ## The fastest record of a group and the best time -/

theorem head?_filter_of_head? {α : Type} (p : α → Bool) (l : List α) (h : α)
    (hl : l.head? = some h) (hp : p h = true) : (l.filter p).head? = some h := by
  cases l with
  | nil => simp at hl
  | cons a rest =>
    simp only [List.head?_cons, Option.some.injEq] at hl
    subst hl
    simp [List.filter_cons, hp]

theorem bestTimes_first_decomp (times : List TimeRecord) (k : String) (r : TimeRecord)
    (h : getProp (bestTimes times) k = some r) :
    ∃ pre post, times = pre ++ r :: post ∧ timeKey r = k
      ∧ (∀ u ∈ pre, timeKey u = k → r.totalSeconds < u.totalSeconds)
      ∧ (∀ u ∈ post, timeKey u = k → r.totalSeconds ≤ u.totalSeconds) := by
  have := foldl_bestStep_first times [] []
    (fun k r h => by simp [getProp] at h) (fun u hu => by simp at hu)
  simp only [List.nil_append] at this
  exact this k r h

theorem passesFilters_none (t : TimeRecord) : passesFilters none none none t = true := by
  simp [passesFilters]

theorem group_head_eq_best (times : List TimeRecord) (k : String) (g : RecordGroup)
    (hg : getProp (groupedRecords none none none times) k = some g) :
    g.times.head? = getProp (bestTimes times) k := by
  have hfilt : times.filter (passesFilters none none none) = times := by
    rw [List.filter_eq_self]
    intro t _
    exact passesFilters_none t
  have hmem : ∀ t, t ∈ g.times ↔ t ∈ times ∧ timeKey t = k := by
    intro t
    rw [mem_group_iff none none none times k g hg t]
    simp [passesFilters_none]
  have htimes : g.times = arraySort (fun a b => a.totalSeconds - b.totalSeconds)
      ((arraySort (fun a b => a.totalSeconds - b.totalSeconds) times).filter
        (fun u => decide (timeKey u = k))) := by
    rw [((groupedRecords_inv none none none times).1 k g hg).2, filteredTimes_eq, hfilt]
  obtain ⟨u, hu, huk⟩ := groupedRecords_key_mem none none none times k g hg
  have hut : u ∈ times := ((mem_filteredTimes none none none times u).1 hu).1
  obtain ⟨r, hr⟩ := (bestTimes_inv times).2 u hut
  rw [huk] at hr
  obtain ⟨pre, post, hdec, hrk, hpre, hpost⟩ := bestTimes_first_decomp times k r hr
  obtain ⟨hrmem, _, hrmin⟩ := first_decomp_min times k r ⟨pre, post, hdec, hrk, hpre, hpost⟩
  have hsorted : List.Sorted (fun a b : TimeRecord => a.totalSeconds ≤ b.totalSeconds)
      g.times := by
    rw [htimes]
    exact arraySort_sorted (fun t : TimeRecord => t.totalSeconds) _
  cases hts : g.times with
  | nil =>
    have : u ∈ g.times := (hmem u).2 ⟨hut, huk⟩
    rw [hts] at this
    exact absurd this (List.not_mem_nil _)
  | cons h rest =>
    have hh : h ∈ g.times := by rw [hts]; exact List.mem_cons_self _ _
    obtain ⟨hht, hhk⟩ := (hmem h).1 hh
    have hle1 : r.totalSeconds ≤ h.totalSeconds := hrmin h hht hhk
    have hle2 : h.totalSeconds ≤ r.totalSeconds := by
      have hrg : r ∈ g.times := (hmem r).2 ⟨hrmem, hrk⟩
      rw [hts] at hrg hsorted
      rcases List.mem_cons.1 hrg with h1 | h1
      · rw [h1]
      · exact List.rel_of_sorted_cons hsorted r h1
    have hv : h.totalSeconds = r.totalSeconds := le_antisymm hle2 hle1
    have hhead : (g.times.filter (fun t => decide (t.totalSeconds = r.totalSeconds))).head?
        = some h :=
      head?_filter_of_head? _ _ h (by rw [hts]; rfl) (by simpa using hv)
    have hchain : g.times.filter (fun t => decide (t.totalSeconds = r.totalSeconds))
        = (times.filter (fun t => decide (t.totalSeconds = r.totalSeconds))).filter
            (fun u => decide (timeKey u = k)) := by
      rw [htimes, arraySort_stable (fun t : TimeRecord => t.totalSeconds) r.totalSeconds,
        List.filter_filter, ← arraySort_stable (fun t : TimeRecord => t.totalSeconds)
          r.totalSeconds times, List.filter_filter]
      apply List.filter_congr
      intro t _
      exact Bool.and_comm _ _
    have hpre0 : (pre.filter (fun t => decide (t.totalSeconds = r.totalSeconds))).filter
        (fun u => decide (timeKey u = k)) = [] := by
      rw [List.filter_filter, List.filter_eq_nil_iff]
      intro t ht
      simp only [Bool.and_eq_true, decide_eq_true_eq, not_and]
      intro htk hts'
      exact absurd hts' (ne_of_gt (hpre t ht htk))
    rw [hchain, hdec, List.filter_append, List.filter_append, hpre0] at hhead
    simp [List.filter_cons, hrk] at hhead
    rw [hr, List.head?_cons, hhead]

/-- C24: with no filter active, the first record of every group of
`groupedRecords` is the record that `bestTimes` holds under the same key over
the same list, ties included, and a key has a group exactly when it has a
best time. -/
theorem groupedRecords_head_eq_bestTimes (times : List TimeRecord) :
    (∀ k g, getProp (groupedRecords none none none times) k = some g →
      g.times.head? = getProp (bestTimes times) k)
    ∧ (∀ k, getProp (groupedRecords none none none times) k = none ↔
        getProp (bestTimes times) k = none) := by
  refine ⟨fun k g hg => group_head_eq_best times k g hg, ?_⟩
  intro k
  constructor
  · intro hnone
    cases hb : getProp (bestTimes times) k with
    | none => rfl
    | some r =>
      obtain ⟨hrm, hrk, _⟩ := (bestTimes_inv times).1 k r hb
      obtain ⟨g, hg⟩ := (groupedRecords_inv none none none times).2 r
        ((mem_filteredTimes none none none times r).2 ⟨hrm, passesFilters_none r⟩)
      rw [hrk, hnone] at hg
      exact Option.noConfusion hg
  · intro hnone
    cases hgr : getProp (groupedRecords none none none times) k with
    | none => rfl
    | some g =>
      obtain ⟨u, hu, huk⟩ := groupedRecords_key_mem none none none times k g hgr
      obtain ⟨r, hr⟩ := (bestTimes_inv times).2 u
        ((mem_filteredTimes none none none times u).1 hu).1
      rw [huk, hnone] at hr
      exact Option.noConfusion hr

/-- Witness for C24: over 62.0 s, 60.5 s and a second 60.5 s the group starts
with the first 60.5 s record, which is also the best time. -/
theorem groupedRecords_head_eq_bestTimes_witness :
    ∃ g, getProp (groupedRecords none none none ([slowRecord, fastRecord] ++ [tieRecord]))
        (timeKey fastRecord) = some g
      ∧ g.times.head? = some fastRecord := by
  obtain ⟨g, hg⟩ := (groupedRecords_inv none none none
    ([slowRecord, fastRecord] ++ [tieRecord])).2 fastRecord
    ((mem_filteredTimes none none none _ fastRecord).2 ⟨by simp, by decide⟩)
  refine ⟨g, hg, ?_⟩
  rw [(groupedRecords_head_eq_bestTimes _).1 _ g hg]
  have hk : timeKey tieRecord = "100m-Freestyle-50m" := by decide
  have hk2 : timeKey fastRecord = "100m-Freestyle-50m" := by decide
  have hbest : bestTimes ([slowRecord, fastRecord] ++ [tieRecord])
      = [("100m-Freestyle-50m", fastRecord)] :=
    (bestTimes_append_of_not_lt [slowRecord, fastRecord] tieRecord fastRecord
      (by rw [bestTimes_slow_fast, hk]; simp [getProp])
      (by norm_num [tieRecord, fastRecord])).trans bestTimes_slow_fast
  rw [hbest, hk2]
  simp [getProp]

/-! ## Points totals -/

theorem sum_setProp (f : CompetitionEntry → Int) (obj : List (String × CompetitionEntry))
    (k : String) (v : CompetitionEntry) :
    ((setProp obj k v).map (fun kv => f kv.2)).sum
      = (obj.map (fun kv => f kv.2)).sum - ((getProp obj k).map f).getD 0 + f v := by
  induction obj with
  | nil => simp [setProp, getProp]
  | cons kv rest ih =>
    obtain ⟨k0, v0⟩ := kv
    by_cases h : k0 = k
    · simp [setProp, getProp, h]
      ring
    · simp only [setProp, getProp, if_neg h, List.map_cons, List.sum_cons, ih]
      ring

theorem sum_points_statsStep (dv : String → Option Int)
    (stats : List (String × CompetitionEntry)) (t : TimeRecord) :
    ((statsStep dv stats t).map (fun kv => kv.2.points)).sum
      = (stats.map (fun kv => kv.2.points)).sum
        + (if t.competition ∈ objectPrototypeKeys then 0 else t.points.getD 0) := by
  unfold statsStep
  by_cases hp : t.competition ∈ objectPrototypeKeys
  · rw [if_pos hp, if_pos hp, add_zero]
  · rw [if_neg hp, if_neg hp]
    simp only
    rw [sum_setProp (fun e => e.points)]
    cases hg : getProp stats t.competition with
    | none =>
      simp only [Option.getD_none, Option.map_none']
      split <;> simp
    | some e0 =>
      simp only [Option.getD_some, Option.map_some']
      split <;> (simp; ring)

theorem sum_points_foldl_statsStep (dv : String → Option Int) (l : List TimeRecord) :
    ∀ stats : List (String × CompetitionEntry),
      ((l.foldl (statsStep dv) stats).map (fun kv => kv.2.points)).sum
        = (stats.map (fun kv => kv.2.points)).sum
          + totalPoints (l.filter (fun t => decide (t.competition ∉ objectPrototypeKeys))) := by
  induction l with
  | nil => intro stats; simp [totalPoints]
  | cons t rest ih =>
    intro stats
    rw [List.foldl_cons, ih, sum_points_statsStep]
    unfold totalPoints
    by_cases hp : t.competition ∈ objectPrototypeKeys
    · simp [hp]
    · simp only [hp, if_false, List.filter_cons, not_false_eq_true, decide_True, if_true,
        foldl_add_eq_sum, List.map_cons, List.sum_cons]
      ring

/-- The points of the entries of `competitionStats` add up to the points of
the records whose competition name is not inherited from `Object.prototype`;
when no record has such a name, to the dashboard's `totalPoints`. -/
theorem competitionStats_points_sum (dv : String → Option Int) (times : List TimeRecord) :
    ((competitionStats dv times).map (fun e => e.points)).sum
        = totalPoints (times.filter (fun t => decide (t.competition ∉ objectPrototypeKeys)))
    ∧ ((∀ t ∈ times, t.competition ∉ objectPrototypeKeys) →
        ((competitionStats dv times).map (fun e => e.points)).sum = totalPoints times) := by
  have hsum : ((competitionStats dv times).map (fun e => e.points)).sum
      = totalPoints (times.filter
          (fun t => decide (t.competition ∉ objectPrototypeKeys))) := by
    have hperm : ((competitionStats dv times).map (fun e => e.points)).Perm
        ((times.foldl (statsStep dv) []).map (fun kv => kv.2.points)) := by
      have h1 := ((arraySort_perm
        (fun a b : CompetitionEntry => dateDiff (dv b.date) (dv a.date))
        (objectValues (times.foldl (statsStep dv) []))).trans
        (objectValues_perm _)).map (fun e => e.points)
      rw [List.map_map] at h1
      exact h1
    rw [hperm.sum_eq, sum_points_foldl_statsStep]
    simp
  refine ⟨hsum, ?_⟩
  intro hall
  rw [hsum]
  congr 1
  rw [List.filter_eq_self]
  intro t ht
  simpa using hall t ht

/-- The leaderboard total, the profile card total and the dashboard total
over the swimmer's records are one and the same sum. -/
theorem points_totals_agree (times : List TimeRecord) (swimmer : Swimmer) :
    (rankingEntry times swimmer).totalPoints = swimmerPoints times swimmer
    ∧ swimmerPoints times swimmer
        = totalPoints (times.filter (fun t => decide (t.swimmerId = swimmer.id)))
    ∧ (∀ e ∈ ranking [swimmer] times, e.totalPoints = swimmerPoints times swimmer) :=
  ⟨rfl, rfl, by
    intro e he
    have := (ranking_perm [swimmer] times).mem_iff.1 he
    simp only [List.map_cons, List.map_nil, List.mem_singleton] at this
    rw [this]
    rfl⟩

/-- C26 (failing input): for swimmer `s1` with the one record of the
competition named `constructor`, worth 20 points, the leaderboard, the profile
card and the dashboard all total 20, while the entries of `competitionStats`
over the swimmer's records total 0. -/
theorem points_totals_inherited_name :
    (rankingEntry [constructorRecord] sampleSwimmer).totalPoints = 20
    ∧ swimmerPoints [constructorRecord] sampleSwimmer = 20
    ∧ totalPoints ([constructorRecord].filter
        (fun t => decide (t.swimmerId = sampleSwimmer.id))) = 20
    ∧ ∀ dv : String → Option Int,
        ((competitionStats dv ([constructorRecord].filter
          (fun t => decide (t.swimmerId = sampleSwimmer.id)))).map
            (fun e => e.points)).sum = 0 := by
  refine ⟨by decide, by decide, by decide, ?_⟩
  intro dv
  have hf : [constructorRecord].filter (fun t => decide (t.swimmerId = sampleSwimmer.id))
      = [constructorRecord] := rfl
  rw [hf, (competitionStats_points_sum dv [constructorRecord]).1]
  decide

end NatMarks
